import Mathlib

/-!
Verification development for the EBM counterfactual engine
(`src/ebm/gamcoach.js`): a shallow embedding in Lean 4 of the scoring
engine (`EBM.countScore`, `EBMLocal`), the option generators
(`generateContOptions`, `generateCatOptions`, `generateInterOptions`),
the optimization-model builder (`MILP.createMILP`) and the orchestrator
(`GAMCoach.generateCfs` / `generateSubCfs` / `convertCfToData`), together
with theorems settling the frozen claims about them.

Modelling conventions:
* JavaScript numbers are modelled by `ℚ` (exact arithmetic; the numeric
  literals of the source such as `1e-4` become exact rationals).
* JavaScript array indexing `a[i]`, which yields `undefined` out of
  range, is modelled by `Option`-valued lookup (`jsGet`); where a claim
  only concerns the in-range behaviour the theorems carry wellformedness
  hypotheses and the embedding uses a defaulted lookup.
* Sample entries are numbers or level strings, modelled by `JsVal`.
* The transcendental `sigmoid` (with its 5-decimal rounding) is not
  representable over `ℚ`; every definition that needs it takes an
  arbitrary function `sig : ℚ → ℚ` as a parameter, and no claim below
  depends on the value of `sig`.
* The external GLPK solver is modelled as a parameter
  `solve : MilpModel → Option (List String × ℚ)` mirroring the collaborator
  contract (status optimal with active variables, or failure).
-/

/-- Element lookup of a rational array in JavaScript style: an index that is
negative or past the end yields `none` (the analogue of `undefined`). -/
def jsGet (l : List ℚ) (i : ℤ) : Option ℚ :=
  if 0 ≤ i then l.get? i.toNat else none

/-- Defaulted variant of `jsGet`, used where the wellformedness hypotheses of
the surrounding theorem guarantee the index is in range. -/
def jsGetD (l : List ℚ) (i : ℤ) : ℚ :=
  (jsGet l i).getD 0

/-- JavaScript `indexOf` on an array of numbers: the first index holding the
value, or `-1` when the value is absent. -/
def jsIndexOf (l : List ℚ) (v : ℚ) : ℤ :=
  match l.findIdx? (fun x => x == v) with
  | some i => (i : ℤ)
  | none => -1

/-- JavaScript `indexOf` on an array of strings. -/
def jsIndexOfStr (l : List String) (v : String) : ℤ :=
  match l.findIdx? (fun x => x == v) with
  | some i => (i : ℤ)
  | none => -1

/-- Loop of `searchSortedLowerIndex` from the source: binary search keeping
`left`/`right` cursors, comparing against `sorted[i]`; comparisons against an
out-of-range element (`undefined` in JavaScript) are false, which is what the
`Option.any` encoding gives. -/
def sslGo (sorted : List ℚ) (value : ℚ) (left right : ℤ) : ℤ :=
  if _h : right - left > 1 then
    if (jsGet sorted (left + (right - left) / 2)).any (fun x => value > x) then
      sslGo sorted value (left + (right - left) / 2) right
    else if (jsGet sorted (left + (right - left) / 2)).any (fun x => value < x) then
      sslGo sorted value left (left + (right - left) / 2)
    else left + (right - left) / 2
  else
    if (jsGet sorted right).any (fun x => value ≥ x) then right
    else if (jsGet sorted left).any (fun x => value < x) then left
    else right - 1
termination_by (right - left).toNat
decreasing_by
  all_goals omega

/-- Find the lower bound index where inserting `value` into `sorted` keeps it
ordered (function `searchSortedLowerIndex` of the source). -/
def searchSortedLowerIndex (sorted : List ℚ) (value : ℚ) : ℤ :=
  sslGo sorted value 0 ((sorted.length : ℤ) - 1)

/-- Sample entry: a JavaScript value that is either a number or a level
string (categorical features carry their level as a string). -/
inductive JsVal where
  | num (q : ℚ)
  | str (s : String)
deriving DecidableEq, Repr

/-- Numeric view of a `JsVal`; the wellformedness hypotheses of the theorems
guarantee it is only taken on numbers. -/
def JsVal.toQ : JsVal → ℚ
  | .num q => q
  | .str _ => 0

/-- The trained EBM model after the preprocessing done by the `EBM`
constructor: per-feature bin edges (continuous features have dropped their
trailing upper edge, categorical features store level codes) with parallel
additive scores, interaction index pairs with their two bin-edge axes and 2-D
score grids, the intercept, and the categorical label encoder/decoder. -/
structure EBMModel where
  featureNames : List String
  featureTypes : List String
  binEdges : List (List ℚ)
  scores : List (List ℚ)
  intercept : ℚ
  interactionIndexes : List (ℕ × ℕ)
  interactionBinEdges : List (List ℚ × List ℚ)
  interactionScores : List (List (List ℚ))
  isClassifier : Bool
  labelEncoder : String → JsVal → Option ℤ
  labelDecoder : String → ℤ → Option String

/-- Encoding step shared by `countScore`, `updateFeature` and
`generateInterOptions`: categorical level strings become their integer codes,
an unseen level becomes code 0; other entries keep their numeric value. -/
def encodeSample (m : EBMModel) (sample : List JsVal) : List ℚ :=
  (List.range sample.length).map (fun j =>
    if m.featureTypes.getD j "" = "categorical" then
      match m.labelEncoder (m.featureNames.getD j "") (sample.getD j (.num 0)) with
      | some c => (c : ℚ)
      | none => 0
    else (sample.getD j (.num 0)).toQ)

/-- Main-effect contribution of feature `j` for the encoded sample `es`
(the body of the first loop of `EBM.countScore`). -/
def mainScoreOf (m : EBMModel) (es : List ℚ) (j : ℕ) : ℚ :=
  let curFeature := es.getD j 0
  if m.featureTypes.getD j "" = "continuous" then
    jsGetD (m.scores.getD j []) (searchSortedLowerIndex (m.binEdges.getD j []) curFeature)
  else
    let binIndex := jsIndexOf (m.binEdges.getD j []) curFeature
    if binIndex < 0 then 0 else jsGetD (m.scores.getD j []) binIndex

/-- Bin index along one axis of interaction term `k` (position `pos`, feature
index `idx`) for the encoded sample `es`, mirroring the per-axis lookup of
`EBM.countScore`. -/
def interBinOf (m : EBMModel) (es : List ℚ) (k : ℕ) (pos : ℕ) (idx : ℕ) : ℤ :=
  let edges := if pos = 0 then (m.interactionBinEdges.getD k ([], [])).1
               else (m.interactionBinEdges.getD k ([], [])).2
  if m.featureTypes.getD idx "" = "continuous" then
    searchSortedLowerIndex edges (es.getD idx 0)
  else
    jsIndexOf edges (es.getD idx 0)

/-- Score grid lookup for interaction term `k` at a pair of bin indexes; a
negative index on either axis yields score 0, as in the source. -/
def interScoreAt (m : EBMModel) (k : ℕ) (b1 b2 : ℤ) : ℚ :=
  if b1 < 0 ∨ b2 < 0 then 0
  else jsGetD ((m.interactionScores.getD k []).getD b1.toNat []) b2

/-- Interaction contribution of interaction term `k` for the encoded sample
`es` (the body of the second loop of `EBM.countScore`). -/
def interScoreOf (m : EBMModel) (es : List ℚ) (k : ℕ) : ℚ :=
  let idxs := m.interactionIndexes.getD k (0, 0)
  interScoreAt m k (interBinOf m es k 0 idxs.1) (interBinOf m es k 1 idxs.2)

/-- Key under which interaction term `k` is recorded in the score map. -/
def interName (m : EBMModel) (k : ℕ) : String :=
  let idxs := m.interactionIndexes.getD k (0, 0)
  (m.featureNames.getD idxs.1 "") ++ " x " ++ (m.featureNames.getD idxs.2 "")

/-- Main-effect rows of the score map, in feature order. -/
def countScoreMains (m : EBMModel) (es : List ℚ) (len : ℕ) :
    List (String × ℚ) :=
  (List.range len).map (fun j => (m.featureNames.getD j "", mainScoreOf m es j))

/-- Interaction rows of the score map, in interaction order. -/
def countScoreInters (m : EBMModel) (es : List ℚ) : List (String × ℚ) :=
  (List.range m.interactionIndexes.length).map (fun k =>
    (interName m k, interScoreOf m es k))

/-- Operation `EBM.countScore`: the mapping from feature / interaction name to
its contributed score, as an association list in insertion order (main effects
in feature order, then interaction terms). -/
def countScore (m : EBMModel) (sample : List JsVal) : List (String × ℚ) :=
  countScoreMains m (encodeSample m sample) sample.length
    ++ countScoreInters m (encodeSample m sample)

/-- Total additive prediction score of a sample: sum of the contributed scores
plus the intercept (the summation done by `EBM.predict` and `EBMLocal`). -/
def predTotalScore (m : EBMModel) (sample : List JsVal) : ℚ :=
  ((countScore m sample).map Prod.snd).sum + m.intercept

/-- State of an `EBMLocal` object: the bound sample, its cached per-term
scores, and the derived prediction score, probability and label. -/
structure EBMLocalState where
  sample : List JsVal
  countedScores : List (String × ℚ)
  predScore : ℚ
  predProb : ℚ
  pred : ℚ
deriving DecidableEq

/-- Constructor of `EBMLocal`: bind the model to one sample, count its scores
and record the derived predictions. `sig` stands for the sigmoid. -/
def ebmLocalInit (sig : ℚ → ℚ) (m : EBMModel) (sample : List JsVal) : EBMLocalState :=
  let countedScores := countScore m sample
  let predScore := (countedScores.map Prod.snd).sum + m.intercept
  let predProb := if m.isClassifier then sig predScore else predScore
  let pred := if m.isClassifier then (if predProb ≥ 1/2 then 1 else 0) else predScore
  { sample := sample
    countedScores := countedScores
    predScore := predScore
    predProb := predProb
    pred := pred }

/-- Assignment `obj[k] = v` on a JavaScript object modelled as an association
list: replace the value at the first occurrence of the key, or append the pair
when the key is absent. -/
def setAssoc (l : List (String × ℚ)) (k : String) (v : ℚ) : List (String × ℚ) :=
  match l with
  | [] => [(k, v)]
  | (k0, v0) :: rest => if k0 = k then (k, v) :: rest else (k0, v0) :: setAssoc rest k v

/-- Operation `EBMLocal.updateFeature`: change one feature of the bound sample
and refresh the cached scores and predictions. Throws (models the `throw` of
the source as `Except.error`, raised before any mutation) when the feature is
neither continuous nor categorical, which covers names absent from the model.
-/
def updateFeature (sig : ℚ → ℚ) (m : EBMModel) (st : EBMLocalState)
    (name : String) (value : JsVal) : Except String EBMLocalState :=
  let index := jsIndexOfStr m.featureNames name
  let curType := if 0 ≤ index then m.featureTypes.getD index.toNat "" else ""
  if curType ≠ "continuous" ∧ curType ≠ "categorical" then
    .error "Only continuous and categorical features can be updated"
  else
    let sample1 := st.sample.set index.toNat value
    let es := encodeSample m sample1
    let binScore := mainScoreOf m es index.toNat
    let cs1 := setAssoc st.countedScores name binScore
    let cs2 := (List.range m.interactionIndexes.length).foldl (fun cs k =>
      let idxs := m.interactionIndexes.getD k (0, 0)
      let name1 := m.featureNames.getD idxs.1 ""
      let name2 := m.featureNames.getD idxs.2 ""
      if name1 = name ∨ name2 = name then
        setAssoc cs (name1 ++ " x " ++ name2) (interScoreOf m es k)
      else cs) cs1
    let predScore := (cs2.map Prod.snd).sum + m.intercept
    let predProb := if m.isClassifier then sig predScore else predScore
    let pred := if m.isClassifier then (if predProb ≥ 1/2 then 1 else 0) else predScore
    .ok { sample := sample1
          countedScores := cs2
          predScore := predScore
          predProb := predProb
          pred := pred }

/-- Option tuple `[target, scoreGain, distance, binIndex, interScoreGains]`
produced for one candidate value of a main-effect feature. -/
structure MainOpt where
  target : JsVal
  scoreGain : ℚ
  distance : ℚ
  binIndex : ℕ
  interScoreGains : List (ℕ × ℚ)
deriving DecidableEq, Repr

/-- Option tuple `[[t1, t2], scoreGain, 0, [bin1, bin2], 0]` produced for one
pair of parent options of an interaction term. -/
structure InterOpt where
  target1 : JsVal
  target2 : JsVal
  scoreGain : ℚ
  distance : ℚ
  binIndex1 : ℕ
  binIndex2 : ℕ
deriving DecidableEq, Repr

/-- Interaction data registered by the option generators for one interaction
term touching the current feature: the interaction id, the current interaction
score, and the bin edges / score slice along the current feature axis with the
other feature held at its current bin. -/
structure AssocInter where
  curInteractionId : ℕ
  featureInterScore : ℚ
  featureInterBinEdges : List ℚ
  featureInterAdditives : List ℚ
deriving DecidableEq, Repr

/-- Unguarded 2-D score grid lookup used by the option generators (the source
indexes the grid directly; a negative index would read `undefined`, a case the
wellformedness hypotheses exclude). -/
def gridAtD (m : EBMModel) (k : ℕ) (r c : ℤ) : ℚ :=
  if 0 ≤ r then jsGetD ((m.interactionScores.getD k []).getD r.toNat []) c else 0

/-- Shared body of the `associatedInteractions` collection loops of
`generateContOptions` and `generateCatOptions`; `featureBinOf` computes the
bin of the current feature value along its own axis (binary search for
continuous, exact level match for categorical). -/
def assocInterOf (m : EBMModel) (curFeatureIndex : ℕ) (curExample : List JsVal)
    (featureBinOf : List ℚ → ℤ) (k : ℕ) : Option AssocInter :=
  let idxs := m.interactionIndexes.getD k (0, 0)
  if idxs.1 = curFeatureIndex ∨ idxs.2 = curFeatureIndex then
    let featurePosition : ℕ := if idxs.1 = curFeatureIndex then 0 else 1
    let otherPosition : ℕ := 1 - featurePosition
    let otherIndex := if otherPosition = 0 then idxs.1 else idxs.2
    let otherType := m.featureTypes.getD otherIndex ""
    let otherName := m.featureNames.getD otherIndex ""
    let edgesPair := m.interactionBinEdges.getD k ([], [])
    let edgesAt := fun (pos : ℕ) => if pos = 0 then edgesPair.1 else edgesPair.2
    let otherBin : ℤ :=
      if otherType = "continuous" then
        searchSortedLowerIndex (edgesAt otherPosition)
          (curExample.getD otherIndex (.num 0)).toQ
      else
        match m.labelEncoder otherName (curExample.getD otherIndex (.num 0)) with
        | some c => jsIndexOf (edgesAt otherPosition) (c : ℚ)
        | none => -1
    let featureBin := featureBinOf (edgesAt featurePosition)
    let featureInterScore :=
      if featurePosition = 0 then gridAtD m k featureBin otherBin
      else gridAtD m k otherBin featureBin
    let grid := m.interactionScores.getD k []
    let featureInterAdditives :=
      if featurePosition = 0 then
        (List.range grid.length).map (fun i => jsGetD (grid.getD i []) otherBin)
      else
        (List.range (grid.getD 0 []).length).map (fun i => gridAtD m k otherBin (i : ℤ))
    some { curInteractionId := k
           featureInterScore := featureInterScore
           featureInterBinEdges := edgesAt featurePosition
           featureInterAdditives := featureInterAdditives }
  else none

/-- Target and raw distance of the per-bin loop body of
`generateContOptions`: next lower edge minus the epsilon (or the snapped
integer) for bins left of the current bin, this bin lower edge (or the
snapped integer) for bins on the right; `none` models `continue`. -/
def contTargetDistance (curFeatureValue : ℚ) (needToBeInt : Bool)
    (additives binStarts : List ℚ) (curBinId : ℤ) (i : ℕ) : Option (ℚ × ℚ) :=
  if (i : ℤ) < curBinId then
    if needToBeInt then
      let t0 : ℚ := ((⌊binStarts.getD (i + 1) 0⌋ : ℤ) : ℚ)
      let target := if t0 = binStarts.getD (i + 1) 0 then t0 - 1 else t0
      if target < binStarts.getD i 0 then none
      else some (target, |target - curFeatureValue|)
    else
      let target := binStarts.getD (i + 1) 0
      some (target - 1/10000, |target - curFeatureValue|)
  else if (i : ℤ) > curBinId then
    if needToBeInt then
      let t0 : ℚ := ((⌈binStarts.getD i 0⌉ : ℤ) : ℚ)
      let target := if t0 = binStarts.getD i 0 then t0 + 1 else t0
      if i + 1 < additives.length ∧ target ≥ binStarts.getD (i + 1) 0 then none
      else some (target, |target - curFeatureValue|)
    else
      some (binStarts.getD i 0, |binStarts.getD i 0 - curFeatureValue|)
  else some (curFeatureValue, 0)

/-- Filtering part of the per-bin loop body of `generateContOptions`: scale
the raw distance by the MAD, add the main and interaction score gains, and
apply the directional and score-gain-bound filters. -/
def contOptionFilters (cfDirection curFeatureScore : ℚ) (madValue : ℚ)
    (scoreGainBound : Option ℚ) (skipUnhelpfulMainOption : Bool)
    (additives : List ℚ) (assoc : List AssocInter) (i : ℕ)
    (target rawDistance : ℚ) : Option MainOpt :=
  let distance := if madValue > 0 then rawDistance / madValue else rawDistance
  let mainScoreGain := additives.getD i 0 - curFeatureScore
  let interScoreGains := assoc.map (fun d =>
    (d.curInteractionId,
     jsGetD d.featureInterAdditives (searchSortedLowerIndex d.featureInterBinEdges target)
       - d.featureInterScore))
  let scoreGain := mainScoreGain + (interScoreGains.map Prod.snd).sum
  if skipUnhelpfulMainOption ∧ cfDirection * scoreGain ≤ 0 then none
  else if scoreGainBound.isSome ∧ skipUnhelpfulMainOption ∧
      ((cfDirection = 1 ∧ scoreGain > scoreGainBound.getD 0) ∨
       (cfDirection = -1 ∧ scoreGain < scoreGainBound.getD 0)) then none
  else some { target := .num target
              scoreGain := scoreGain
              distance := distance
              binIndex := i
              interScoreGains := interScoreGains }

/-- Candidate option of `generateContOptions` for bin `i` (the body of the
main loop over bins): the target value and raw distance follow the left/right
bin rules with integer snapping (`contTargetDistance`; `none` models
`continue`), and the survivors pass through `contOptionFilters`. -/
def contOptionForBin (cfDirection curFeatureValue curFeatureScore : ℚ)
    (madValue : ℚ) (scoreGainBound : Option ℚ) (needToBeInt : Bool)
    (skipUnhelpfulMainOption : Bool) (additives binStarts : List ℚ)
    (assoc : List AssocInter) (curBinId : ℤ) (i : ℕ) : Option MainOpt :=
  (contTargetDistance curFeatureValue needToBeInt additives binStarts curBinId i).elim
    none (fun td =>
      contOptionFilters cfDirection curFeatureScore madValue scoreGainBound
        skipUnhelpfulMainOption additives assoc i td.1 td.2)

/-- Redundancy pruning loop of `generateContOptions`: repeatedly keep the
cheapest remaining option and drop every later option whose score gain is
within `epsilon` of it (the source scans with `start` advancing over kept
entries and splices matching later entries). -/
def pruneRedundant (epsilon : ℚ) : List MainOpt → List MainOpt
  | [] => []
  | x :: rest =>
    x :: pruneRedundant epsilon
      (rest.filter (fun o => ¬ |o.scoreGain - x.scoreGain| < epsilon))
termination_by l => l.length
decreasing_by
  simp only [List.length_cons]
  exact Nat.lt_succ_of_le (List.length_filter_le _ _)

/-- Collection stage of `generateContOptions`: the per-bin loop over all
bins, before sorting and redundancy pruning. -/
def contCollectedOptions (m : EBMModel) (cfDirection : ℚ) (curFeatureIndex : ℕ)
    (curFeatureName : String) (curFeatureValue curFeatureScore : ℚ)
    (contMads : String → ℚ) (curExample : List JsVal) (scoreGainBound : Option ℚ)
    (needToBeInt : Bool) (skipUnhelpfulMainOption : Bool) : List MainOpt :=
  let additives := m.scores.getD curFeatureIndex []
  let binStarts := m.binEdges.getD curFeatureIndex []
  let curBinId := searchSortedLowerIndex binStarts curFeatureValue
  let assoc := (List.range m.interactionIndexes.length).filterMap
    (assocInterOf m curFeatureIndex curExample
      (fun edges => searchSortedLowerIndex edges curFeatureValue))
  (List.range additives.length).filterMap
    (contOptionForBin cfDirection curFeatureValue curFeatureScore
      (contMads curFeatureName) scoreGainBound needToBeInt
      skipUnhelpfulMainOption additives binStarts assoc curBinId)

/-- Method `GAMCoach.generateContOptions`: enumerate candidate options of a
continuous feature over all bins, sort the survivors by ascending distance and
apply redundancy pruning. -/
def generateContOptions (m : EBMModel) (cfDirection : ℚ) (curFeatureIndex : ℕ)
    (curFeatureName : String) (curFeatureValue curFeatureScore : ℚ)
    (contMads : String → ℚ) (curExample : List JsVal) (scoreGainBound : Option ℚ)
    (epsilon : ℚ) (needToBeInt : Bool) (skipUnhelpfulMainOption : Bool) :
    List MainOpt :=
  pruneRedundant epsilon
    ((contCollectedOptions m cfDirection curFeatureIndex curFeatureName
        curFeatureValue curFeatureScore contMads curExample scoreGainBound
        needToBeInt skipUnhelpfulMainOption).mergeSort
      (fun a b => a.distance ≤ b.distance))

/-- Candidate option of `generateCatOptions` for level index `i`. -/
def catOptionForLevel (m : EBMModel) (cfDirection : ℚ) (curFeatureName : String)
    (curFeatureValueEncoded curFeatureScore : ℚ) (curCatDistance : String → ℚ)
    (scoreGainBound : Option ℚ) (skipUnhelpfulMainOption : Bool)
    (additives levels : List ℚ) (assoc : List AssocInter) (i : ℕ) :
    Option MainOpt :=
  if levels.getD i 0 ≠ curFeatureValueEncoded then
    let target := levels.getD i 0
    let mainScoreGain := additives.getD i 0 - curFeatureScore
    let interScoreGains := assoc.map (fun d =>
      (d.curInteractionId,
       jsGetD d.featureInterAdditives (jsIndexOf d.featureInterBinEdges target)
         - d.featureInterScore))
    let scoreGain := mainScoreGain + (interScoreGains.map Prod.snd).sum
    if cfDirection * scoreGain ≤ 0 ∧ skipUnhelpfulMainOption then none
    else if scoreGainBound.isSome ∧ skipUnhelpfulMainOption ∧
        ((cfDirection = 1 ∧ scoreGain > scoreGainBound.getD 0) ∨
         (cfDirection = -1 ∧ scoreGain < scoreGainBound.getD 0)) then none
    else
      let targetDecoded :=
        (m.labelDecoder curFeatureName ⌊target⌋).getD ""
      some { target := .str targetDecoded
             scoreGain := scoreGain
             distance := curCatDistance targetDecoded
             binIndex := i
             interScoreGains := interScoreGains }
  else none

/-- Method `GAMCoach.generateCatOptions`: enumerate candidate options of a
categorical feature over all other levels (no redundancy pruning). -/
def generateCatOptions (m : EBMModel) (cfDirection : ℚ) (curFeatureIndex : ℕ)
    (curFeatureValue : JsVal) (curFeatureScore : ℚ) (curCatDistance : String → ℚ)
    (curExample : List JsVal) (scoreGainBound : Option ℚ)
    (skipUnhelpfulMainOption : Bool) : List MainOpt :=
  let additives := m.scores.getD curFeatureIndex []
  let levels := m.binEdges.getD curFeatureIndex []
  let curFeatureName := m.featureNames.getD curFeatureIndex ""
  let curFeatureValueEncoded : ℚ :=
    match m.labelEncoder curFeatureName curFeatureValue with
    | some c => (c : ℚ)
    | none => 0
  let assoc := (List.range m.interactionIndexes.length).filterMap
    (assocInterOf m curFeatureIndex curExample
      (fun edges => jsIndexOf edges curFeatureValueEncoded))
  (List.range additives.length).filterMap
    (catOptionForLevel m cfDirection curFeatureName curFeatureValueEncoded
      curFeatureScore curCatDistance scoreGainBound skipUnhelpfulMainOption
      additives levels assoc)

/-- Search for the first (lexicographic) pair of positions at which the two
interaction-gain breakdown lists share an interaction identifier; the indices
stay `(-1, -1)` when no identifier is shared (the nested loop of
`generateInterOptions`). -/
def findCommonIndexAux (bd2 : List (ℕ × ℚ)) : List (ℕ × ℚ) → ℕ → ℤ × ℤ
  | [], _ => (-1, -1)
  | p :: rest, mIdx =>
    match bd2.findIdx? (fun q => q.1 == p.1) with
    | some n => ((mIdx : ℤ), (n : ℤ))
    | none => findCommonIndexAux bd2 rest (mIdx + 1)

/-- Common-interaction search of `generateInterOptions` over the two parent
breakdowns. -/
def findCommonIndex (bd1 bd2 : List (ℕ × ℚ)) : ℤ × ℤ :=
  findCommonIndexAux bd2 bd1 0

/-- Access `bd[i][1]` in JavaScript style: an out-of-range position yields
`undefined` and reading the `[1]` field of it throws a `TypeError`, modelled
as `Except.error`. -/
def breakdownGainAt (bd : List (ℕ × ℚ)) (i : ℤ) : Except String ℚ :=
  match (if 0 ≤ i then bd.get? i.toNat else none) with
  | some p => .ok p.2
  | none => .error "TypeError: cannot read properties of undefined"

/-- Pair of interaction bins located for two parent options (binary search
for a continuous parent, encoded exact level match for a categorical one). -/
def interPairBins (m : EBMModel) (curInteractionId : ℕ)
    (curFeatureIndex1 curFeatureIndex2 : ℕ) (opt1 opt2 : MainOpt) : ℤ × ℤ :=
  let curFeatureType1 := m.featureTypes.getD curFeatureIndex1 ""
  let curFeatureType2 := m.featureTypes.getD curFeatureIndex2 ""
  let curFeatureName1 := m.featureNames.getD curFeatureIndex1 ""
  let curFeatureName2 := m.featureNames.getD curFeatureIndex2 ""
  let edgesPair := m.interactionBinEdges.getD curInteractionId ([], [])
  let bin1 : ℤ :=
    if curFeatureType1 = "continuous" then
      searchSortedLowerIndex edgesPair.1 opt1.target.toQ
    else
      match m.labelEncoder curFeatureName1 opt1.target with
      | some c => jsIndexOf edgesPair.1 (c : ℚ)
      | none => -1
  let bin2 : ℤ :=
    if curFeatureType2 = "continuous" then
      searchSortedLowerIndex edgesPair.2 opt2.target.toQ
    else
      match m.labelEncoder curFeatureName2 opt2.target with
      | some c => jsIndexOf edgesPair.2 (c : ℚ)
      | none => -1
  (bin1, bin2)

/-- Body of the cross-product loop of `generateInterOptions` for one pair of
parent options: locate the pair of interaction bins, read the new 2-D score,
subtract the current interaction score, then subtract the portions of the
gain already attributed to each parent at the shared interaction identifier.
-/
def interOptionOfPair (m : EBMModel) (curInteractionId : ℕ)
    (curFeatureIndex1 curFeatureIndex2 : ℕ) (curFeatureScore : ℚ)
    (opt1 opt2 : MainOpt) : Except String InterOpt :=
  let bin1 := (interPairBins m curInteractionId curFeatureIndex1
    curFeatureIndex2 opt1 opt2).1
  let bin2 := (interPairBins m curInteractionId curFeatureIndex1
    curFeatureIndex2 opt1 opt2).2
  if bin1 < 0 ∨ bin2 < 0 then
    .error "Unseen features for interaction term."
  else
    let newScore := gridAtD m curInteractionId bin1 bin2
    let scoreGain0 := newScore - curFeatureScore
    let commonIndex := findCommonIndex opt1.interScoreGains opt2.interScoreGains
    match breakdownGainAt opt1.interScoreGains commonIndex.1,
          breakdownGainAt opt2.interScoreGains commonIndex.2 with
    | .ok g1, .ok g2 =>
      .ok { target1 := opt1.target
            target2 := opt2.target
            scoreGain := scoreGain0 - g1 - g2
            distance := 0
            binIndex1 := opt1.binIndex
            binIndex2 := opt2.binIndex }
    | .error e, _ => .error e
    | _, .error e => .error e

/-- Method `GAMCoach.generateInterOptions`: the cross product of the two
parent option lists, each pair converted by `interOptionOfPair`; the first
thrown error aborts the whole call, as a JavaScript exception would. -/
def generateInterOptions (m : EBMModel) (curInteractionId : ℕ)
    (curFeatureIndex1 curFeatureIndex2 : ℕ) (curFeatureScore : ℚ)
    (opts1 opts2 : List MainOpt) : Except String (List InterOpt) := do
  let nested ← opts1.mapM (fun o1 =>
    opts2.mapM (fun o2 =>
      interOptionOfPair m curInteractionId curFeatureIndex1 curFeatureIndex2
        curFeatureScore o1 o2))
  pure nested.flatten

/-- Bounds record of a GLPK constraint (`GLP_LO`, `GLP_UP` or `GLP_DB`). -/
inductive GlpBnds where
  | lo (lb : ℚ)
  | up (ub : ℚ)
  | db (lb ub : ℚ)
deriving DecidableEq, Repr

/-- One linear term `coef * variable` of a constraint or objective. -/
structure LinTerm where
  name : String
  coef : ℚ
deriving DecidableEq, Repr

/-- One row of the `subjectTo` list of the GLPK problem record. -/
structure MilpConstraint where
  name : String
  vars : List LinTerm
  bnds : GlpBnds
deriving DecidableEq, Repr

/-- One entry of the `bounds` list: a `GLP_DB` variable bound. -/
structure VarBound where
  name : String
  lb : ℚ
  ub : ℚ
deriving DecidableEq, Repr

/-- The assembled GLPK problem record; the objective direction is always
`GLP_MIN` in the source, so only its terms are stored. -/
structure MilpModel where
  subjectTo : List MilpConstraint
  binaries : List String
  bounds : List VarBound
  objectiveVars : List LinTerm
deriving DecidableEq, Repr

/-- Variable identifier of a main-effect option (template
`feature:binIndex`). -/
def mainVarName (f : String) (binIndex : ℕ) : String :=
  f ++ ":" ++ toString binIndex

/-- Variable identifier of an interaction auxiliary variable (template
`interactionName:bin1,bin2`). -/
def zVarName (key : String) (b1 b2 : ℕ) : String :=
  key ++ ":" ++ toString b1 ++ "," ++ toString b2

/-- Prefix test on character lists. -/
def isPrefixList : List Char → List Char → Bool
  | [], _ => true
  | _ :: _, [] => false
  | p :: ps, c :: cs => p == c && isPrefixList ps cs

/-- Substring test on character lists (JavaScript `includes`). -/
def hasSubstrAux (pat : List Char) : List Char → Bool
  | [] => pat.isEmpty
  | c :: rest => isPrefixList pat (c :: rest) || hasSubstrAux pat rest

/-- Split of a character list at the last occurrence of a separator, the
split made by the greedy leading group of the parsing regexes. -/
def breakOnLast (sep : List Char) : List Char → Option (List Char × List Char)
  | [] => none
  | c :: rest =>
    match breakOnLast sep rest with
    | some (pre, post) => some (c :: pre, post)
    | none =>
      if isPrefixList sep (c :: rest) then some ([], (c :: rest).drop sep.length)
      else none

/-- Numeric value of a digit string (the `parseInt` applied to the digit
group of the parsing regex). -/
def digitsToNat (l : List Char) : ℕ :=
  l.foldl (fun n c => 10 * n + (c.toNat - 48)) 0

/-- Parse of the interaction key by the two greedy regexes of `createMILP`:
the part before the last ` x ` and the part after it. -/
def parseInterKey (s : String) : String × String :=
  match breakOnLast (" x ".data) s.data with
  | some (pre, post) => (String.mk pre, String.mk post)
  | none => ("", s)

/-- Test used by the source to recognize interaction keys (JavaScript
`name.includes(" x ")`). -/
def hasInterSep (s : String) : Bool :=
  hasSubstrAux (" x ".data) s.data

/-- Options map assembled by `generateCfs` Step 2: main-effect entries keyed
by feature name followed by interaction entries keyed `name1 x name2`, in
insertion order. -/
structure OptionsMap where
  mains : List (String × List MainOpt)
  inters : List (String × List InterOpt)
deriving DecidableEq, Repr

/-- Lookup of a main-effect option list (JavaScript `options[f]`; the
wellformedness hypotheses guarantee the key is present). -/
def lookupMains (options : OptionsMap) (f : String) : List MainOpt :=
  (options.mains.lookup f).getD []

/-- Main-effect option variables of one feature that survive muting. -/
def keptMainOpts (options : OptionsMap) (mutedVariables : List String)
    (f : String) : List MainOpt :=
  (lookupMains options f).filter
    (fun o => ¬ mutedVariables.contains (mainVarName f o.binIndex))

/-- Interaction options of one interaction key that enter the model: both
parsed parent features must be allowed to vary and both parent variables must
be unmuted. -/
def keptInterOpts (featuresToVary : List String) (mutedVariables : List String)
    (key : String) (opts : List InterOpt) : List InterOpt :=
  let f1Name := (parseInterKey key).1
  let f2Name := (parseInterKey key).2
  if featuresToVary.contains f1Name ∧ featuresToVary.contains f2Name then
    opts.filter (fun o =>
      ¬ mutedVariables.contains (mainVarName f1Name o.binIndex1) ∧
      ¬ mutedVariables.contains (mainVarName f2Name o.binIndex2))
  else []

/-- Contributions of the non-muted main-effect option variables to the
overall counterfactual constraint, in feature order. -/
def mainCfVars (options : OptionsMap) (featuresToVary : List String)
    (mutedVariables : List String) : List LinTerm :=
  featuresToVary.flatMap (fun f =>
    (keptMainOpts options mutedVariables f).map
      (fun o => { name := mainVarName f o.binIndex, coef := o.scoreGain : LinTerm }))

/-- Contributions of the kept interaction auxiliary variables to the overall
counterfactual constraint, in key order. -/
def interCfVars (options : OptionsMap) (featuresToVary : List String)
    (mutedVariables : List String) : List LinTerm :=
  options.inters.flatMap (fun kv =>
    (keptInterOpts featuresToVary mutedVariables kv.1 kv.2).map (fun o =>
      { name := zVarName kv.1 o.binIndex1 o.binIndex2, coef := o.scoreGain : LinTerm }))

/-- Binary variable names created for the non-muted main-effect options, in
feature and option order. -/
def milpBinaries (options : OptionsMap) (featuresToVary : List String)
    (mutedVariables : List String) : List String :=
  featuresToVary.flatMap (fun f =>
    (keptMainOpts options mutedVariables f).map (fun o => mainVarName f o.binIndex))

/-- Per-feature select-at-most-one constraint rows. -/
def boundConstraintsOf (options : OptionsMap) (featuresToVary : List String)
    (mutedVariables : List String) : List MilpConstraint :=
  featuresToVary.map (fun f =>
    { name := "bound-cons-" ++ f
      vars := (keptMainOpts options mutedVariables f).map
        (fun o => { name := mainVarName f o.binIndex, coef := 1 })
      bnds := GlpBnds.up 1 })

/-- Optional cardinality constraint row bounding the total number of selected
main-effect variables. -/
def maxNumConstraintsOf (options : OptionsMap) (featuresToVary : List String)
    (mutedVariables : List String) (maxNumFeaturesToVary : Option ℚ) :
    List MilpConstraint :=
  match maxNumFeaturesToVary with
  | some maxNum =>
    [{ name := "max-num-cons"
       vars := (milpBinaries options featuresToVary mutedVariables).map
         (fun v => { name := v, coef := 1 })
       bnds := GlpBnds.up maxNum }]
  | none => []

/-- AND-linearization triples of the kept interaction auxiliary variables:
`z <= x1`, `z <= x2` and `x1 + x2 - z <= 1`. -/
def interTriplesOf (options : OptionsMap) (featuresToVary : List String)
    (mutedVariables : List String) : List MilpConstraint :=
  options.inters.flatMap (fun kv =>
    let key := kv.1
    let f1Name := (parseInterKey key).1
    let f2Name := (parseInterKey key).2
    (keptInterOpts featuresToVary mutedVariables key kv.2).flatMap (fun o =>
      let zName := zVarName key o.binIndex1 o.binIndex2
      [{ name := zName ++ "-1"
         vars := [{ name := zName, coef := 1 },
                  { name := mainVarName f1Name o.binIndex1, coef := -1 }]
         bnds := GlpBnds.up 0 : MilpConstraint },
       { name := zName ++ "-2"
         vars := [{ name := zName, coef := 1 },
                  { name := mainVarName f2Name o.binIndex2, coef := -1 }]
         bnds := GlpBnds.up 0 : MilpConstraint },
       { name := zName ++ "-3"
         vars := [{ name := mainVarName f1Name o.binIndex1, coef := 1 },
                  { name := mainVarName f2Name o.binIndex2, coef := 1 },
                  { name := zName, coef := -1 }]
         bnds := GlpBnds.up 1 : MilpConstraint }]))

/-- Bound records of the kept interaction auxiliary variables (continuous in
`[0, 1]`). -/
def zBoundsOf (options : OptionsMap) (featuresToVary : List String)
    (mutedVariables : List String) : List VarBound :=
  options.inters.flatMap (fun kv =>
    (keptInterOpts featuresToVary mutedVariables kv.1 kv.2).map (fun o =>
      { name := zVarName kv.1 o.binIndex1 o.binIndex2, lb := 0, ub := 1 }))

/-- Distance-minimizing objective terms over the main-effect variables. -/
def objectiveVarsOf (options : OptionsMap) (featuresToVary : List String)
    (mutedVariables : List String) : List LinTerm :=
  featuresToVary.flatMap (fun f =>
    (keptMainOpts options mutedVariables f).map
      (fun o => { name := mainVarName f o.binIndex, coef := o.distance }))

/-- The overall counterfactual constraint row as assembled by `createMILP`:
non-muted main-effect gains then kept interaction gains, bounded below by the
threshold for direction `+1` and above for any other direction. -/
def cfConstraintOf (cfDirection neededScoreGain : ℚ)
    (featuresToVary : List String) (options : OptionsMap)
    (mutedVariables : List String) : MilpConstraint :=
  { name := "cf-constraint"
    vars := mainCfVars options featuresToVary mutedVariables ++
      interCfVars options featuresToVary mutedVariables
    bnds := if cfDirection = 1 then GlpBnds.lo neededScoreGain
            else GlpBnds.up neededScoreGain }

/-- Method `MILP.createMILP`: assemble the GLPK problem record from the
option map, the features allowed to vary, the muted variables, the direction
and the needed score gain, mirroring the push order of the source (feature
bound constraints, optional cardinality constraint, interaction linearization
triples, then the overall counterfactual constraint). -/
def createMILP (cfDirection : ℚ) (neededScoreGain : ℚ)
    (featuresToVary : List String) (options : OptionsMap)
    (maxNumFeaturesToVary : Option ℚ) (mutedVariables : List String) :
    MilpModel :=
  { subjectTo :=
      boundConstraintsOf options featuresToVary mutedVariables ++
      maxNumConstraintsOf options featuresToVary mutedVariables
        maxNumFeaturesToVary ++
      interTriplesOf options featuresToVary mutedVariables ++
      [cfConstraintOf cfDirection neededScoreGain featuresToVary options
        mutedVariables]
    binaries := milpBinaries options featuresToVary mutedVariables
    bounds := zBoundsOf options featuresToVary mutedVariables
    objectiveVars := objectiveVarsOf options featuresToVary mutedVariables }

/-- Evaluation of the linear terms of a constraint or objective under a
variable assignment. -/
def evalLinTerms (terms : List LinTerm) (a : String → ℚ) : ℚ :=
  (terms.map (fun t => t.coef * a t.name)).sum

/-- Satisfaction of one constraint row by an assignment. -/
def satisfiesConstraint (a : String → ℚ) (c : MilpConstraint) : Prop :=
  match c.bnds with
  | .lo lb => lb ≤ evalLinTerms c.vars a
  | .up ub => evalLinTerms c.vars a ≤ ub
  | .db lb ub => lb ≤ evalLinTerms c.vars a ∧ evalLinTerms c.vars a ≤ ub

instance (a : String → ℚ) (c : MilpConstraint) :
    Decidable (satisfiesConstraint a c) := by
  unfold satisfiesConstraint
  cases c.bnds <;> infer_instance

/-- Variables of the assembled problem: the binary main-effect variables and
the bounded interaction auxiliaries, in creation order. -/
def milpVarNames (model : MilpModel) : List String :=
  model.binaries ++ model.bounds.map (fun b => b.name)

/-- Feasibility of an assignment for the assembled problem: every constraint
row holds, the binaries take value 0 or 1, and the bounded variables respect
their bounds. -/
def FeasibleAssignment (model : MilpModel) (a : String → ℚ) : Prop :=
  (∀ c ∈ model.subjectTo, satisfiesConstraint a c) ∧
  (∀ v ∈ model.binaries, a v = 0 ∨ a v = 1) ∧
  (∀ b ∈ model.bounds, b.lb ≤ a b.name ∧ a b.name ≤ b.ub)

/-- Active variables reported by `solveMILP`: the problem variables whose
value in the returned assignment is exactly 1. -/
def activeOf (model : MilpModel) (a : String → ℚ) : List String :=
  (milpVarNames model).filter (fun v => a v = 1)

/-- Soundness of one solver response, per the collaborator contract: a
returned optimal solution consists of the variables of the submitted model
valued 1 under some feasible assignment. -/
def SolverRespOk (model : MilpModel) (resp : List String × ℚ) : Prop :=
  ∃ a : String → ℚ, FeasibleAssignment model a ∧ resp.1 = activeOf model a

/-- Step 1 of `generateCfs`: determine the counterfactual direction, the
needed score gain and the score-gain bound; throws on a missing regression
target range or one already containing the current score. -/
def cfSetup (isClassifier : Bool) (pred : ℚ) (totalScore : ℚ)
    (targetRange : Option (ℚ × ℚ)) : Except String (ℚ × ℚ × Option ℚ) :=
  if isClassifier then
    .ok (pred * (-2) + 1, -1 * totalScore, none)
  else if targetRange = none then
    .error "targetRange cannot be null when the model is a regressor."
  else
    let tr := targetRange.getD (0, 0)
    if totalScore ≥ tr.1 ∧ totalScore ≤ tr.2 then
      .error "The targetRange cannot cover the current prediction."
    else if totalScore < tr.1 then
      .ok (1, tr.1 - totalScore, some (tr.2 - totalScore))
    else
      .ok (-1, tr.2 - totalScore, some (tr.1 - totalScore))

/-- Allowed range supplied for one feature: an interval for continuous
features or a level subset for categorical features. -/
inductive FeatureRange where
  | contR (lo hi : ℚ)
  | catR (levels : List String)
deriving DecidableEq, Repr

/-- Configuration record of `generateCfs` (the sample of interest plus the
optional overrides; `none` stands for the absent / `null` / `auto`
arguments). -/
structure CfConfig where
  curExample : List JsVal
  totalCfs : ℕ
  targetRange : Option (ℚ × ℚ)
  simThresholdFactor : ℚ
  simThreshold : Option ℚ
  categoricalWeight : Option ℚ
  featuresToVary : Option (List String)
  maxNumFeaturesToVary : Option ℚ
  featureRanges : List (String × FeatureRange)
  featureWeightMultipliers : List (String × ℚ)
  continuousIntegerFeatures : List String

/-- Resume state returned as `nextCfConfig` for `generateSubCfs`. -/
structure NextCfConfig where
  cfDirection : ℚ
  neededScoreGain : ℚ
  featuresToVary : List String
  options : OptionsMap
  maxNumFeaturesToVary : Option ℚ
  mutedVariables : List String

/-- Target-range entry of the decoded output: the covering bin interval of a
continuous selection (upper edge `none` means `Infinity`) or the chosen level
of a categorical selection. -/
inductive TargetRangeOut where
  | contRange (lo : ℚ) (hi : Option ℚ)
  | level (v : JsVal)
deriving DecidableEq, Repr

/-- Output record of `generateCfs` / `generateSubCfs` before the resume
state is attached. -/
structure CfOutput where
  data : List (List JsVal)
  distances : List ℚ
  targetRanges : List (List TargetRangeOut)
  scoreGains : List (List ℚ)
  isSuccessful : Bool
  activeVariables : List (List String)
deriving DecidableEq, Repr

/-- Parse of a main-effect variable identifier by the two greedy regexes of
`convertCfToData`: feature name before the last colon, bin id after it. -/
def parseMainVar (s : String) : String × ℕ :=
  match breakOnLast ([':']) s.data with
  | some (pre, post) =>
    (String.mk pre,
     if post ≠ [] ∧ post.all Char.isDigit then digitsToNat post else 0)
  | none =>
    ("", if s.data ≠ [] ∧ s.data.all Char.isDigit then digitsToNat s.data else 0)

/-- Per-variable body of the decoding fold of `convertCfToData`. -/
def decodeStep (m : EBMModel) (options : OptionsMap)
    (acc : List JsVal × List TargetRangeOut × List ℚ) (varId : String) :
    List JsVal × List TargetRangeOut × List ℚ :=
  if hasInterSep varId then acc
  else
    let fName := (parseMainVar varId).1
    let binId := (parseMainVar varId).2
    let curIndex := jsIndexOfStr m.featureNames fName
    let curType := if 0 ≤ curIndex then m.featureTypes.getD curIndex.toNat "" else ""
    let targetRange : TargetRangeOut :=
      if curType = "continuous" then
        let edges := m.binEdges.getD curIndex.toNat []
        .contRange (edges.getD binId 0)
          (if binId + 1 < edges.length then some (edges.getD (binId + 1) 0) else none)
      else .level (.num 0)
    match (lookupMains options fName).find? (fun o => o.binIndex == binId) with
    | some opt =>
      (if 0 ≤ curIndex then acc.1.set curIndex.toNat opt.target else acc.1,
       acc.2.1 ++ [if curType = "continuous" then targetRange else .level opt.target],
       acc.2.2 ++ [opt.scoreGain])
    | none => acc

/-- Decoding of one solution by `convertCfToData`: fold its active variables,
overwriting the sample at each selected main-effect feature and collecting
the score gains and target ranges. -/
def decodeSolution (m : EBMModel) (options : OptionsMap) (sample : List JsVal)
    (active : List String) : List JsVal × List TargetRangeOut × List ℚ :=
  active.foldl (decodeStep m options) (sample, [], [])

/-- Method `GAMCoach.convertCfToData`: decode every solution into a full
modified sample with its per-feature target ranges and score gains, and
bundle the active main-effect variables. -/
def convertCfToData (m : EBMModel) (sample : List JsVal) (options : OptionsMap)
    (solutions : List (List String × ℚ)) (isSuccessful : Bool) : CfOutput :=
  { data := solutions.map (fun sol => (decodeSolution m options sample sol.1).1)
    distances := solutions.map (fun sol => sol.2)
    targetRanges := solutions.map (fun sol => (decodeSolution m options sample sol.1).2.1)
    scoreGains := solutions.map (fun sol => (decodeSolution m options sample sol.1).2.2)
    isSuccessful := isSuccessful
    activeVariables := solutions.map (fun sol =>
      sol.1.filter (fun d => ¬ hasInterSep d)) }

/-- Step 3 of `generateCfs`: repeatedly build and solve the optimization
model, accumulating solutions and muting every chosen variable identifier; a
solver failure stops the batch with `isSuccessful = false`. -/
def cfSolveLoop (solve : MilpModel → Option (List String × ℚ))
    (cfDirection neededScoreGain : ℚ) (featuresToVary : List String)
    (options : OptionsMap) (maxNumFeaturesToVary : Option ℚ) :
    ℕ → List (List String × ℚ) → List String →
    List (List String × ℚ) × List String × Bool
  | 0, solutions, muted => (solutions, muted, true)
  | n + 1, solutions, muted =>
    match solve (createMILP cfDirection neededScoreGain featuresToVary options
        maxNumFeaturesToVary muted) with
    | none => (solutions, muted, false)
    | some sol =>
      cfSolveLoop solve cfDirection neededScoreGain featuresToVary options
        maxNumFeaturesToVary n (solutions ++ [sol]) (muted ++ sol.1)

/-- Average of a list of rationals (JavaScript `reduce` sum divided by the
length; the callers guarantee nonemptiness). -/
def listMean (l : List ℚ) : ℚ :=
  l.sum / (l.length : ℚ)

/-- Largest element of a score array (JavaScript `reduce` with `Math.max`). -/
def listMax (l : List ℚ) : ℚ :=
  l.foldl max (l.headD 0)

/-- Smallest element of a score array (JavaScript `reduce` with `Math.min`).
-/
def listMin (l : List ℚ) : ℚ :=
  l.foldl min (l.headD 0)

/-- Step 2.0 of `generateCfs`: the default similarity threshold, the average
max-minus-min additive-score range over continuous features scaled by the
threshold factor. -/
def defaultSimThreshold (m : EBMModel) (simThresholdFactor : ℚ) : ℚ :=
  let additiveRanges := (List.range m.featureNames.length).filterMap (fun i =>
    if m.featureTypes.getD i "" = "continuous" then
      some (listMax (m.scores.getD i []) - listMin (m.scores.getD i []))
    else none)
  listMean additiveRanges * simThresholdFactor

/-- Steps 2.1 and 2.2 of `generateCfs`: generate the main-effect options of
every continuous and categorical feature and drop the options whose target
falls outside a caller-supplied allowed range. -/
def generateMainOptions (m : EBMModel) (contMads : String → ℚ)
    (catDistances : String → String → ℚ) (ebm : EBMLocalState)
    (cfDirection : ℚ) (scoreGainBound : Option ℚ) (simThreshold : ℚ)
    (curExample : List JsVal) (continuousIntegerFeatures : List String)
    (featureRanges : List (String × FeatureRange)) :
    List (String × List MainOpt) :=
  let mains0 := (List.range m.featureNames.length).filterMap (fun i =>
    let curFeatureName := m.featureNames.getD i ""
    let curFeatureType := m.featureTypes.getD i ""
    let curFeatureScore := ((ebm.countedScores.lookup curFeatureName).getD 0)
    let curFeatureValue := curExample.getD i (.num 0)
    if curFeatureType = "continuous" then
      let needToBeInt := continuousIntegerFeatures.contains curFeatureName
      some (curFeatureName,
        generateContOptions m cfDirection i curFeatureName curFeatureValue.toQ
          curFeatureScore contMads curExample scoreGainBound simThreshold
          needToBeInt true)
    else if curFeatureType = "categorical" then
      some (curFeatureName,
        generateCatOptions m cfDirection i curFeatureValue curFeatureScore
          (catDistances curFeatureName) curExample scoreGainBound true)
    else none)
  mains0.map (fun kv =>
    match featureRanges.lookup kv.1 with
    | some (.contR lo hi) =>
      (kv.1, kv.2.filter (fun o => ¬ (o.target.toQ < lo ∨ o.target.toQ > hi)))
    | some (.catR levels) =>
      (kv.1, kv.2.filter (fun o =>
        match o.target with
        | .str s => levels.contains s
        | .num _ => false))
    | none => kv)

/-- Step 2.3 of `generateCfs`: generate the interaction options of every
interaction term from the filtered main-effect options. -/
def generateAllInterOptions (m : EBMModel) (ebm : EBMLocalState)
    (mains : List (String × List MainOpt)) :
    Except String (List (String × List InterOpt)) :=
  (List.range m.interactionIndexes.length).mapM (fun k => do
    let idxs := m.interactionIndexes.getD k (0, 0)
    let name1 := m.featureNames.getD idxs.1 ""
    let name2 := m.featureNames.getD idxs.2 ""
    let nm := interName m k
    let curFeatureScore := (ebm.countedScores.lookup nm).getD 0
    let io ← generateInterOptions m k idxs.1 idxs.2 curFeatureScore
      ((mains.lookup name1).getD []) ((mains.lookup name2).getD [])
    pure (nm, io))

/-- Steps 2.4 and 2.5 of `generateCfs`: rescale the categorical distances by
the resolved categorical weight, then apply the caller-supplied per-feature
distance multipliers. -/
def rescaleMainOptions (m : EBMModel) (categoricalWeight : Option ℚ)
    (featureWeightMultipliers : List (String × ℚ))
    (mains : List (String × List MainOpt)) : List (String × List MainOpt) :=
  let typeOf := fun (name : String) =>
    let i := jsIndexOfStr m.featureNames name
    if 0 ≤ i then m.featureTypes.getD i.toNat "" else ""
  let contDistances := mains.flatMap (fun kv =>
    if typeOf kv.1 = "continuous" then kv.2.map (fun o => o.distance) else [])
  let catDistances := mains.flatMap (fun kv =>
    if typeOf kv.1 = "categorical" then kv.2.map (fun o => o.distance) else [])
  let weight :=
    match categoricalWeight with
    | some w => w
    | none =>
      if contDistances.length ≠ 0 ∧ catDistances.length ≠ 0 then
        listMean contDistances / listMean catDistances
      else 1
  let mains1 := mains.map (fun kv =>
    if typeOf kv.1 = "categorical" then
      (kv.1, kv.2.map (fun o => { o with distance := o.distance * weight }))
    else kv)
  mains1.map (fun kv =>
    match featureWeightMultipliers.lookup kv.1 with
    | some mult => (kv.1, kv.2.map (fun o => { o with distance := o.distance * mult }))
    | none => kv)

/-- Method `GAMCoach.generateCfs`, parameterized by the sigmoid stand-in
`sig` and the external solver `solve`: bind the sample, determine direction
and needed gain, assemble the option map, run the mute-and-resolve loop and
decode the solutions, returning the output together with the resume state. -/
def generateCfs (sig : ℚ → ℚ) (m : EBMModel) (contMads : String → ℚ)
    (catDistances : String → String → ℚ)
    (solve : MilpModel → Option (List String × ℚ)) (cfg : CfConfig) :
    Except String (CfOutput × NextCfConfig) := do
  let ebm := ebmLocalInit sig m cfg.curExample
  let featuresToVary := cfg.featuresToVary.getD
    ((List.range m.featureNames.length).filterMap (fun i =>
      if m.featureTypes.getD i "" ≠ "interaction" then
        some (m.featureNames.getD i "") else none))
  let totalScore := ebm.predScore
  let setup ← cfSetup m.isClassifier ebm.pred totalScore cfg.targetRange
  let cfDirection := setup.1
  let neededScoreGain := setup.2.1
  let scoreGainBound := setup.2.2
  let simThreshold := (cfg.simThreshold).getD
    (defaultSimThreshold m cfg.simThresholdFactor)
  let mains := generateMainOptions m contMads catDistances ebm cfDirection
    scoreGainBound simThreshold cfg.curExample cfg.continuousIntegerFeatures
    cfg.featureRanges
  let inters ← generateAllInterOptions m ebm mains
  let mainsScaled := rescaleMainOptions m cfg.categoricalWeight
    cfg.featureWeightMultipliers mains
  let options : OptionsMap := { mains := mainsScaled, inters := inters }
  let loopOut := cfSolveLoop solve cfDirection neededScoreGain featuresToVary
    options cfg.maxNumFeaturesToVary cfg.totalCfs [] []
  let cfs := convertCfToData m ebm.sample options loopOut.1 loopOut.2.2
  pure (cfs,
    { cfDirection := cfDirection
      neededScoreGain := neededScoreGain
      featuresToVary := featuresToVary
      options := options
      maxNumFeaturesToVary := cfg.maxNumFeaturesToVary
      mutedVariables := loopOut.2.1 })

/-- Method `GAMCoach.generateSubCfs`: one further mute-and-resolve step from
the resume state. -/
def generateSubCfs (m : EBMModel) (ebmSample : List JsVal)
    (solve : MilpModel → Option (List String × ℚ)) (cfg : NextCfConfig) :
    CfOutput × NextCfConfig :=
  match solve (createMILP cfg.cfDirection cfg.neededScoreGain cfg.featuresToVary
      cfg.options cfg.maxNumFeaturesToVary cfg.mutedVariables) with
  | none =>
    (convertCfToData m ebmSample cfg.options [] false, cfg)
  | some sol =>
    (convertCfToData m ebmSample cfg.options [sol] true,
     { cfg with mutedVariables := cfg.mutedVariables ++ sol.1 })

/-! ### Binary search correctness (claim C6) -/

/-- In-range JavaScript lookup yields the element. -/
lemma jsGet_eq_some (l : List ℚ) (i : ℤ) (h0 : 0 ≤ i) (h : i.toNat < l.length) :
    jsGet l i = some (l.getD i.toNat 0) := by
  simp only [jsGet, if_pos h0, List.get?_eq_getElem?, List.getElem?_eq_getElem h,
    List.getD_eq_getElem l 0 h]

/-- Monotonicity of a strictly ascending list under defaulted indexing. -/
lemma sorted_getD_mono (l : List ℚ) (hs : l.Pairwise (· < ·)) (i j : ℕ)
    (hij : i ≤ j) (hj : j < l.length) : l.getD i 0 ≤ l.getD j 0 := by
  have hi : i < l.length := Nat.lt_of_le_of_lt hij hj
  rw [List.getD_eq_getElem l 0 hi, List.getD_eq_getElem l 0 hj]
  rcases Nat.lt_or_ge i j with h | h
  · exact le_of_lt ((List.pairwise_iff_getElem.mp hs) i j hi hj h)
  · have : i = j := le_antisymm hij h
    subst this
    exact le_rfl

/-- Prefix characterization of `countP` for the predicate `e ≤ v` on a
strictly ascending list: position `i` satisfies it exactly when `i` is below
the count. -/
lemma countP_le_iff (v : ℚ) (l : List ℚ) (hs : l.Pairwise (· < ·)) (i : ℕ)
    (hi : i < l.length) :
    (l.getD i 0 ≤ v ↔ i < l.countP (fun e => decide (e ≤ v))) := by
  induction l generalizing i with
  | nil => simp at hi
  | cons x xs ih =>
    rcases List.pairwise_cons.mp hs with ⟨hx, hxs⟩
    rw [List.countP_cons]
    cases i with
    | zero =>
      simp only [List.getD_cons_zero]
      by_cases hxv : x ≤ v
      · simp [hxv]
      · have hz : xs.countP (fun e => decide (e ≤ v)) = 0 := by
          rw [List.countP_eq_zero]
          intro a ha
          simp only [decide_eq_true_eq]
          exact not_le.mpr (lt_trans (not_le.mp hxv) (hx a ha))
        simp [hxv, hz]
    | succ i0 =>
      simp only [List.getD_cons_succ]
      rw [ih hxs i0 (by simpa using hi)]
      by_cases hxv : x ≤ v
      · simp [hxv]
      · have hz : xs.countP (fun e => decide (e ≤ v)) = 0 := by
          rw [List.countP_eq_zero]
          intro a ha
          simp only [decide_eq_true_eq]
          exact not_le.mpr (lt_trans (not_le.mp hxv) (hx a ha))
        simp [hxv, hz]

/-- The boundary value of the count: an index satisfying the predicate whose
successor fails it (or is past the end) pins the count to index plus one. -/
lemma countP_boundary (v : ℚ) (l : List ℚ) (hs : l.Pairwise (· < ·)) (t : ℕ)
    (ht : t < l.length) (h1 : l.getD t 0 ≤ v)
    (h2 : t + 1 = l.length ∨ v < l.getD (t + 1) 0) :
    l.countP (fun e => decide (e ≤ v)) = t + 1 := by
  have hc1 : t < l.countP (fun e => decide (e ≤ v)) := (countP_le_iff v l hs t ht).mp h1
  have hcle : l.countP (fun e => decide (e ≤ v)) ≤ l.length := List.countP_le_length _
  rcases h2 with h2 | h2
  · omega
  · by_cases ht1 : t + 1 < l.length
    · have := (countP_le_iff v l hs (t + 1) ht1).not.mp (not_le.mpr h2)
      omega
    · omega

/-- Correctness of the binary-search loop under its invariant: the cursors
bracket the answer, so the result is the clamped count-based lower-bound
index. -/
lemma sslGo_correct (sorted : List ℚ) (v : ℚ) (hs : sorted.Pairwise (· < ·))
    (left right : ℤ) (h0 : 0 ≤ left) (hlr : left < right)
    (hrn : right ≤ (sorted.length : ℤ) - 1)
    (hL : left = 0 ∨ sorted.getD left.toNat 0 ≤ v)
    (hR : right = (sorted.length : ℤ) - 1 ∨ v < sorted.getD right.toNat 0) :
    sslGo sorted v left right =
      max ((sorted.countP (fun e => decide (e ≤ v)) : ℤ) - 1) 0 := by
  have hlen2 : 2 ≤ sorted.length := by omega
  rw [sslGo.eq_def]
  by_cases h : right - left > 1
  · have hi0 : 0 ≤ left + (right - left) / 2 := by omega
    have hil : left < left + (right - left) / 2 := by omega
    have hir : left + (right - left) / 2 < right := by omega
    have hin : (left + (right - left) / 2).toNat < sorted.length := by omega
    rw [jsGet_eq_some sorted _ hi0 hin]
    simp only [dif_pos h, Option.any_some]
    by_cases hgt : v > sorted.getD (left + (right - left) / 2).toNat 0
    · simp only [decide_eq_true_eq, if_pos hgt]
      exact sslGo_correct sorted v hs _ right (by omega) hir hrn
        (Or.inr (le_of_lt hgt)) hR
    · simp only [decide_eq_true_eq, if_neg hgt]
      by_cases hlt : v < sorted.getD (left + (right - left) / 2).toNat 0
      · simp only [if_pos hlt]
        exact sslGo_correct sorted v hs left _ h0 hil (by omega) hL (Or.inr hlt)
      · simp only [if_neg hlt]
        have heq : sorted.getD (left + (right - left) / 2).toNat 0 = v :=
          le_antisymm (not_lt.mp hlt) (not_lt.mp hgt)
        have hc : sorted.countP (fun e => decide (e ≤ v)) =
            (left + (right - left) / 2).toNat + 1 := by
          apply countP_boundary v sorted hs _ hin (le_of_eq heq)
          by_cases ht1 : (left + (right - left) / 2).toNat + 1 < sorted.length
          · refine Or.inr ?_
            have hstep := (List.pairwise_iff_getElem.mp hs)
              (left + (right - left) / 2).toNat
              ((left + (right - left) / 2).toNat + 1) hin ht1 (by omega)
            rw [List.getD_eq_getElem sorted 0 hin] at heq
            rw [List.getD_eq_getElem sorted 0 ht1]
            exact lt_of_le_of_lt (le_of_eq heq.symm) hstep
          · exact Or.inl (by omega)
        rw [hc]
        omega
  · simp only [dif_neg h]
    have hreq : right = left + 1 := by omega
    have hrin : right.toNat < sorted.length := by omega
    have hlin : left.toNat < sorted.length := by omega
    rw [jsGet_eq_some sorted right (by omega) hrin, jsGet_eq_some sorted left h0 hlin]
    simp only [Option.any_some, decide_eq_true_eq]
    by_cases hge : v ≥ sorted.getD right.toNat 0
    · simp only [if_pos hge]
      have hrl : right = (sorted.length : ℤ) - 1 := by
        rcases hR with h1 | h1
        · exact h1
        · exact absurd h1 (not_lt.mpr hge)
      have hc : sorted.countP (fun e => decide (e ≤ v)) = sorted.length := by
        rw [List.countP_eq_length]
        intro a ha
        simp only [decide_eq_true_eq]
        rcases List.mem_iff_getElem.mp ha with ⟨i, hi, rfl⟩
        calc sorted[i] = sorted.getD i 0 := (List.getD_eq_getElem sorted 0 hi).symm
          _ ≤ sorted.getD right.toNat 0 :=
              sorted_getD_mono sorted hs i right.toNat (by omega) hrin
          _ ≤ v := hge
      rw [hc]
      omega
    · simp only [if_neg hge]
      by_cases hlt : v < sorted.getD left.toNat 0
      · simp only [if_pos hlt]
        have hl0 : left = 0 := by
          rcases hL with h1 | h1
          · exact h1
          · exact absurd h1 (not_le.mpr hlt)
        have hc : sorted.countP (fun e => decide (e ≤ v)) = 0 := by
          rw [List.countP_eq_zero]
          intro a ha
          simp only [decide_eq_true_eq]
          rcases List.mem_iff_getElem.mp ha with ⟨i, hi, rfl⟩
          refine not_le.mpr (lt_of_lt_of_le hlt ?_)
          calc sorted.getD left.toNat 0 = sorted.getD 0 0 := by rw [hl0]; rfl
            _ ≤ sorted.getD i 0 := sorted_getD_mono sorted hs 0 i (Nat.zero_le i) hi
            _ = sorted[i] := List.getD_eq_getElem sorted 0 hi
        rw [hc, hl0]
        omega
      · simp only [if_neg hlt]
        have hle : sorted.getD left.toNat 0 ≤ v := not_lt.mp hlt
        have hvr : v < sorted.getD right.toNat 0 := not_le.mp hge
        have hc : sorted.countP (fun e => decide (e ≤ v)) = left.toNat + 1 := by
          apply countP_boundary v sorted hs left.toNat hlin hle
          refine Or.inr ?_
          have hsucc : left.toNat + 1 = right.toNat := by omega
          rw [hsucc]
          exact hvr
        rw [hc]
        omega
termination_by (right - left).toNat
decreasing_by
  all_goals omega

/-- Count of elements at most `v` is zero when `v` is below the head. -/
lemma countP_zero_of_lt_head (v : ℚ) (sorted : List ℚ)
    (hs : sorted.Pairwise (· < ·)) (h : v < sorted.getD 0 0) :
    sorted.countP (fun e => decide (e ≤ v)) = 0 := by
  rw [List.countP_eq_zero]
  intro a ha
  simp only [decide_eq_true_eq]
  rcases List.mem_iff_getElem.mp ha with ⟨i, hi, rfl⟩
  refine not_le.mpr (lt_of_lt_of_le h ?_)
  calc sorted.getD 0 0 ≤ sorted.getD i 0 :=
        sorted_getD_mono sorted hs 0 i (Nat.zero_le i) hi
    _ = sorted[i] := List.getD_eq_getElem sorted 0 hi

/-- Count of elements at most `v` is the whole length when the last element is
at most `v`. -/
lemma countP_length_of_last_le (v : ℚ) (sorted : List ℚ) (hne : sorted ≠ [])
    (hs : sorted.Pairwise (· < ·)) (h : sorted.getD (sorted.length - 1) 0 ≤ v) :
    sorted.countP (fun e => decide (e ≤ v)) = sorted.length := by
  have hlen : 0 < sorted.length := List.length_pos.mpr hne
  rw [List.countP_eq_length]
  intro a ha
  simp only [decide_eq_true_eq]
  rcases List.mem_iff_getElem.mp ha with ⟨i, hi, rfl⟩
  calc sorted[i] = sorted.getD i 0 := (List.getD_eq_getElem sorted 0 hi).symm
    _ ≤ sorted.getD (sorted.length - 1) 0 :=
        sorted_getD_mono sorted hs i (sorted.length - 1) (by omega) (by omega)
    _ ≤ v := h

/-- Closed form of `searchSortedLowerIndex` on a nonempty strictly ascending
array: the count of edges at most the value, minus one, clamped at zero. -/
lemma searchSortedLowerIndex_eq_count (sorted : List ℚ) (v : ℚ)
    (hne : sorted ≠ []) (hs : sorted.Pairwise (· < ·)) :
    searchSortedLowerIndex sorted v =
      max ((sorted.countP (fun e => decide (e ≤ v)) : ℤ) - 1) 0 := by
  have hlen : 0 < sorted.length := List.length_pos.mpr hne
  rw [searchSortedLowerIndex]
  rcases Nat.lt_or_ge sorted.length 2 with hs1 | hs2
  · have h1 : sorted.length = 1 := by omega
    rw [sslGo.eq_def]
    have hz : ((sorted.length : ℤ) - 1) = 0 := by omega
    rw [hz]
    have hget : jsGet sorted 0 = some (sorted.getD 0 0) :=
      jsGet_eq_some sorted 0 le_rfl (by omega)
    rw [hget]
    simp only [dite_eq_ite, if_neg (by omega : ¬((0 : ℤ) - 0 > 1)), Option.any_some,
      decide_eq_true_eq]
    by_cases hge : v ≥ sorted.getD 0 0
    · have hc : sorted.countP (fun e => decide (e ≤ v)) = sorted.length :=
        countP_length_of_last_le v sorted hne hs (by rw [h1]; exact hge)
      rw [if_pos hge, hc, h1]
      omega
    · have hc : sorted.countP (fun e => decide (e ≤ v)) = 0 :=
        countP_zero_of_lt_head v sorted hs (not_le.mp hge)
      rw [if_neg hge, if_pos (not_le.mp hge), hc]
      omega
  · exact sslGo_correct sorted v hs 0 ((sorted.length : ℤ) - 1) le_rfl (by omega)
      (by omega) (Or.inl rfl) (Or.inl rfl)

/-- C6. For every continuous feature, `countScore` locates the bin of a value
`v` by binary search returning the lower-bound index of `v` in the ascending
bin-edge array (the largest index `i` with `edge[i] ≤ v`), with out-of-range
values clamped: `v` below the first edge yields index 0 and `v` at or above
the last edge yields the last index; for every categorical feature the bin is
located by exact match of the encoded level. -/
theorem C6_countScore_bin_location :
    (∀ (sorted : List ℚ) (v : ℚ), sorted ≠ [] → sorted.Pairwise (· < ·) →
      0 ≤ searchSortedLowerIndex sorted v ∧
      searchSortedLowerIndex sorted v < (sorted.length : ℤ) ∧
      (v < sorted.getD 0 0 → searchSortedLowerIndex sorted v = 0) ∧
      (sorted.getD (sorted.length - 1) 0 ≤ v →
        searchSortedLowerIndex sorted v = (sorted.length : ℤ) - 1) ∧
      (sorted.getD 0 0 ≤ v →
        sorted.getD (searchSortedLowerIndex sorted v).toNat 0 ≤ v ∧
        ∀ i : ℕ, i < sorted.length → sorted.getD i 0 ≤ v →
          (i : ℤ) ≤ searchSortedLowerIndex sorted v)) ∧
    (∀ (m : EBMModel) (es : List ℚ) (j : ℕ),
      m.featureTypes.getD j "" = "continuous" →
      mainScoreOf m es j = jsGetD (m.scores.getD j [])
        (searchSortedLowerIndex (m.binEdges.getD j []) (es.getD j 0))) ∧
    (∀ (m : EBMModel) (es : List ℚ) (j : ℕ),
      m.featureTypes.getD j "" = "categorical" →
      mainScoreOf m es j =
        (if jsIndexOf (m.binEdges.getD j []) (es.getD j 0) < 0 then 0
         else jsGetD (m.scores.getD j [])
           (jsIndexOf (m.binEdges.getD j []) (es.getD j 0)))) := by
  refine ⟨?_, ?_, ?_⟩
  · intro sorted v hne hs
    have hlen : 0 < sorted.length := List.length_pos.mpr hne
    have hcle : sorted.countP (fun e => decide (e ≤ v)) ≤ sorted.length :=
      List.countP_le_length _
    have hkey := searchSortedLowerIndex_eq_count sorted v hne hs
    refine ⟨by rw [hkey]; omega, by rw [hkey]; omega, ?_, ?_, ?_⟩
    · intro hbelow
      rw [hkey, countP_zero_of_lt_head v sorted hs hbelow]
      omega
    · intro habove
      rw [hkey, countP_length_of_last_le v sorted hne hs habove]
      omega
    · intro hhead
      have hpos : 0 < sorted.countP (fun e => decide (e ≤ v)) :=
        (countP_le_iff v sorted hs 0 hlen).mp hhead
      constructor
      · have hidx : (searchSortedLowerIndex sorted v).toNat =
            sorted.countP (fun e => decide (e ≤ v)) - 1 := by
          rw [hkey]; omega
        rw [hidx]
        exact (countP_le_iff v sorted hs _ (by omega)).mpr (by omega)
      · intro i hi hle
        have := (countP_le_iff v sorted hs i hi).mp hle
        rw [hkey]
        omega
  · intro m es j htype
    simp only [mainScoreOf]
    rw [if_pos htype]
  · intro m es j htype
    have hneq : ¬ (m.featureTypes.getD j "" = "continuous") := by
      rw [htype]; decide
    simp only [mainScoreOf]
    rw [if_neg hneq]

/-- Witness for C6 at a concrete ascending edge array. -/
theorem C6_countScore_bin_location_witness :
    ((([1, 3, 5] : List ℚ) ≠ []) ∧ (([1, 3, 5] : List ℚ).Pairwise (· < ·))) ∧
    (0 ≤ searchSortedLowerIndex [1, 3, 5] 4 ∧
      searchSortedLowerIndex [1, 3, 5] 4 < ((([1, 3, 5] : List ℚ).length : ℤ)) ∧
      ((4 : ℚ) < ([1, 3, 5] : List ℚ).getD 0 0 → searchSortedLowerIndex [1, 3, 5] 4 = 0) ∧
      (([1, 3, 5] : List ℚ).getD (([1, 3, 5] : List ℚ).length - 1) 0 ≤ 4 →
        searchSortedLowerIndex [1, 3, 5] 4 = ((([1, 3, 5] : List ℚ).length : ℤ)) - 1) ∧
      (([1, 3, 5] : List ℚ).getD 0 0 ≤ 4 →
        ([1, 3, 5] : List ℚ).getD (searchSortedLowerIndex [1, 3, 5] 4).toNat 0 ≤ 4 ∧
        ∀ i : ℕ, i < ([1, 3, 5] : List ℚ).length → ([1, 3, 5] : List ℚ).getD i 0 ≤ 4 →
          (i : ℤ) ≤ searchSortedLowerIndex [1, 3, 5] 4)) :=
  ⟨⟨by decide, by decide⟩,
   C6_countScore_bin_location.1 [1, 3, 5] 4 (by decide) (by decide)⟩

/-! ### Update guard (claim C10) and regression setup (claim C8) -/

/-- Type looked up by `updateFeature` for a feature name: the type at the
first index of the name, or the empty stand-in for `undefined` when the name
is not in the feature list. -/
def lookedUpType (m : EBMModel) (name : String) : String :=
  let index := jsIndexOfStr m.featureNames name
  if 0 ≤ index then m.featureTypes.getD index.toNat "" else ""

/-- C10. For every feature name whose type in the model is neither
`continuous` nor `categorical` — including any name not present in the
feature list, which looks up an undefined type — `updateFeature` throws, and
it succeeds otherwise; the thrown error is returned before any mutation, so
the caller keeps the state exactly as it was before the call. -/
theorem C10_updateFeature_type_guard (sig : ℚ → ℚ) (m : EBMModel)
    (st : EBMLocalState) (name : String) (value : JsVal) :
    (updateFeature sig m st name value =
        Except.error "Only continuous and categorical features can be updated" ↔
      (lookedUpType m name ≠ "continuous" ∧ lookedUpType m name ≠ "categorical")) ∧
    (¬ (lookedUpType m name ≠ "continuous" ∧ lookedUpType m name ≠ "categorical") →
      ∃ st2, updateFeature sig m st name value = Except.ok st2) := by
  constructor
  · constructor
    · intro herr
      by_contra hcond
      simp only [lookedUpType] at hcond
      rw [updateFeature] at herr
      rw [if_neg hcond] at herr
      exact Except.noConfusion herr
    · intro hcond
      simp only [lookedUpType] at hcond
      rw [updateFeature, if_pos hcond]
  · intro hcond
    simp only [lookedUpType] at hcond
    rw [updateFeature, if_neg hcond]
    exact ⟨_, rfl⟩

/-- Witness for C10: a model whose only feature is an interaction-typed name,
plus a name absent from the list; both make `updateFeature` throw. -/
theorem C10_updateFeature_type_guard_witness :
    (lookedUpType
        { featureNames := ["a x b"], featureTypes := ["interaction"],
          binEdges := [], scores := [], intercept := 0,
          interactionIndexes := [], interactionBinEdges := [],
          interactionScores := [], isClassifier := true,
          labelEncoder := fun _ _ => none, labelDecoder := fun _ _ => none }
        "a x b" ≠ "continuous" ∧
      lookedUpType
        { featureNames := ["a x b"], featureTypes := ["interaction"],
          binEdges := [], scores := [], intercept := 0,
          interactionIndexes := [], interactionBinEdges := [],
          interactionScores := [], isClassifier := true,
          labelEncoder := fun _ _ => none, labelDecoder := fun _ _ => none }
        "a x b" ≠ "categorical") ∧
    updateFeature (fun q => q)
        { featureNames := ["a x b"], featureTypes := ["interaction"],
          binEdges := [], scores := [], intercept := 0,
          interactionIndexes := [], interactionBinEdges := [],
          interactionScores := [], isClassifier := true,
          labelEncoder := fun _ _ => none, labelDecoder := fun _ _ => none }
        { sample := [], countedScores := [], predScore := 0, predProb := 0,
          pred := 0 }
        "a x b" (.num 3) =
      Except.error "Only continuous and categorical features can be updated" := by
  constructor
  · constructor <;> simp [lookedUpType, jsIndexOfStr, List.findIdx?]
  · exact (C10_updateFeature_type_guard (fun q => q) _ _ "a x b" (.num 3)).1.mpr
      (by constructor <;> simp [lookedUpType, jsIndexOfStr, List.findIdx?])

/-- C8. Raises-iff for regression setup: with a regressor, the direction
setup of `generateCfs` throws exactly when the target range is missing or
already contains the current total score; otherwise it proceeds with
direction `+1` and threshold `targetRange[0] - score` when the score is below
the range, and direction `-1` with threshold `targetRange[1] - score` when
the score is above it, the opposite bound becoming the score-gain cap. The
throw happens in Step 1 of `generateCfs`, before any option generation or
solving, so the whole call returns the error and no partial result. -/
theorem C8_regression_raises_iff (pred totalScore : ℚ)
    (targetRange : Option (ℚ × ℚ)) :
    ((∃ msg, cfSetup false pred totalScore targetRange = .error msg) ↔
      (targetRange = none ∨
        ∃ tr, targetRange = some tr ∧ tr.1 ≤ totalScore ∧ totalScore ≤ tr.2)) ∧
    (∀ tr, targetRange = some tr → totalScore < tr.1 →
      cfSetup false pred totalScore targetRange =
        .ok (1, tr.1 - totalScore, some (tr.2 - totalScore))) ∧
    (∀ tr, targetRange = some tr → tr.1 ≤ tr.2 → tr.2 < totalScore →
      cfSetup false pred totalScore targetRange =
        .ok (-1, tr.2 - totalScore, some (tr.1 - totalScore))) ∧
    (∀ (sig : ℚ → ℚ) (m : EBMModel) (contMads : String → ℚ)
        (catDistances : String → String → ℚ)
        (solve : MilpModel → Option (List String × ℚ)) (cfg : CfConfig) (msg : String),
      m.isClassifier = false →
      cfSetup false (ebmLocalInit sig m cfg.curExample).pred
          (ebmLocalInit sig m cfg.curExample).predScore cfg.targetRange = .error msg →
      generateCfs sig m contMads catDistances solve cfg = .error msg) := by
  refine ⟨?_, ?_, ?_, ?_⟩
  · constructor
    · rintro ⟨msg, hmsg⟩
      rw [cfSetup] at hmsg
      simp only [Bool.false_eq_true, if_false] at hmsg
      cases htr : targetRange with
      | none => exact Or.inl rfl
      | some tr =>
        rw [htr] at hmsg
        simp only [Option.getD_some, reduceCtorEq, if_false] at hmsg
        refine Or.inr ⟨tr, rfl, ?_⟩
        by_cases hin : totalScore ≥ tr.1 ∧ totalScore ≤ tr.2
        · exact ⟨hin.1, hin.2⟩
        · rw [if_neg hin] at hmsg
          by_cases hlt : totalScore < tr.1
          · rw [if_pos hlt] at hmsg
            exact Except.noConfusion hmsg
          · rw [if_neg hlt] at hmsg
            exact Except.noConfusion hmsg
    · rintro (hnone | ⟨tr, htr, hin⟩)
      · subst hnone
        exact ⟨"targetRange cannot be null when the model is a regressor.", rfl⟩
      · subst htr
        refine ⟨"The targetRange cannot cover the current prediction.", ?_⟩
        rw [cfSetup]
        simp only [Bool.false_eq_true, if_false, Option.getD_some, reduceCtorEq]
        rw [if_pos ⟨hin.1, hin.2⟩]
  · intro tr htr hlt
    subst htr
    rw [cfSetup]
    simp only [Bool.false_eq_true, if_false, Option.getD_some, reduceCtorEq]
    rw [if_neg (by intro h; exact absurd hlt (not_lt.mpr h.1)), if_pos hlt]
  · intro tr htr hwf hgt
    subst htr
    rw [cfSetup]
    simp only [Bool.false_eq_true, if_false, Option.getD_some, reduceCtorEq]
    rw [if_neg (by intro h; exact absurd hgt (not_lt.mpr h.2)),
      if_neg (by exact not_lt.mpr (le_trans hwf (le_of_lt hgt)))]
  · intro sig m contMads catDistances solve cfg msg hreg herr
    simp only [generateCfs, hreg]
    rw [herr]
    rfl

/-- Witness for C8 at a concrete regression instance below the target range.
-/
theorem C8_regression_raises_iff_witness :
    ((some (((10 : ℚ), (20 : ℚ))) = some ((10 : ℚ), (20 : ℚ))) ∧ (5 : ℚ) < 10) ∧
    cfSetup false 0 5 (some (10, 20)) =
      .ok (1, (10 : ℚ) - 5, some ((20 : ℚ) - 5)) :=
  ⟨⟨rfl, by decide⟩,
   (C8_regression_raises_iff 0 5 (some (10, 20))).2.1 (10, 20) rfl (by decide)⟩

/-! ### Left-bin option targets and distances (claim C3) -/


/-- Full characterization of a surviving option of the per-bin filter stage:
the record fields in terms of the target and raw distance. -/
lemma contOptionFilters_some_eq (cfDirection curFeatureScore madValue : ℚ)
    (scoreGainBound : Option ℚ) (skipUnhelpfulMainOption : Bool)
    (additives : List ℚ) (assoc : List AssocInter) (i : ℕ)
    (target rawDistance : ℚ) (opt : MainOpt)
    (h : contOptionFilters cfDirection curFeatureScore madValue scoreGainBound
      skipUnhelpfulMainOption additives assoc i target rawDistance = some opt) :
    opt = { target := .num target
            scoreGain := additives.getD i 0 - curFeatureScore +
              ((assoc.map (fun d =>
                (d.curInteractionId,
                 jsGetD d.featureInterAdditives
                   (searchSortedLowerIndex d.featureInterBinEdges target)
                   - d.featureInterScore))).map Prod.snd).sum
            distance := if madValue > 0 then rawDistance / madValue else rawDistance
            binIndex := i
            interScoreGains := assoc.map (fun d =>
              (d.curInteractionId,
               jsGetD d.featureInterAdditives
                 (searchSortedLowerIndex d.featureInterBinEdges target)
                 - d.featureInterScore)) } := by
  rw [contOptionFilters] at h
  split at h
  · exact Option.noConfusion h
  · split at h
    · exact Option.noConfusion h
    · exact (Option.some.inj h).symm

/-- C3 counterexample input: for the continuous feature with bin starts
`[0, 1]`, additive scores `[1, 0]`, current value 3 (current bin 1), zero MAD
entry and direction `+1`, bin 0 (left of the current bin) yields an option
whose target is the next lower edge minus the epsilon but whose distance is
measured from the unshifted edge, so the distance differs from
`|target - current value|` (the claimed equality) by exactly the epsilon. -/
theorem C3_counterexample :
    contOptionForBin 1 3 0 0 none false true [1, 0] [0, 1] [] 1 0 =
      some { target := .num (9999/10000), scoreGain := 1, distance := 2,
             binIndex := 0, interScoreGains := [] } ∧
    ¬ ((2 : ℚ) = |(9999/10000 : ℚ) - 3|) := by
  constructor
  · have h1 : |(1 : ℚ) - 3| = 2 := by
      rw [abs_of_nonpos (by norm_num)]
      norm_num
    rw [contOptionForBin, contTargetDistance]
    norm_num [h1, contOptionFilters, Option.elim]
  · rw [abs_of_nonpos (by norm_num)]
    norm_num

/-- C3 (amended). In `generateContOptions`, for every bin `i` strictly left
of the current bin that yields an option: if the feature is not
integer-required, the target is bin `i+1` lower edge minus the epsilon
`1e-4`, while the distance is `|bin i+1 lower edge - current value|` (which
exceeds `|target - current value|` by the epsilon), divided by the MAD when
positive; if the feature is integer-required, the target is the largest
integer strictly below bin `i+1` lower edge, the bin is skipped when
no integer lies inside bin `i`, and the distance is `|target - current
value|`, divided by the MAD when positive. -/
theorem C3_left_bin_targets (cfDirection curFeatureValue curFeatureScore madValue : ℚ)
    (scoreGainBound : Option ℚ) (needToBeInt skipUnhelpfulMainOption : Bool)
    (additives binStarts : List ℚ) (assoc : List AssocInter) (curBinId : ℤ)
    (i : ℕ) (hlt : (i : ℤ) < curBinId) :
    (∀ opt, needToBeInt = false →
      contOptionForBin cfDirection curFeatureValue curFeatureScore madValue
        scoreGainBound needToBeInt skipUnhelpfulMainOption additives binStarts
        assoc curBinId i = some opt →
      opt.target = .num (binStarts.getD (i + 1) 0 - 1/10000) ∧
      opt.distance = (if madValue > 0 then
        |binStarts.getD (i + 1) 0 - curFeatureValue| / madValue
        else |binStarts.getD (i + 1) 0 - curFeatureValue|)) ∧
    (∀ opt, needToBeInt = true →
      contOptionForBin cfDirection curFeatureValue curFeatureScore madValue
        scoreGainBound needToBeInt skipUnhelpfulMainOption additives binStarts
        assoc curBinId i = some opt →
      ∃ t : ℤ, opt.target = .num (t : ℚ) ∧
        (t : ℚ) < binStarts.getD (i + 1) 0 ∧
        (∀ z : ℤ, (z : ℚ) < binStarts.getD (i + 1) 0 → z ≤ t) ∧
        binStarts.getD i 0 ≤ (t : ℚ) ∧
        opt.distance = (if madValue > 0 then
          |(t : ℚ) - curFeatureValue| / madValue
          else |(t : ℚ) - curFeatureValue|)) ∧
    (needToBeInt = true →
      (¬ ∃ z : ℤ, binStarts.getD i 0 ≤ (z : ℚ) ∧ (z : ℚ) < binStarts.getD (i + 1) 0) →
      contOptionForBin cfDirection curFeatureValue curFeatureScore madValue
        scoreGainBound needToBeInt skipUnhelpfulMainOption additives binStarts
        assoc curBinId i = none) := by
  set e := binStarts.getD (i + 1) 0 with he
  set tQ : ℚ := (if ((⌊e⌋ : ℤ) : ℚ) = e then ((⌊e⌋ : ℤ) : ℚ) - 1 else ((⌊e⌋ : ℤ) : ℚ))
    with htQ
  set tZ : ℤ := (if ((⌊e⌋ : ℤ) : ℚ) = e then ⌊e⌋ - 1 else ⌊e⌋) with htZ
  have hcast : (tZ : ℚ) = tQ := by
    rw [htZ, htQ]
    split <;> push_cast <;> ring
  have htlt : (tZ : ℚ) < e := by
    rw [hcast, htQ]
    by_cases hint : ((⌊e⌋ : ℤ) : ℚ) = e
    · rw [if_pos hint, hint]
      linarith
    · rw [if_neg hint]
      exact lt_of_le_of_ne (Int.floor_le e) hint
  have htmax : ∀ z : ℤ, (z : ℚ) < e → z ≤ tZ := by
    intro z hz
    rw [htZ]
    by_cases hint : ((⌊e⌋ : ℤ) : ℚ) = e
    · rw [if_pos hint]
      rw [← hint] at hz
      have : z < ⌊e⌋ := by exact_mod_cast hz
      omega
    · rw [if_neg hint]
      exact Int.le_floor.mpr (le_of_lt hz)
  refine ⟨?_, ?_, ?_⟩
  · intro opt hni hopt
    rw [contOptionForBin, hni] at hopt
    have htd : contTargetDistance curFeatureValue false additives binStarts curBinId i =
        some (e - 1/10000, |e - curFeatureValue|) := by
      rw [contTargetDistance, if_pos hlt]
      simp only [Bool.false_eq_true, if_false]
    rw [htd] at hopt
    simp only [Option.elim] at hopt
    have := contOptionFilters_some_eq cfDirection curFeatureScore madValue
      scoreGainBound skipUnhelpfulMainOption additives assoc i _ _ opt hopt
    subst this
    exact ⟨rfl, rfl⟩
  · intro opt hni hopt
    rw [contOptionForBin, hni] at hopt
    by_cases hskip : tQ < binStarts.getD i 0
    · have htd : contTargetDistance curFeatureValue true additives binStarts curBinId i =
          none := by
        rw [contTargetDistance, if_pos hlt]
        simp only [if_true]
        rw [← he, ← htQ, if_pos hskip]
      rw [htd] at hopt
      exact Option.noConfusion hopt
    · have htd : contTargetDistance curFeatureValue true additives binStarts curBinId i =
          some (tQ, |tQ - curFeatureValue|) := by
        rw [contTargetDistance, if_pos hlt]
        simp only [if_true]
        rw [← he, ← htQ, if_neg hskip]
      rw [htd] at hopt
      simp only [Option.elim] at hopt
      have heq := contOptionFilters_some_eq cfDirection curFeatureScore madValue
        scoreGainBound skipUnhelpfulMainOption additives assoc i _ _ opt hopt
      subst heq
      refine ⟨tZ, by rw [hcast], htlt, htmax, ?_, by rw [hcast]⟩
      rw [hcast]
      exact not_lt.mp hskip
  · intro hni hno
    have hskip : tQ < binStarts.getD i 0 := by
      by_contra hge
      exact hno ⟨tZ, by rw [hcast]; exact not_lt.mp hge, htlt⟩
    rw [contOptionForBin, hni]
    have htd : contTargetDistance curFeatureValue true additives binStarts curBinId i =
        none := by
      rw [contTargetDistance, if_pos hlt]
      simp only [if_true]
      rw [← he, ← htQ, if_pos hskip]
    rw [htd]
    rfl

/-- Witness for the amended C3 at the counterexample instance. -/
theorem C3_left_bin_targets_witness :
    ((((0 : ℕ) : ℤ) < 1 ∧
      contOptionForBin 1 3 0 0 none false true [1, 0] [0, 1] [] 1 0 =
        some { target := .num (9999/10000), scoreGain := 1, distance := 2,
               binIndex := 0, interScoreGains := [] }) ∧
     ({ target := .num (9999/10000), scoreGain := 1, distance := 2,
        binIndex := 0, interScoreGains := [] : MainOpt }).target =
          .num (([0, 1] : List ℚ).getD (0 + 1) 0 - 1/10000) ∧
     ({ target := .num (9999/10000), scoreGain := 1, distance := 2,
        binIndex := 0, interScoreGains := [] : MainOpt }).distance =
          (if (0 : ℚ) > 0 then |([0, 1] : List ℚ).getD (0 + 1) 0 - 3| / 0
           else |([0, 1] : List ℚ).getD (0 + 1) 0 - 3|)) := by
  have hopt : contOptionForBin 1 3 0 0 none false true [1, 0] [0, 1] [] 1 0 =
      some { target := .num (9999/10000), scoreGain := 1, distance := 2,
             binIndex := 0, interScoreGains := [] } := by
    have h1 : |(1 : ℚ) - 3| = 2 := by
      rw [abs_of_nonpos (by norm_num)]
      norm_num
    rw [contOptionForBin, contTargetDistance]
    norm_num [h1, contOptionFilters, Option.elim]
  exact ⟨⟨by decide, hopt⟩,
    (C3_left_bin_targets 1 3 0 0 none false true [1, 0] [0, 1] [] 1 0
      (by decide)).1 _ rfl hopt⟩

/-! ### Redundancy pruning (claim C7) -/

/-- The pruning loop only deletes entries: its output is a sublist of its
input. -/
lemma pruneRedundant_sublist (epsilon : ℚ) (l : List MainOpt) :
    (pruneRedundant epsilon l).Sublist l := by
  rw [pruneRedundant.eq_def]
  match l with
  | [] => exact List.Sublist.refl []
  | x :: rest =>
    refine List.Sublist.cons₂ x ?_
    exact List.Sublist.trans
      (pruneRedundant_sublist epsilon
        (rest.filter (fun o => ¬ |o.scoreGain - x.scoreGain| < epsilon)))
      (List.filter_sublist rest)
termination_by l.length
decreasing_by
  simp only [List.length_cons]
  exact Nat.lt_succ_of_le (List.length_filter_le _ _)

/-- Any two entries surviving the pruning loop have score gains at least the
threshold apart, in scan order. -/
lemma pruneRedundant_pairwise_far (epsilon : ℚ) (l : List MainOpt) :
    (pruneRedundant epsilon l).Pairwise
      (fun a b => |b.scoreGain - a.scoreGain| ≥ epsilon) := by
  rw [pruneRedundant.eq_def]
  match l with
  | [] => exact List.Pairwise.nil
  | x :: rest =>
    refine List.pairwise_cons.mpr ⟨?_, ?_⟩
    · intro y hy
      have hmem := (pruneRedundant_sublist epsilon
        (rest.filter (fun o => ¬ |o.scoreGain - x.scoreGain| < epsilon))).mem hy
      have := List.of_mem_filter hmem
      simp only [decide_not, Bool.not_eq_eq_eq_not, Bool.not_true,
        decide_eq_false_iff_not, not_lt] at this
      exact decide_eq_true_eq.mp this
    · exact pruneRedundant_pairwise_far epsilon _
termination_by l.length
decreasing_by
  simp only [List.length_cons]
  exact Nat.lt_succ_of_le (List.length_filter_le _ _)

/-- Every input entry dropped by the pruning loop is within the threshold of
a kept entry that is no costlier (for a distance-sorted input). -/
lemma pruneRedundant_removed (epsilon : ℚ) (l : List MainOpt)
    (hsort : l.Pairwise (fun a b => a.distance ≤ b.distance)) :
    ∀ o ∈ l, o ∉ pruneRedundant epsilon l →
      ∃ k ∈ pruneRedundant epsilon l, k.distance ≤ o.distance ∧
        |o.scoreGain - k.scoreGain| < epsilon := by
  rw [pruneRedundant.eq_def]
  match l with
  | [] => intro o ho; exact absurd ho (List.not_mem_nil o)
  | x :: rest =>
    intro o ho hno
    rcases List.pairwise_cons.mp hsort with ⟨hxle, hrest⟩
    rcases List.mem_cons.mp ho with rfl | hor
    · exact absurd (List.mem_cons_self o _) hno
    · by_cases hnear : |o.scoreGain - x.scoreGain| < epsilon
      · exact ⟨x, List.mem_cons_self x _, hxle o hor, hnear⟩
      · have hmemf : o ∈ rest.filter
            (fun o => ¬ |o.scoreGain - x.scoreGain| < epsilon) := by
          refine List.mem_filter.mpr ⟨hor, ?_⟩
          simpa using hnear
        have hnop : o ∉ pruneRedundant epsilon
            (rest.filter (fun o => ¬ |o.scoreGain - x.scoreGain| < epsilon)) := by
          intro hin
          exact hno (List.mem_cons_of_mem x hin)
        have hsf : (rest.filter
            (fun o => ¬ |o.scoreGain - x.scoreGain| < epsilon)).Pairwise
            (fun a b => a.distance ≤ b.distance) :=
          hrest.sublist (List.filter_sublist rest)
        rcases pruneRedundant_removed epsilon _ hsf o hmemf hnop with ⟨k, hk, hkd, hke⟩
        exact ⟨k, List.mem_cons_of_mem x hk, hkd, hke⟩
termination_by l.length
decreasing_by
  simp only [List.length_cons]
  exact Nat.lt_succ_of_le (List.length_filter_le _ _)

/-- C7. Redundancy pruning in `generateContOptions`: the surviving options
are sorted by ascending distance and pruned scanning from the cheapest kept
option outward; the returned list is sorted by ascending distance, every
collected option that was dropped has score gain within the threshold of a
kept option no costlier than it, and any two returned options have score
gains at least the threshold apart. -/
theorem C7_redundancy_pruning (m : EBMModel) (cfDirection : ℚ)
    (curFeatureIndex : ℕ) (curFeatureName : String)
    (curFeatureValue curFeatureScore : ℚ) (contMads : String → ℚ)
    (curExample : List JsVal) (scoreGainBound : Option ℚ) (epsilon : ℚ)
    (needToBeInt skipUnhelpfulMainOption : Bool) :
    (generateContOptions m cfDirection curFeatureIndex curFeatureName
        curFeatureValue curFeatureScore contMads curExample scoreGainBound
        epsilon needToBeInt skipUnhelpfulMainOption).Pairwise
      (fun a b => a.distance ≤ b.distance) ∧
    (∀ o ∈ contCollectedOptions m cfDirection curFeatureIndex curFeatureName
        curFeatureValue curFeatureScore contMads curExample scoreGainBound
        needToBeInt skipUnhelpfulMainOption,
      o ∉ generateContOptions m cfDirection curFeatureIndex curFeatureName
        curFeatureValue curFeatureScore contMads curExample scoreGainBound
        epsilon needToBeInt skipUnhelpfulMainOption →
      ∃ k ∈ generateContOptions m cfDirection curFeatureIndex curFeatureName
        curFeatureValue curFeatureScore contMads curExample scoreGainBound
        epsilon needToBeInt skipUnhelpfulMainOption,
        k.distance ≤ o.distance ∧ |o.scoreGain - k.scoreGain| < epsilon) ∧
    (generateContOptions m cfDirection curFeatureIndex curFeatureName
        curFeatureValue curFeatureScore contMads curExample scoreGainBound
        epsilon needToBeInt skipUnhelpfulMainOption).Pairwise
      (fun a b => |b.scoreGain - a.scoreGain| ≥ epsilon) := by
  have hsorted : ((contCollectedOptions m cfDirection curFeatureIndex
      curFeatureName curFeatureValue curFeatureScore contMads curExample
      scoreGainBound needToBeInt skipUnhelpfulMainOption).mergeSort
      (fun a b => a.distance ≤ b.distance)).Pairwise
      (fun a b => a.distance ≤ b.distance) := by
    have := @List.sorted_mergeSort MainOpt
      (fun (a b : MainOpt) => decide (a.distance ≤ b.distance))
      (fun a b c hab hbc => by
        simp only [decide_eq_true_eq] at *
        exact le_trans hab hbc)
      (fun a b => by
        simp only [Bool.or_eq_true, decide_eq_true_eq]
        exact le_total a.distance b.distance)
      (contCollectedOptions m cfDirection curFeatureIndex curFeatureName
        curFeatureValue curFeatureScore contMads curExample scoreGainBound
        needToBeInt skipUnhelpfulMainOption)
    exact this.imp (fun h => decide_eq_true_eq.mp h)
  refine ⟨?_, ?_, ?_⟩
  · rw [generateContOptions]
    exact hsorted.sublist (pruneRedundant_sublist _ _)
  · intro o ho hno
    rw [generateContOptions] at hno ⊢
    have hom : o ∈ (contCollectedOptions m cfDirection curFeatureIndex
        curFeatureName curFeatureValue curFeatureScore contMads curExample
        scoreGainBound needToBeInt skipUnhelpfulMainOption).mergeSort
        (fun a b => a.distance ≤ b.distance) :=
      (List.mergeSort_perm _ _).symm.mem_iff.mp ho
    exact pruneRedundant_removed epsilon _ hsorted o hom hno
  · rw [generateContOptions]
    exact pruneRedundant_pairwise_far epsilon _

/-- Concrete single-feature model used by the C7 witness: three bins with
additive scores `[2, 2, 1]`. -/
def mC7 : EBMModel :=
  { featureNames := ["f"], featureTypes := ["continuous"],
    binEdges := [[0, 1, 2]], scores := [[2, 2, 1]], intercept := 0,
    interactionIndexes := [], interactionBinEdges := [],
    interactionScores := [], isClassifier := true,
    labelEncoder := fun _ _ => none, labelDecoder := fun _ _ => none }

/-- Collected options of the C7 witness instance: bins 0 and 1 (left of the
current bin 2) both gain 1, at distances 2 and 1. -/
lemma mC7_collected :
    contCollectedOptions mC7 1 0 "f" 3 1 (fun _ => 0) [.num 3] none false true =
      [{ target := .num (9999/10000), scoreGain := 1, distance := 2,
         binIndex := 0, interScoreGains := [] },
       { target := .num (19999/10000), scoreGain := 1, distance := 1,
         binIndex := 1, interScoreGains := [] }] := by
  have habs2 : |(1 : ℚ) - 3| = 2 := by
    rw [abs_of_nonpos (by norm_num)]
    norm_num
  have habs1 : |(2 : ℚ) - 3| = 1 := by
    rw [abs_of_nonpos (by norm_num)]
    norm_num
  have hssl : searchSortedLowerIndex ([0, 1, 2] : List ℚ) 3 = 2 := by
    rw [searchSortedLowerIndex_eq_count _ _ (by decide) (by decide)]
    norm_num [List.countP_cons]
  have hrange : List.range 3 = [0, 1, 2] := rfl
  rw [contCollectedOptions]
  simp only [mC7, List.getD]
  norm_num [hssl, hrange, List.filterMap_cons, contOptionForBin, contTargetDistance,
    contOptionFilters, Option.elim, habs2, habs1]

/-- Pruned result of the C7 witness instance: the costlier gain-1 option is
dropped by the redundancy pruning at threshold `1/2`. -/
lemma mC7_result :
    generateContOptions mC7 1 0 "f" 3 1 (fun _ => 0) [.num 3] none (1/2) false true =
      [{ target := .num (19999/10000), scoreGain := 1, distance := 1,
         binIndex := 1, interScoreGains := [] }] := by
  rw [generateContOptions, mC7_collected]
  norm_num [List.mergeSort, List.merge, pruneRedundant, List.filter]

/-- Option removed by the pruning in the C7 witness instance. -/
def optC7removed : MainOpt :=
  { target := .num (9999/10000), scoreGain := 1, distance := 2,
    binIndex := 0, interScoreGains := [] }

/-- Witness for C7: at the concrete instance the costlier similar-gain option
is removed and a kept cheaper option within the threshold exists. -/
theorem C7_redundancy_pruning_witness :
    (optC7removed ∈
        contCollectedOptions mC7 1 0 "f" 3 1 (fun _ => 0) [.num 3] none false true ∧
     optC7removed ∉
        generateContOptions mC7 1 0 "f" 3 1 (fun _ => 0) [.num 3] none (1/2) false true) ∧
    (∃ k ∈ generateContOptions mC7 1 0 "f" 3 1 (fun _ => 0) [.num 3] none (1/2) false true,
      k.distance ≤ optC7removed.distance ∧
      |optC7removed.scoreGain - k.scoreGain| < 1/2) := by
  have hmem : optC7removed ∈
      contCollectedOptions mC7 1 0 "f" 3 1 (fun _ => 0) [.num 3] none false true := by
    rw [mC7_collected]
    exact List.mem_cons_self _ _
  have hnot : optC7removed ∉
      generateContOptions mC7 1 0 "f" 3 1 (fun _ => 0) [.num 3] none (1/2) false true := by
    rw [mC7_result]
    intro hmem2
    have heq := List.mem_singleton.mp hmem2
    exact absurd (congrArg MainOpt.binIndex heq) (by decide)
  exact ⟨⟨hmem, hnot⟩,
    (C7_redundancy_pruning mC7 1 0 "f" 3 1 (fun _ => 0) [.num 3] none (1/2)
      false true).2.1 _ hmem hnot⟩

/-! ### Shared-interaction lookup of interaction options (claim C9) -/

/-- Behaviour of the common-identifier scan from an arbitrary outer start
position: either no identifier is shared and the indices stay `(-1, -1)`, or
the scan returns in-range positions holding a shared identifier. -/
lemma findCommonIndexAux_spec (bd2 : List (ℕ × ℚ)) (bd1 : List (ℕ × ℚ)) :
    ∀ (s : ℕ),
      (findCommonIndexAux bd2 bd1 s = (-1, -1) ∧
        ¬ ∃ p ∈ bd1, ∃ q ∈ bd2, p.1 = q.1) ∨
      (∃ (j n : ℕ) (hj : j < bd1.length) (hn : n < bd2.length),
        findCommonIndexAux bd2 bd1 s = (((s + j : ℕ) : ℤ), (n : ℤ)) ∧
        (bd1.get ⟨j, hj⟩).1 = (bd2.get ⟨n, hn⟩).1) := by
  induction bd1 with
  | nil =>
    intro s
    left
    refine ⟨rfl, ?_⟩
    rintro ⟨p, hp, _⟩
    exact absurd hp (List.not_mem_nil p)
  | cons p rest ih =>
    intro s
    rw [findCommonIndexAux]
    cases hfind : bd2.findIdx? (fun q => q.1 == p.1) with
    | some n =>
      right
      rcases List.findIdx?_eq_some_iff_getElem.mp hfind with ⟨hn, hp, _⟩
      refine ⟨0, n, by simp, hn, by simp, ?_⟩
      have hb : (bd2.get ⟨n, hn⟩).1 = p.1 := by
        have hx := hp
        simp only [beq_iff_eq] at hx
        exact hx
      exact hb.symm
    | none =>
      rcases ih (s + 1) with ⟨h1, h2⟩ | ⟨j, n, hj, hn, heq, hmatch⟩
      · left
        refine ⟨h1, ?_⟩
        rintro ⟨p', hp', q, hq, hpq⟩
        rcases List.mem_cons.mp hp' with rfl | hmem
        · have := List.findIdx?_eq_none_iff.mp hfind q hq
          simp only [beq_eq_false_iff_ne, ne_eq] at this
          exact this hpq.symm
        · exact h2 ⟨p', hmem, q, hq, hpq⟩
      · right
        refine ⟨j + 1, n, by simpa using Nat.succ_lt_succ hj, hn, ?_, ?_⟩
        · rw [heq]
          have hss : (s + 1) + j = s + (j + 1) := by omega
          rw [hss]
        · exact hmatch

/-- C9 (amended). In `generateInterOptions`, the offsets subtracted from the
raw interaction gain are looked up at the positions of a shared interaction
identifier in the two parent breakdown lists; the search indices stay
`[-1, -1]` exactly when the parents share no identifier, the lookups are in
bounds exactly when a shared identifier exists, and with no shared identifier
the out-of-bounds element access yields the JavaScript `undefined`, whose
field read throws a `TypeError` (so the pair produces no option at all,
rather than an option with a non-numeric score gain). -/
theorem C9_shared_interaction_lookup :
    (∀ (bd1 bd2 : List (ℕ × ℚ)),
      (findCommonIndex bd1 bd2 = (-1, -1) ↔ ¬ ∃ p ∈ bd1, ∃ q ∈ bd2, p.1 = q.1)) ∧
    (∀ (bd1 bd2 : List (ℕ × ℚ)),
      (∃ p ∈ bd1, ∃ q ∈ bd2, p.1 = q.1) →
      ∃ (j n : ℕ) (hj : j < bd1.length) (hn : n < bd2.length),
        findCommonIndex bd1 bd2 = ((j : ℤ), (n : ℤ)) ∧
        (bd1.get ⟨j, hj⟩).1 = (bd2.get ⟨n, hn⟩).1 ∧
        breakdownGainAt bd1 (j : ℤ) = .ok (bd1.get ⟨j, hj⟩).2 ∧
        breakdownGainAt bd2 (n : ℤ) = .ok (bd2.get ⟨n, hn⟩).2) ∧
    (∀ (m : EBMModel) (k i1 i2 : ℕ) (score : ℚ) (opt1 opt2 : MainOpt),
      ¬ (∃ p ∈ opt1.interScoreGains, ∃ q ∈ opt2.interScoreGains, p.1 = q.1) →
      0 ≤ (interPairBins m k i1 i2 opt1 opt2).1 →
      0 ≤ (interPairBins m k i1 i2 opt1 opt2).2 →
      interOptionOfPair m k i1 i2 score opt1 opt2 =
        .error "TypeError: cannot read properties of undefined") := by
  have hnone : ∀ (bd1 bd2 : List (ℕ × ℚ)),
      (¬ ∃ p ∈ bd1, ∃ q ∈ bd2, p.1 = q.1) → findCommonIndex bd1 bd2 = (-1, -1) := by
    intro bd1 bd2 hno
    rcases findCommonIndexAux_spec bd2 bd1 0 with ⟨h1, _⟩ | ⟨j, n, hj, hn, heq, hmatch⟩
    · exact h1
    · exact absurd ⟨bd1.get ⟨j, hj⟩, List.get_mem bd1 j hj,
        bd2.get ⟨n, hn⟩, List.get_mem bd2 n hn, hmatch⟩ hno
  refine ⟨?_, ?_, ?_⟩
  · intro bd1 bd2
    constructor
    · intro heq
      rcases findCommonIndexAux_spec bd2 bd1 0 with ⟨_, h2⟩ | ⟨j, n, hj, hn, heq2, _⟩
      · exact h2
      · rw [findCommonIndex] at heq
        rw [heq2] at heq
        have := congrArg Prod.fst heq
        simp only at this
        omega
    · exact hnone bd1 bd2
  · intro bd1 bd2 hshared
    rcases findCommonIndexAux_spec bd2 bd1 0 with ⟨_, h2⟩ | ⟨j, n, hj, hn, heq, hmatch⟩
    · exact absurd hshared h2
    · refine ⟨j, n, hj, hn, ?_, hmatch, ?_, ?_⟩
      · rw [findCommonIndex, heq]
        simp
      · rw [breakdownGainAt]
        have h0 : (0 : ℤ) ≤ (j : ℤ) := Int.ofNat_nonneg j
        rw [if_pos h0]
        simp only [Int.toNat_natCast]
        rw [List.get?_eq_getElem?, List.getElem?_eq_getElem hj]
        rfl
      · rw [breakdownGainAt]
        have h0 : (0 : ℤ) ≤ (n : ℤ) := Int.ofNat_nonneg n
        rw [if_pos h0]
        simp only [Int.toNat_natCast]
        rw [List.get?_eq_getElem?, List.getElem?_eq_getElem hn]
        rfl
  · intro m k i1 i2 score opt1 opt2 hno hb1 hb2
    rw [interOptionOfPair]
    rw [if_neg (by omega)]
    rw [hnone opt1.interScoreGains opt2.interScoreGains hno]
    rfl

/-- Concrete two-feature model with one interaction term, used for the C9
counterexample and witness. -/
def mC9 : EBMModel :=
  { featureNames := ["a", "b"], featureTypes := ["continuous", "continuous"],
    binEdges := [[0], [0]], scores := [[0], [0]], intercept := 0,
    interactionIndexes := [(0, 1)], interactionBinEdges := [([0], [0])],
    interactionScores := [[[5]]], isClassifier := true,
    labelEncoder := fun _ _ => none, labelDecoder := fun _ _ => none }

/-- Parent option whose breakdown lists only interaction id 0. -/
def optC9a : MainOpt :=
  { target := .num 0, scoreGain := 1, distance := 0, binIndex := 0,
    interScoreGains := [(0, 1)] }

/-- Parent option whose breakdown lists only interaction id 1, sharing no
identifier with `optC9a`. -/
def optC9b : MainOpt :=
  { target := .num 0, scoreGain := 1, distance := 0, binIndex := 0,
    interScoreGains := [(1, 2)] }

/-- Interaction bins of the C9 instance both resolve to bin 0. -/
lemma mC9_bins : interPairBins mC9 0 0 1 optC9a optC9b = (0, 0) := by
  have hssl : searchSortedLowerIndex [0] (0 : ℚ) = 0 := by
    rw [searchSortedLowerIndex_eq_count _ _ (by decide) (by decide)]
    norm_num [List.countP_cons]
  rw [interPairBins]
  simp only [mC9, optC9a, optC9b, List.getD]
  norm_num [hssl, JsVal.toQ]

/-- Evaluation of the C9 instance: the pair computation throws. -/
lemma mC9_throws :
    interOptionOfPair mC9 0 0 1 0 optC9a optC9b =
      .error "TypeError: cannot read properties of undefined" := by
  have hfc : findCommonIndex optC9a.interScoreGains optC9b.interScoreGains =
      (-1, -1) := by decide
  rw [interOptionOfPair]
  simp only [mC9_bins]
  norm_num [hfc]
  rfl

/-- C9 counterexample: with no shared interaction identifier between the two
parent breakdowns, the pair computation fails with a thrown `TypeError`; it
does not silently produce an interaction option with a non-numeric score gain
as the claim states. -/
theorem C9_counterexample :
    interOptionOfPair mC9 0 0 1 0 optC9a optC9b =
      .error "TypeError: cannot read properties of undefined" ∧
    ¬ ∃ io, interOptionOfPair mC9 0 0 1 0 optC9a optC9b = .ok io := by
  refine ⟨mC9_throws, ?_⟩
  rintro ⟨io, hio⟩
  rw [mC9_throws] at hio
  exact Except.noConfusion hio

/-- Witness for the amended C9 at the counterexample instance. -/
theorem C9_shared_interaction_lookup_witness :
    ((¬ ∃ p ∈ optC9a.interScoreGains, ∃ q ∈ optC9b.interScoreGains, p.1 = q.1) ∧
      0 ≤ (interPairBins mC9 0 0 1 optC9a optC9b).1 ∧
      0 ≤ (interPairBins mC9 0 0 1 optC9a optC9b).2) ∧
    interOptionOfPair mC9 0 0 1 0 optC9a optC9b =
      .error "TypeError: cannot read properties of undefined" := by
  have h1 : ¬ ∃ p ∈ optC9a.interScoreGains, ∃ q ∈ optC9b.interScoreGains,
      p.1 = q.1 := by
    rintro ⟨p, hp, q, hq, hpq⟩
    simp only [optC9a, optC9b, List.mem_singleton] at hp hq
    rw [hp, hq] at hpq
    exact absurd hpq (by decide)
  have h2 : 0 ≤ (interPairBins mC9 0 0 1 optC9a optC9b).1 := by
    rw [mC9_bins]
  have h3 : 0 ≤ (interPairBins mC9 0 0 1 optC9a optC9b).2 := by
    rw [mC9_bins]
  exact ⟨⟨h1, h2, h3⟩,
    C9_shared_interaction_lookup.2.2 mC9 0 0 1 0 optC9a optC9b h1 h2 h3⟩

/-! ### The overall score-gain constraint (claim C4) -/

/-- Summation exchange for flattened option lists. -/
lemma sum_map_flatMap {α β : Type} (l : List α) (f : α → List β) (g : β → ℚ) :
    ((l.flatMap f).map g).sum = (l.map (fun x => ((f x).map g).sum)).sum := by
  induction l with
  | nil => simp
  | cons x xs ih => simp [ih]

/-- A string containing a colon is not the name of the overall constraint. -/
lemma ne_cf_of_colon (s : String) (hs : ':' ∈ s.data) : s ≠ "cf-constraint" := by
  intro h
  rw [h] at hs
  exact absurd hs (by decide)

/-- Names built over an interaction auxiliary variable contain a colon. -/
lemma colon_mem_zVarName_append (key : String) (b1 b2 : ℕ) (sfx : String) :
    ':' ∈ (zVarName key b1 b2 ++ sfx).data := by
  simp only [zVarName, String.data_append, List.mem_append]
  left; left; left; left
  right
  decide

/-- Spec-level total of the main-effect gains selected by an assignment. -/
def mainGainTotal (options : OptionsMap) (featuresToVary : List String)
    (mutedVariables : List String) (a : String → ℚ) : ℚ :=
  (featuresToVary.map (fun f =>
    ((keptMainOpts options mutedVariables f).map
      (fun o => o.scoreGain * a (mainVarName f o.binIndex))).sum)).sum

/-- Spec-level total of the interaction gains selected by an assignment. -/
def interGainTotal (options : OptionsMap) (featuresToVary : List String)
    (mutedVariables : List String) (a : String → ℚ) : ℚ :=
  (options.inters.map (fun kv =>
    ((keptInterOpts featuresToVary mutedVariables kv.1 kv.2).map
      (fun o => o.scoreGain * a (zVarName kv.1 o.binIndex1 o.binIndex2))).sum)).sum

/-- Evaluation of the assembled counterfactual constraint terms is the sum of
selected main-effect and interaction gains. -/
lemma evalCfVars (options : OptionsMap) (featuresToVary : List String)
    (mutedVariables : List String) (a : String → ℚ) :
    evalLinTerms (mainCfVars options featuresToVary mutedVariables ++
        interCfVars options featuresToVary mutedVariables) a =
      mainGainTotal options featuresToVary mutedVariables a +
      interGainTotal options featuresToVary mutedVariables a := by
  rw [evalLinTerms, List.map_append, List.sum_append]
  congr 1
  · rw [mainCfVars, mainGainTotal, sum_map_flatMap]
    simp only [List.map_map]
    rfl
  · rw [interCfVars, interGainTotal, sum_map_flatMap]
    simp only [List.map_map]
    rfl


/-- A constraint list with no row named `cf-constraint` filters to nothing.
-/
lemma filter_cf_nil (l : List MilpConstraint)
    (h : ∀ c ∈ l, c.name ≠ "cf-constraint") :
    l.filter (fun c => c.name == "cf-constraint") = [] := by
  rw [List.filter_eq_nil_iff]
  intro c hc
  simp only [beq_iff_eq]
  exact h c hc

/-- C4. Every model built by `createMILP` contains exactly one overall
score-gain constraint, named `cf-constraint`: its terms are the non-muted
main-effect option gains times their binary variables plus the kept
interaction option gains times their auxiliary variables, its bound is
`GLP_LO` at the threshold for direction `+1` and `GLP_UP` at the threshold
for direction `-1`, and consequently every feasible (hence every optimal)
solver assignment satisfies the direction-specific inequality. -/
theorem C4_overall_constraint (cfDirection neededScoreGain : ℚ)
    (featuresToVary : List String) (options : OptionsMap)
    (maxNumFeaturesToVary : Option ℚ) (mutedVariables : List String) :
    ((createMILP cfDirection neededScoreGain featuresToVary options
        maxNumFeaturesToVary mutedVariables).subjectTo.filter
        (fun c => c.name == "cf-constraint") =
      [cfConstraintOf cfDirection neededScoreGain featuresToVary options
        mutedVariables]) ∧
    ((cfConstraintOf cfDirection neededScoreGain featuresToVary options
        mutedVariables).bnds =
      if cfDirection = 1 then GlpBnds.lo neededScoreGain
      else GlpBnds.up neededScoreGain) ∧
    (∀ a : String → ℚ,
      evalLinTerms (cfConstraintOf cfDirection neededScoreGain featuresToVary
          options mutedVariables).vars a =
        mainGainTotal options featuresToVary mutedVariables a +
        interGainTotal options featuresToVary mutedVariables a) ∧
    (∀ a : String → ℚ,
      FeasibleAssignment (createMILP cfDirection neededScoreGain featuresToVary
        options maxNumFeaturesToVary mutedVariables) a →
      (cfDirection = 1 →
        neededScoreGain ≤ mainGainTotal options featuresToVary mutedVariables a +
          interGainTotal options featuresToVary mutedVariables a) ∧
      (cfDirection = -1 →
        mainGainTotal options featuresToVary mutedVariables a +
          interGainTotal options featuresToVary mutedVariables a ≤ neededScoreGain)) := by
  have hbound : ∀ c ∈ boundConstraintsOf options featuresToVary mutedVariables,
      c.name ≠ "cf-constraint" := by
    intro c hc
    rcases List.mem_map.mp hc with ⟨f, _, rfl⟩
    simp only
    intro h
    have h2 := congrArg String.data h
    rw [String.data_append] at h2
    simp at h2
  have hmax : ∀ c ∈ maxNumConstraintsOf options featuresToVary mutedVariables
      maxNumFeaturesToVary, c.name ≠ "cf-constraint" := by
    intro c hc
    cases maxNumFeaturesToVary with
    | none => exact absurd hc (List.not_mem_nil c)
    | some mx =>
      rw [maxNumConstraintsOf] at hc
      rcases List.mem_singleton.mp hc with rfl
      show "max-num-cons" ≠ "cf-constraint"
      decide
  have htriples : ∀ c ∈ interTriplesOf options featuresToVary mutedVariables,
      c.name ≠ "cf-constraint" := by
    intro c hc
    rcases List.mem_flatMap.mp hc with ⟨kv, _, hc2⟩
    rcases List.mem_flatMap.mp hc2 with ⟨o, _, hc3⟩
    simp only [List.mem_cons, List.mem_singleton] at hc3
    rcases hc3 with rfl | rfl | rfl | hfalse
    · exact ne_cf_of_colon _ (colon_mem_zVarName_append kv.1 o.binIndex1 o.binIndex2 "-1")
    · exact ne_cf_of_colon _ (colon_mem_zVarName_append kv.1 o.binIndex1 o.binIndex2 "-2")
    · exact ne_cf_of_colon _ (colon_mem_zVarName_append kv.1 o.binIndex1 o.binIndex2 "-3")
    · exact absurd hfalse (List.not_mem_nil c)
  have hcf_mem : cfConstraintOf cfDirection neededScoreGain featuresToVary
      options mutedVariables ∈
      (createMILP cfDirection neededScoreGain featuresToVary options
        maxNumFeaturesToVary mutedVariables).subjectTo := by
    rw [createMILP]
    simp only [List.mem_append, List.mem_singleton]
    tauto
  have heval : ∀ a : String → ℚ,
      evalLinTerms (cfConstraintOf cfDirection neededScoreGain featuresToVary
          options mutedVariables).vars a =
        mainGainTotal options featuresToVary mutedVariables a +
        interGainTotal options featuresToVary mutedVariables a := by
    intro a
    rw [cfConstraintOf]
    exact evalCfVars options featuresToVary mutedVariables a
  refine ⟨?_, rfl, heval, ?_⟩
  · rw [createMILP]
    simp only [List.filter_append]
    rw [filter_cf_nil _ hbound, filter_cf_nil _ hmax, filter_cf_nil _ htriples]
    simp [cfConstraintOf]
  · intro a hfeas
    have hsat := hfeas.1 _ hcf_mem
    rw [satisfiesConstraint] at hsat
    constructor
    · intro hdir
      rw [← heval a]
      have hb : (cfConstraintOf cfDirection neededScoreGain featuresToVary
          options mutedVariables).bnds = GlpBnds.lo neededScoreGain := by
        rw [cfConstraintOf]
        simp only [if_pos hdir]
      rw [hb] at hsat
      exact hsat
    · intro hdir
      rw [← heval a]
      have hb : (cfConstraintOf cfDirection neededScoreGain featuresToVary
          options mutedVariables).bnds = GlpBnds.up neededScoreGain := by
        rw [cfConstraintOf]
        rw [if_neg (by rw [hdir]; norm_num)]
      rw [hb] at hsat
      exact hsat

/-- Concrete option for the C4 witness. -/
def optC4 : MainOpt :=
  { target := .num 5, scoreGain := 2, distance := 1, binIndex := 0,
    interScoreGains := [] }

/-- Concrete one-feature option map for the C4 witness. -/
def optsC4 : OptionsMap :=
  { mains := [("f", [optC4])], inters := [] }

/-- Concrete assignment selecting the single option of `optsC4`. -/
def aC4 : String → ℚ :=
  fun v => if v = "f:0" then 1 else 0

/-- Components of the C4 witness model, evaluated. -/
lemma mC4_model :
    createMILP 1 2 ["f"] optsC4 none [] =
      { subjectTo :=
          [{ name := "bound-cons-f", vars := [{ name := "f:0", coef := 1 }],
             bnds := GlpBnds.up 1 },
           { name := "cf-constraint", vars := [{ name := "f:0", coef := 2 }],
             bnds := GlpBnds.lo 2 }]
        binaries := ["f:0"]
        bounds := []
        objectiveVars := [{ name := "f:0", coef := 1 }] } := by
  rw [createMILP]
  norm_num [boundConstraintsOf, maxNumConstraintsOf, interTriplesOf,
    cfConstraintOf, mainCfVars, interCfVars, milpBinaries, zBoundsOf,
    objectiveVarsOf, keptMainOpts, lookupMains, keptInterOpts, optsC4, optC4,
    mainVarName]
  exact ⟨rfl, rfl⟩

/-- The witness assignment is feasible for the C4 witness model. -/
lemma aC4_feasible : FeasibleAssignment (createMILP 1 2 ["f"] optsC4 none []) aC4 := by
  rw [mC4_model, FeasibleAssignment]
  refine ⟨?_, ?_, ?_⟩
  · intro c hc
    simp only [List.mem_cons, List.mem_singleton] at hc
    rcases hc with rfl | rfl | hfalse
    · rw [satisfiesConstraint]
      norm_num [evalLinTerms, aC4]
    · rw [satisfiesConstraint]
      norm_num [evalLinTerms, aC4]
    · exact absurd hfalse (List.not_mem_nil c)
  · intro v hv
    simp only [List.mem_singleton] at hv
    subst hv
    right
    norm_num [aC4]
  · intro b hb
    exact absurd hb (List.not_mem_nil b)

/-- Witness for C4: a feasible assignment of a concrete one-option model
satisfies the direction-specific inequality. -/
theorem C4_overall_constraint_witness :
    FeasibleAssignment (createMILP 1 2 ["f"] optsC4 none []) aC4 ∧
    (((1 : ℚ) = 1 →
      (2 : ℚ) ≤ mainGainTotal optsC4 ["f"] [] aC4 + interGainTotal optsC4 ["f"] [] aC4) ∧
     ((1 : ℚ) = -1 →
      mainGainTotal optsC4 ["f"] [] aC4 + interGainTotal optsC4 ["f"] [] aC4 ≤ 2)) :=
  ⟨aC4_feasible,
   (C4_overall_constraint 1 2 ["f"] optsC4 none []).2.2.2 aC4 aC4_feasible⟩

/-! ### Incremental update equals full recount (claim C2) -/

/-- Updating an association list at the key found at position `p` (under
distinct keys) replaces exactly that position. -/
lemma setAssoc_eq_set (k : String) (v : ℚ) :
    ∀ (l : List (String × ℚ)) (p : ℕ) (hp : p < l.length),
      (l.map Prod.fst).Nodup → (l.get ⟨p, hp⟩).1 = k →
      setAssoc l k v = l.set p (k, v) := by
  intro l
  induction l with
  | nil => intro p hp _ _; simp at hp
  | cons hd rest ih =>
    intro p hp hnd hkey
    rw [List.map_cons] at hnd
    rcases List.nodup_cons.mp hnd with ⟨hnotin, hrest⟩
    cases p with
    | zero =>
      have hk : hd.1 = k := hkey
      rw [setAssoc, if_pos hk]
      rfl
    | succ p0 =>
      have hp0 : p0 < rest.length := by simpa using hp
      have hkey0 : (rest.get ⟨p0, hp0⟩).1 = k := hkey
      have hk_in : k ∈ rest.map Prod.fst := by
        rw [← hkey0]
        exact List.mem_map.mpr ⟨_, List.get_mem rest p0 hp0, rfl⟩
      have hne : ¬ (hd.1 = k) := fun h => hnotin (h ▸ hk_in)
      rw [setAssoc, if_neg hne, ih p0 hp0 hrest hkey0]
      rfl

/-- Setting at the junction position of an append replaces the head of the
right part. -/
lemma set_at_append (A B : List (String × ℚ)) (b x : String × ℚ) :
    (A ++ b :: B).set A.length x = A ++ x :: B := by
  induction A with
  | nil => rfl
  | cons a A ih => simp [ih]

/-- Defaulted lookup of a mapped range. -/
lemma getD_map_range (n : ℕ) (f : ℕ → ℚ) (j : ℕ) :
    (((List.range n).map f).getD j 0) = if j < n then f j else 0 := by
  by_cases h : j < n
  · rw [if_pos h, List.getD_eq_getElem _ _ (by simpa using h)]
    simp
  · rw [if_neg h]
    apply List.getD_eq_default
    simpa using Nat.le_of_not_lt h

/-- The encoded sample entry at an untouched position is unchanged by a
sample update. -/
lemma encodeSample_set_ne (m : EBMModel) (s : List JsVal) (idx : ℕ) (v : JsVal)
    (j : ℕ) (hne : j ≠ idx) :
    (encodeSample m (s.set idx v)).getD j 0 = (encodeSample m s).getD j 0 := by
  rw [encodeSample, encodeSample, List.length_set, getD_map_range, getD_map_range]
  by_cases h : j < s.length
  · rw [if_pos h, if_pos h]
    have hget : (s.set idx v).getD j (.num 0) = s.getD j (.num 0) := by
      rw [List.getD_eq_getElem _ _ (by simpa using h),
        List.getD_eq_getElem _ _ h]
      exact List.getElem_set_ne (Ne.symm hne) _
    rw [hget]
  · rw [if_neg h, if_neg h]

/-- The main-effect contribution depends on the encoded sample only through
the entry of its own feature. -/
lemma mainScoreOf_congr (m : EBMModel) (es1 es2 : List ℚ) (j : ℕ)
    (h : es1.getD j 0 = es2.getD j 0) :
    mainScoreOf m es1 j = mainScoreOf m es2 j := by
  rw [mainScoreOf, mainScoreOf, h]

/-- The interaction contribution depends on the encoded sample only through
the entries of its two features. -/
lemma interScoreOf_congr (m : EBMModel) (es1 es2 : List ℚ) (k : ℕ)
    (h1 : es1.getD (m.interactionIndexes.getD k (0, 0)).1 0 =
      es2.getD (m.interactionIndexes.getD k (0, 0)).1 0)
    (h2 : es1.getD (m.interactionIndexes.getD k (0, 0)).2 0 =
      es2.getD (m.interactionIndexes.getD k (0, 0)).2 0) :
    interScoreOf m es1 k = interScoreOf m es2 k := by
  rw [interScoreOf, interScoreOf, interBinOf, interBinOf, interBinOf, interBinOf,
    h1, h2]

/-- Element at the junction position of an append. -/
lemma get_at_append (A B : List (String × ℚ)) (b : String × ℚ)
    (h : A.length < (A ++ b :: B).length) :
    (A ++ b :: B).get ⟨A.length, h⟩ = b := by
  induction A with
  | nil => rfl
  | cons a A ih => simpa using ih (by simpa using h)


/-- Setting inside the left part of an append. -/
lemma set_append_left (A B : List (String × ℚ)) (n : ℕ) (x : String × ℚ)
    (h : n < A.length) : (A ++ B).set n x = A.set n x ++ B := by
  induction A generalizing n with
  | nil => simp at h
  | cons a A ih =>
    cases n with
    | zero => rfl
    | succ n0 =>
      have : n0 < A.length := by simpa using h
      simp [List.set_cons_succ, ih n0 this]

/-- The first component of an association-list entry, read off a key map. -/
lemma fst_get_of_map_keys (I : List (String × ℚ)) (K : ℕ) (key : ℕ → String)
    (hk : I.map Prod.fst = (List.range K).map key) (t : ℕ) (ht : t < I.length) :
    (I.get ⟨t, ht⟩).1 = key t := by
  have hKlen : I.length = K := by
    have := congrArg List.length hk
    simpa using this
  have h1 : (I.map Prod.fst).getD t "" = ((List.range K).map key).getD t "" := by
    rw [hk]
  rw [List.getD_eq_getElem _ _ (by simpa using ht)] at h1
  rw [List.getD_eq_getElem _ _ (by simp; omega)] at h1
  simpa using h1

/-- Refreshing pass over the tail section of an association list: starting
with the first `t` rows of the tail already refreshed, folding the updates
over the remaining indices refreshes the whole tail. -/
lemma foldl_refresh (key : ℕ → String) (val : ℕ → ℚ) (touched : ℕ → Prop)
    [DecidablePred touched] (K : ℕ) (M I Ir : List (String × ℚ))
    (hIlen : I.length = K) (hIrlen : Ir.length = K)
    (hkeysI : I.map Prod.fst = (List.range K).map key)
    (hkeysIr : Ir.map Prod.fst = (List.range K).map key)
    (hnd : (M.map Prod.fst ++ (List.range K).map key).Nodup)
    (hIrval : ∀ k, k < K → Ir.getD k ("", 0) = (key k, val k))
    (huntouch : ∀ k, k < K → ¬ touched k → I.getD k ("", 0) = Ir.getD k ("", 0)) :
    ∀ t, t ≤ K →
      List.foldl
        (fun cs k => if touched k then setAssoc cs (key k) (val k) else cs)
        (M ++ (Ir.take t ++ I.drop t)) (List.range' t (K - t)) = M ++ Ir := by
  have main : ∀ n t, t ≤ K → K - t = n →
      List.foldl
        (fun cs k => if touched k then setAssoc cs (key k) (val k) else cs)
        (M ++ (Ir.take t ++ I.drop t)) (List.range' t (K - t)) = M ++ Ir := by
    intro n
    induction n with
    | zero =>
      intro t ht hn
      have htK : t = K := by omega
      subst htK
      rw [hn]
      simp only [List.range'_zero, List.foldl_nil]
      rw [List.take_of_length_le (by omega), List.drop_eq_nil_of_le (by omega)]
      simp
    | succ n ih =>
      intro t ht hn
      have htK : t < K := by omega
      have htI : t < I.length := by omega
      have htIr : t < Ir.length := by omega
      rw [hn, List.range'_succ, List.foldl_cons]
      have hdrop : I.drop t = I.get ⟨t, htI⟩ :: I.drop (t + 1) := by
        rw [List.drop_eq_getElem_cons htI]
        rfl
      have htake : Ir.take (t + 1) = Ir.take t ++ [Ir.get ⟨t, htIr⟩] := by
        rw [← List.take_concat_get Ir t htIr, List.concat_eq_append]
        rfl
      have hIrt : Ir.get ⟨t, htIr⟩ = (key t, val t) := by
        have := hIrval t htK
        rwa [List.getD_eq_getElem _ _ htIr] at this
      have hstep :
          (if touched t then
            setAssoc (M ++ (Ir.take t ++ I.drop t)) (key t) (val t)
          else (M ++ (Ir.take t ++ I.drop t)))
          = M ++ (Ir.take (t + 1) ++ I.drop (t + 1)) := by
        rw [hdrop, htake]
        by_cases hc : touched t
        · rw [if_pos hc]
          rw [show M ++ (Ir.take t ++ I.get ⟨t, htI⟩ :: I.drop (t + 1)) =
            (M ++ Ir.take t) ++ (I.get ⟨t, htI⟩ :: I.drop (t + 1)) by
            rw [List.append_assoc]]
          have hp : (M ++ Ir.take t).length <
              ((M ++ Ir.take t) ++ (I.get ⟨t, htI⟩ :: I.drop (t + 1))).length := by
            simp only [List.length_append, List.length_cons]
            omega
          have hmap : (((M ++ Ir.take t) ++ (I.get ⟨t, htI⟩ :: I.drop (t + 1))).map
              Prod.fst) = M.map Prod.fst ++ (List.range K).map key := by
            rw [← hdrop]
            simp only [List.map_append, List.map_take, List.map_drop, hkeysI,
              hkeysIr]
            rw [List.append_assoc, List.take_append_drop]
          have hndacc : (((M ++ Ir.take t) ++
              (I.get ⟨t, htI⟩ :: I.drop (t + 1))).map Prod.fst).Nodup := by
            rw [hmap]
            exact hnd
          have hfst : (((M ++ Ir.take t) ++
              (I.get ⟨t, htI⟩ :: I.drop (t + 1))).get
              ⟨(M ++ Ir.take t).length, hp⟩).1 = key t := by
            rw [get_at_append _ _ _ hp]
            exact fst_get_of_map_keys I K key hkeysI t htI
          rw [setAssoc_eq_set (key t) (val t) _ (M ++ Ir.take t).length hp
            hndacc hfst]
          rw [set_at_append, ← hIrt]
          simp only [List.append_assoc, List.cons_append, List.nil_append]
        · rw [if_neg hc]
          have heq : I.get ⟨t, htI⟩ = Ir.get ⟨t, htIr⟩ := by
            have := huntouch t htK hc
            rwa [List.getD_eq_getElem _ _ htI, List.getD_eq_getElem _ _ htIr]
              at this
          rw [heq]
          simp only [List.append_assoc, List.cons_append, List.nil_append]
      rw [hstep]
      have := ih (t + 1) (by omega) (by omega)
      rw [show K - (t + 1) = n by omega] at this
      exact this
  exact fun t ht => main (K - t) t ht rfl

/-- The keys of the main-effect rows do not depend on the encoded sample. -/
lemma countScoreMains_map_fst (m : EBMModel) (es : List ℚ) (len : ℕ) :
    (countScoreMains m es len).map Prod.fst =
      (List.range len).map (fun j => m.featureNames.getD j "") := by
  simp [countScoreMains, List.map_map, Function.comp_def]

/-- The keys of the interaction rows do not depend on the encoded sample. -/
lemma countScoreInters_map_fst (m : EBMModel) (es : List ℚ) :
    (countScoreInters m es).map Prod.fst =
      (List.range m.interactionIndexes.length).map (interName m) := by
  simp [countScoreInters, List.map_map, Function.comp_def]

/-- There is one main-effect row per sample entry. -/
lemma countScoreMains_length (m : EBMModel) (es : List ℚ) (len : ℕ) :
    (countScoreMains m es len).length = len := by
  simp [countScoreMains]

/-- There is one interaction row per interaction term. -/
lemma countScoreInters_length (m : EBMModel) (es : List ℚ) :
    (countScoreInters m es).length = m.interactionIndexes.length := by
  simp [countScoreInters]

/-- Entry of the interaction rows at a term index. -/
lemma countScoreInters_getD (m : EBMModel) (es : List ℚ) (k : ℕ)
    (hk : k < m.interactionIndexes.length) :
    (countScoreInters m es).getD k ("", 0) =
      (interName m k, interScoreOf m es k) := by
  rw [List.getD_eq_getElem _ _ (by simpa [countScoreInters] using hk)]
  simp [countScoreInters]

/-- Claim C2: for every sample and every feature name of continuous or
categorical type with any new value, `EBMLocal.updateFeature` leaves the
object in exactly the state obtained by re-running `countScore` on the full
updated sample — the state equals a fresh `EBMLocal` constructed on the
updated sample, so `countedScores`, `predScore`, `predProb` and `pred` all
agree with the full recount. -/
theorem C2_updateFeature_full_recount (sig : ℚ → ℚ) (m : EBMModel)
    (s : List JsVal) (name : String) (value : JsVal) (idx : ℕ)
    (hidx : jsIndexOfStr m.featureNames name = (idx : ℤ))
    (hlen : idx < s.length)
    (htype : m.featureTypes.getD idx "" = "continuous" ∨
      m.featureTypes.getD idx "" = "categorical")
    (hnd : ((countScore m s).map Prod.fst).Nodup) :
    updateFeature sig m (ebmLocalInit sig m s) name value =
      .ok (ebmLocalInit sig m (s.set idx value)) := by
  have hfind : m.featureNames.findIdx? (fun x => x == name) = some idx := by
    rw [jsIndexOfStr] at hidx
    rcases hfi : m.featureNames.findIdx? (fun x => x == name) with _ | i
    · simp only [hfi] at hidx
      omega
    · simp only [hfi] at hidx
      have hi : i = idx := by exact_mod_cast hidx
      rw [hi]
  obtain ⟨hflen, hpi, -⟩ := List.findIdx?_eq_some_iff_getElem.mp hfind
  have hname : m.featureNames.getD idx "" = name := by
    rw [List.getD_eq_getElem _ _ hflen]
    simpa using hpi
  have hmains : (countScoreMains m (encodeSample m s) s.length).set idx
      (name, mainScoreOf m (encodeSample m (s.set idx value)) idx)
      = countScoreMains m (encodeSample m (s.set idx value)) s.length := by
    apply List.ext_getElem
    · simp [countScoreMains]
    · intro j hj1 hj2
      rw [List.getElem_set]
      by_cases hji : idx = j
      · subst hji
        rw [if_pos rfl]
        simp only [countScoreMains, List.getElem_map, List.getElem_range]
        rw [hname]
      · rw [if_neg hji]
        simp only [countScoreMains, List.getElem_map, List.getElem_range]
        have hms : mainScoreOf m (encodeSample m s) j
            = mainScoreOf m (encodeSample m (s.set idx value)) j :=
          mainScoreOf_congr m _ _ j
            ((encodeSample_set_ne m s idx value j (fun h => hji h.symm)).symm)
        rw [hms]
  have hsetassoc : setAssoc (countScore m s) name
      (mainScoreOf m (encodeSample m (s.set idx value)) idx)
      = countScoreMains m (encodeSample m (s.set idx value)) s.length
        ++ countScoreInters m (encodeSample m s) := by
    have hp : idx < (countScore m s).length := by
      simp only [countScore, List.length_append, countScoreMains_length]
      omega
    have hget : ((countScore m s).get ⟨idx, hp⟩).1 = name := by
      have hlt : idx < (countScoreMains m (encodeSample m s) s.length).length := by
        rw [countScoreMains_length]
        exact hlen
      have hgeteq : (countScore m s).get ⟨idx, hp⟩
          = (countScoreMains m (encodeSample m s) s.length).get ⟨idx, hlt⟩ := by
        rw [List.get_eq_getElem, List.get_eq_getElem]
        exact List.getElem_append_left hlt
      rw [hgeteq, List.get_eq_getElem]
      simp only [countScoreMains, List.getElem_map, List.getElem_range]
      exact hname
    rw [setAssoc_eq_set name _ (countScore m s) idx hp hnd hget]
    rw [countScore, set_append_left _ _ idx _
      (by rw [countScoreMains_length]; exact hlen)]
    rw [hmains]
  have hnd2 : ((countScoreMains m (encodeSample m (s.set idx value))
      s.length).map Prod.fst ++
      (List.range m.interactionIndexes.length).map (interName m)).Nodup := by
    rw [countScoreMains_map_fst]
    have hnd3 := hnd
    rw [countScore, List.map_append, countScoreMains_map_fst,
      countScoreInters_map_fst] at hnd3
    exact hnd3
  have huntouch : ∀ k, k < m.interactionIndexes.length →
      ¬ ((m.featureNames.getD (m.interactionIndexes.getD k (0, 0)).1 "" = name) ∨
         (m.featureNames.getD (m.interactionIndexes.getD k (0, 0)).2 "" = name)) →
      (countScoreInters m (encodeSample m s)).getD k ("", 0)
        = (countScoreInters m (encodeSample m (s.set idx value))).getD k ("", 0) := by
    intro k hk hnt
    push_neg at hnt
    rw [countScoreInters_getD m _ k hk, countScoreInters_getD m _ k hk]
    have h1 : (m.interactionIndexes.getD k (0, 0)).1 ≠ idx := by
      intro h
      exact hnt.1 (by rw [h, hname])
    have h2 : (m.interactionIndexes.getD k (0, 0)).2 ≠ idx := by
      intro h
      exact hnt.2 (by rw [h, hname])
    have hiscore := interScoreOf_congr m (encodeSample m s)
      (encodeSample m (s.set idx value)) k
      ((encodeSample_set_ne m s idx value _ h1).symm)
      ((encodeSample_set_ne m s idx value _ h2).symm)
    rw [hiscore]
  have hfold := foldl_refresh (interName m)
    (interScoreOf m (encodeSample m (s.set idx value)))
    (fun k => (m.featureNames.getD (m.interactionIndexes.getD k (0, 0)).1 "" = name) ∨
      (m.featureNames.getD (m.interactionIndexes.getD k (0, 0)).2 "" = name))
    m.interactionIndexes.length
    (countScoreMains m (encodeSample m (s.set idx value)) s.length)
    (countScoreInters m (encodeSample m s))
    (countScoreInters m (encodeSample m (s.set idx value)))
    (countScoreInters_length m _) (countScoreInters_length m _)
    (countScoreInters_map_fst m _) (countScoreInters_map_fst m _)
    hnd2
    (fun k hk => countScoreInters_getD m _ k hk)
    huntouch
    0 (Nat.zero_le _)
  simp only [List.take_zero, List.drop_zero, List.nil_append, Nat.sub_zero]
    at hfold
  rw [← List.range_eq_range'] at hfold
  have hfold2 : List.foldl (fun cs k =>
      if m.featureNames.getD (m.interactionIndexes.getD k (0, 0)).1 "" = name ∨
         m.featureNames.getD (m.interactionIndexes.getD k (0, 0)).2 "" = name then
        setAssoc cs
          (m.featureNames.getD (m.interactionIndexes.getD k (0, 0)).1 "" ++ " x " ++
            m.featureNames.getD (m.interactionIndexes.getD k (0, 0)).2 "")
          (interScoreOf m (encodeSample m (s.set idx value)) k)
      else cs)
      (countScoreMains m (encodeSample m (s.set idx value)) s.length
        ++ countScoreInters m (encodeSample m s))
      (List.range m.interactionIndexes.length)
      = countScoreMains m (encodeSample m (s.set idx value)) s.length
        ++ countScoreInters m (encodeSample m (s.set idx value)) := hfold
  have hcs' : countScore m (s.set idx value)
      = countScoreMains m (encodeSample m (s.set idx value)) s.length
        ++ countScoreInters m (encodeSample m (s.set idx value)) := by
    rw [countScore, List.length_set]
  have hguard : ¬ (m.featureTypes.getD idx "" ≠ "continuous" ∧
      m.featureTypes.getD idx "" ≠ "categorical") := by
    rcases htype with h | h
    · exact fun hc => hc.1 h
    · exact fun hc => hc.2 h
  have hsam : (ebmLocalInit sig m s).sample = s := rfl
  have hcs : (ebmLocalInit sig m s).countedScores = countScore m s := rfl
  simp only [updateFeature, hidx, Int.toNat_natCast, hsam, hcs,
    Int.natCast_nonneg, if_true]
  rw [if_neg hguard, hsetassoc, hfold2, ← hcs']
  rfl

/-- Concrete two-feature model (one continuous, one categorical, one
interaction term) for exercising the incremental update. -/
def mC2 : EBMModel :=
  { featureNames := ["age", "job"], featureTypes := ["continuous", "categorical"],
    binEdges := [[1, 5], [1, 2]], scores := [[0, 2], [1, 3]], intercept := 1/10,
    interactionIndexes := [(0, 1)], interactionBinEdges := [([1, 5], [1, 2])],
    interactionScores := [[[1, 2], [3, 4]]], isClassifier := false,
    labelEncoder := fun _ v => if v = .str "a" then some 1 else
      if v = .str "b" then some 2 else none,
    labelDecoder := fun _ _ => none }

/-- Concrete sample bound to `mC2`. -/
def sC2 : List JsVal := [.num 2, .str "a"]

/-- Witness for C2: on the concrete model `mC2` and sample `sC2`, updating the
continuous feature `age` to 6 satisfies every hypothesis, and the updated
state equals the fresh recount state. -/
theorem C2_updateFeature_full_recount_witness :
    (jsIndexOfStr mC2.featureNames "age" = (0 : ℤ) ∧ 0 < sC2.length ∧
      (mC2.featureTypes.getD 0 "" = "continuous" ∨
        mC2.featureTypes.getD 0 "" = "categorical") ∧
      ((countScore mC2 sC2).map Prod.fst).Nodup) ∧
    updateFeature (fun q => q) mC2 (ebmLocalInit (fun q => q) mC2 sC2) "age"
        (JsVal.num 6) =
      .ok (ebmLocalInit (fun q => q) mC2 (sC2.set 0 (JsVal.num 6))) :=
  ⟨⟨by decide, by decide, by decide, by decide⟩,
   C2_updateFeature_full_recount (fun q => q) mC2 sC2 "age" (JsVal.num 6) 0
     (by decide) (by decide) (by decide) (by decide)⟩

/-! ### Diversity invariant of the mute-and-resolve loop (claim C5) -/

/-- A muted identifier is never recreated as a main-effect binary variable of
a model built with that muted list. -/
lemma muted_not_in_milpBinaries (options : OptionsMap)
    (featuresToVary : List String) (muted : List String) (v : String)
    (hv : v ∈ muted) : v ∉ milpBinaries options featuresToVary muted := by
  intro hmem
  rw [milpBinaries] at hmem
  obtain ⟨f, -, hf⟩ := List.mem_flatMap.mp hmem
  obtain ⟨o, ho, hname⟩ := List.mem_map.mp hf
  rw [keptMainOpts] at ho
  have hfilt := List.of_mem_filter ho
  rw [hname] at hfilt
  simp only [decide_not, Bool.not_eq_true', decide_eq_false_iff_not] at hfilt
  exact hfilt (List.contains_iff_exists_mem_beq.mpr ⟨v, hv, by simp⟩)

/-- Every active variable of a solution is a variable of the solved model. -/
lemma active_subset_varNames (model : MilpModel) (a : String → ℚ)
    (v : String) (hv : v ∈ activeOf model a) : v ∈ milpVarNames model := by
  rw [activeOf] at hv
  exact List.mem_of_mem_filter hv

/-- Any kept interaction option comes from the stored option list of its key.
-/
lemma keptInterOpts_subset (featuresToVary mutedVariables : List String)
    (key : String) (opts : List InterOpt) (o : InterOpt)
    (ho : o ∈ keptInterOpts featuresToVary mutedVariables key opts) :
    o ∈ opts := by
  rw [keptInterOpts] at ho
  split at ho
  · exact List.mem_of_mem_filter ho
  · simp at ho

/-- In a model assembled by `createMILP`, a variable free of the interaction
separator is one of the main-effect binaries, provided every stored
interaction option yields a separator-bearing auxiliary name. -/
lemma noninter_var_is_binary (cfDirection neededScoreGain : ℚ)
    (featuresToVary : List String) (options : OptionsMap)
    (maxNumFeaturesToVary : Option ℚ) (muted : List String) (v : String)
    (hinter : ∀ kv ∈ options.inters, ∀ o ∈ kv.2,
      hasInterSep (zVarName kv.1 o.binIndex1 o.binIndex2) = true)
    (hni : ¬ hasInterSep v = true)
    (hv : v ∈ milpVarNames (createMILP cfDirection neededScoreGain
      featuresToVary options maxNumFeaturesToVary muted)) :
    v ∈ milpBinaries options featuresToVary muted := by
  rw [milpVarNames, createMILP] at hv
  rcases List.mem_append.mp hv with h | h
  · exact h
  · exfalso
    obtain ⟨b, hb, hbname⟩ := List.mem_map.mp h
    rw [zBoundsOf] at hb
    obtain ⟨kv, hkv, hkvb⟩ := List.mem_flatMap.mp hb
    obtain ⟨o, ho, hob⟩ := List.mem_map.mp hkvb
    have ho2 := keptInterOpts_subset _ _ _ _ _ ho
    have := hinter kv hkv o ho2
    rw [← hob] at hbname
    simp only at hbname
    rw [← hbname] at hni
    exact hni this

/-- Trace of `cfSolveLoop`: the returned solutions extend the accumulator,
the returned muted list appends exactly the identifiers of the new solutions,
and every new solution was returned by the solver on the model built from the
identifiers of the solutions before it. -/
lemma cfSolveLoop_trace (solve : MilpModel → Option (List String × ℚ))
    (cfDirection neededScoreGain : ℚ) (featuresToVary : List String)
    (options : OptionsMap) (maxNumFeaturesToVary : Option ℚ) :
    ∀ (n : ℕ) (sols0 : List (List String × ℚ)) (muted0 : List String),
      ∃ new : List (List String × ℚ),
        (cfSolveLoop solve cfDirection neededScoreGain featuresToVary options
          maxNumFeaturesToVary n sols0 muted0).1 = sols0 ++ new ∧
        (cfSolveLoop solve cfDirection neededScoreGain featuresToVary options
          maxNumFeaturesToVary n sols0 muted0).2.1 =
            muted0 ++ new.flatMap (fun sol => sol.1) ∧
        ∀ t (ht : t < new.length),
          solve (createMILP cfDirection neededScoreGain featuresToVary options
            maxNumFeaturesToVary
            (muted0 ++ ((new.take t).flatMap (fun sol => sol.1)))) =
              some (new.get ⟨t, ht⟩) := by
  intro n
  induction n with
  | zero =>
    intro sols0 muted0
    exact ⟨[], by simp [cfSolveLoop], by simp [cfSolveLoop], fun t ht => by
      simp at ht⟩
  | succ n ih =>
    intro sols0 muted0
    rcases hsol : solve (createMILP cfDirection neededScoreGain featuresToVary
        options maxNumFeaturesToVary muted0) with _ | sol
    · refine ⟨[], ?_, ?_, fun t ht => by simp at ht⟩
      · rw [cfSolveLoop, hsol]
        simp
      · rw [cfSolveLoop, hsol]
        simp
    · obtain ⟨new2, h1, h2, h3⟩ := ih (sols0 ++ [sol]) (muted0 ++ sol.1)
      refine ⟨sol :: new2, ?_, ?_, ?_⟩
      · rw [cfSolveLoop, hsol, h1]
        simp
      · rw [cfSolveLoop, hsol, h2]
        simp
      · intro t ht
        cases t with
        | zero =>
          simpa using hsol
        | succ t0 =>
          have ht0 : t0 < new2.length := by simpa using ht
          have := h3 t0 ht0
          rw [show muted0 ++ (((sol :: new2).take (t0 + 1)).flatMap
              (fun sol => sol.1)) =
            (muted0 ++ sol.1) ++ ((new2.take t0).flatMap (fun sol => sol.1)) by
            simp [List.take_succ_cons, List.flatMap_cons, List.append_assoc]]
          exact this

/-- Claim C5: diversity invariant of one batch of `generateCfs` and its
continuation through `generateSubCfs` — the muted list accumulates exactly
the identifiers of the produced solutions, a muted identifier is never
recreated as a main-effect binary variable of a model built with that muted
list, no two solutions of the batch share a selected (feature,bin)
identifier, and a further `generateSubCfs` step from the returned resume
state appends its solution identifiers to the muted list while sharing no
(feature,bin) identifier with any earlier solution. -/
theorem C5_diversity_invariant
    (solve : MilpModel → Option (List String × ℚ))
    (cfDirection neededScoreGain : ℚ) (featuresToVary : List String)
    (options : OptionsMap) (maxNumFeaturesToVary : Option ℚ) (n : ℕ)
    (hsolve : ∀ model sol, solve model = some sol → SolverRespOk model sol)
    (hinter : ∀ kv ∈ options.inters, ∀ o ∈ kv.2,
      hasInterSep (zVarName kv.1 o.binIndex1 o.binIndex2) = true) :
    (cfSolveLoop solve cfDirection neededScoreGain featuresToVary options
      maxNumFeaturesToVary n [] []).2.1 =
      ((cfSolveLoop solve cfDirection neededScoreGain featuresToVary options
        maxNumFeaturesToVary n [] []).1).flatMap (fun sol => sol.1) ∧
    (∀ muted v, v ∈ muted →
      v ∉ milpBinaries options featuresToVary muted) ∧
    ((cfSolveLoop solve cfDirection neededScoreGain featuresToVary options
      maxNumFeaturesToVary n [] []).1).Pairwise (fun s1 s2 =>
        ∀ v, hasInterSep v = false → v ∈ s1.1 → v ∉ s2.1) ∧
    (∀ (em : EBMModel) (ebmSample : List JsVal) (cfg : NextCfConfig) sol,
      cfg.options = options → cfg.featuresToVary = featuresToVary →
      cfg.cfDirection = cfDirection → cfg.neededScoreGain = neededScoreGain →
      cfg.maxNumFeaturesToVary = maxNumFeaturesToVary →
      cfg.mutedVariables = (cfSolveLoop solve cfDirection neededScoreGain
        featuresToVary options maxNumFeaturesToVary n [] []).2.1 →
      solve (createMILP cfDirection neededScoreGain featuresToVary options
        maxNumFeaturesToVary cfg.mutedVariables) = some sol →
      (generateSubCfs em ebmSample solve cfg).2.mutedVariables =
        cfg.mutedVariables ++ sol.1 ∧
      ∀ v, hasInterSep v = false → v ∈ sol.1 →
        ∀ solPrev ∈ (cfSolveLoop solve cfDirection neededScoreGain
          featuresToVary options maxNumFeaturesToVary n [] []).1,
          v ∉ solPrev.1) := by
  obtain ⟨new, h1, h2, h3⟩ := cfSolveLoop_trace solve cfDirection
    neededScoreGain featuresToVary options maxNumFeaturesToVary n [] []
  rw [List.nil_append] at h1
  simp only [List.nil_append] at h2 h3
  have hcore : ∀ muted sol,
      solve (createMILP cfDirection neededScoreGain featuresToVary options
        maxNumFeaturesToVary muted) = some sol →
      ∀ v, hasInterSep v = false → v ∈ sol.1 → v ∉ muted := by
    intro muted sol hs v hni hv hvm
    obtain ⟨a, hfeas, hact⟩ := hsolve _ _ hs
    rw [hact] at hv
    exact muted_not_in_milpBinaries options featuresToVary muted v hvm
      (noninter_var_is_binary cfDirection neededScoreGain featuresToVary
        options maxNumFeaturesToVary muted v hinter (by simp [hni])
        (active_subset_varNames _ _ _ hv))
  refine ⟨by rw [h1, h2], fun muted v hv =>
    muted_not_in_milpBinaries options featuresToVary muted v hv, ?_, ?_⟩
  · rw [h1, List.pairwise_iff_getElem]
    intro i j hi hj hij v hni hvi hvj
    have hvm : v ∈ (new.take j).flatMap (fun sol => sol.1) := by
      refine List.mem_flatMap.mpr ⟨new.get ⟨i, hi⟩, ?_, hvi⟩
      have hlen : i < (new.take j).length := by
        rw [List.length_take]
        omega
      have hgt : (new.take j).get ⟨i, hlen⟩ = new.get ⟨i, hi⟩ := by
        rw [List.get_eq_getElem, List.get_eq_getElem, List.getElem_take]
      rw [← hgt]
      exact List.get_mem _ i hlen
    exact hcore _ _ (h3 j hj) v hni hvj hvm
  · intro em ebmSample cfg sol hopt hftv hdir hneed hmax hmut hs
    constructor
    · rw [generateSubCfs.eq_def, hopt, hftv, hdir, hneed, hmax, hs]
    · intro v hni hv solPrev hprev hvp
      have hnot : v ∉ cfg.mutedVariables := hcore _ _ hs v hni hv
      rw [hmut, h2] at hnot
      rw [h1] at hprev
      exact hnot (List.mem_flatMap.mpr ⟨solPrev, hprev, hvp⟩)

/-- First option of the C5 witness feature (bin 0). -/
def optC5a : MainOpt :=
  { target := .num 1, scoreGain := 2, distance := 1, binIndex := 0,
    interScoreGains := [] }

/-- Second option of the C5 witness feature (bin 1). -/
def optC5b : MainOpt :=
  { target := .num 2, scoreGain := 3, distance := 2, binIndex := 1,
    interScoreGains := [] }

/-- Concrete one-feature two-option map for the C5 witness. -/
def optsC5 : OptionsMap :=
  { mains := [("f", [optC5a, optC5b])], inters := [] }

/-- Model of the first C5 iteration (nothing muted). -/
def mC5a : MilpModel := createMILP 1 1 ["f"] optsC5 none []

/-- Model of the second C5 iteration (first identifier muted). -/
def mC5b : MilpModel := createMILP 1 1 ["f"] optsC5 none ["f:0"]

/-- Concrete two-step solver for the C5 witness. -/
def solveC5 : MilpModel → Option (List String × ℚ) :=
  fun model => if model = mC5a then some (["f:0"], 1)
    else if model = mC5b then some (["f:1"], 2) else none

/-- Assignment selecting the first option. -/
def aC5a : String → ℚ := fun v => if v = "f:0" then 1 else 0

/-- Assignment selecting the second option. -/
def aC5b : String → ℚ := fun v => if v = "f:1" then 1 else 0

/-- The first C5 model, evaluated. -/
lemma mC5a_model :
    mC5a =
      { subjectTo :=
          [{ name := "bound-cons-f",
             vars := [{ name := "f:0", coef := 1 }, { name := "f:1", coef := 1 }],
             bnds := GlpBnds.up 1 },
           { name := "cf-constraint",
             vars := [{ name := "f:0", coef := 2 }, { name := "f:1", coef := 3 }],
             bnds := GlpBnds.lo 1 }]
        binaries := ["f:0", "f:1"]
        bounds := []
        objectiveVars := [{ name := "f:0", coef := 1 }, { name := "f:1", coef := 2 }] } := by
  decide

/-- The second C5 model, evaluated: the muted identifier `f:0` is gone. -/
lemma mC5b_model :
    mC5b =
      { subjectTo :=
          [{ name := "bound-cons-f",
             vars := [{ name := "f:1", coef := 1 }],
             bnds := GlpBnds.up 1 },
           { name := "cf-constraint",
             vars := [{ name := "f:1", coef := 3 }],
             bnds := GlpBnds.lo 1 }]
        binaries := ["f:1"]
        bounds := []
        objectiveVars := [{ name := "f:1", coef := 2 }] } := by
  decide

/-- The first assignment is feasible for the first model. -/
lemma aC5a_feasible : FeasibleAssignment mC5a aC5a := by
  have hne1 : ¬ (("f:1" : String) = "f:0") := by decide
  rw [mC5a_model, FeasibleAssignment]
  refine ⟨?_, ?_, ?_⟩
  · intro c hc
    simp only [List.mem_cons, List.mem_singleton] at hc
    rcases hc with rfl | rfl | hfalse
    · rw [satisfiesConstraint]
      norm_num [evalLinTerms, aC5a, hne1]
    · rw [satisfiesConstraint]
      norm_num [evalLinTerms, aC5a, hne1]
    · exact absurd hfalse (List.not_mem_nil c)
  · intro v hv
    simp only [List.mem_cons, List.mem_singleton, List.not_mem_nil, or_false]
      at hv
    rcases hv with rfl | rfl
    · right
      norm_num [aC5a]
    · left
      norm_num [aC5a, hne1]
  · intro b hb
    exact absurd hb (List.not_mem_nil b)

/-- The second assignment is feasible for the second model. -/
lemma aC5b_feasible : FeasibleAssignment mC5b aC5b := by
  rw [mC5b_model, FeasibleAssignment]
  refine ⟨?_, ?_, ?_⟩
  · intro c hc
    simp only [List.mem_cons, List.mem_singleton] at hc
    rcases hc with rfl | rfl | hfalse
    · rw [satisfiesConstraint]
      norm_num [evalLinTerms, aC5b]
    · rw [satisfiesConstraint]
      norm_num [evalLinTerms, aC5b]
    · exact absurd hfalse (List.not_mem_nil c)
  · intro v hv
    simp only [List.mem_singleton, List.mem_cons, List.not_mem_nil, or_false]
      at hv
    subst hv
    right
    norm_num [aC5b]
  · intro b hb
    exact absurd hb (List.not_mem_nil b)

/-- Active variables of the first solution. -/
lemma activeC5a : activeOf mC5a aC5a = ["f:0"] := by
  decide

/-- Active variables of the second solution. -/
lemma activeC5b : activeOf mC5b aC5b = ["f:1"] := by
  decide

/-- The concrete C5 solver only returns sound optimal solutions. -/
lemma solveC5_ok : ∀ model sol, solveC5 model = some sol →
    SolverRespOk model sol := by
  intro model sol hs
  simp only [solveC5] at hs
  by_cases h1 : model = mC5a
  · subst h1
    rw [if_pos rfl] at hs
    have hsol : sol = (["f:0"], 1) := (Option.some.inj hs).symm
    subst hsol
    exact ⟨aC5a, aC5a_feasible, activeC5a.symm⟩
  · rw [if_neg h1] at hs
    by_cases h2 : model = mC5b
    · subst h2
      rw [if_pos rfl] at hs
      have hsol : sol = (["f:1"], 2) := (Option.some.inj hs).symm
      subst hsol
      exact ⟨aC5b, aC5b_feasible, activeC5b.symm⟩
    · rw [if_neg h2] at hs
      exact absurd hs (by simp)

/-- Witness for C5: the two-step concrete run satisfies both hypotheses, so
the batch built by the loop (and one further `generateSubCfs` step) obeys the
diversity invariant. -/
theorem C5_diversity_invariant_witness :
    ((∀ model sol, solveC5 model = some sol → SolverRespOk model sol) ∧
     (∀ kv ∈ optsC5.inters, ∀ o ∈ kv.2,
       hasInterSep (zVarName kv.1 o.binIndex1 o.binIndex2) = true)) ∧
    ((cfSolveLoop solveC5 1 1 ["f"] optsC5 none 2 [] []).2.1 =
      ((cfSolveLoop solveC5 1 1 ["f"] optsC5 none 2 [] []).1).flatMap
        (fun sol => sol.1) ∧
    (∀ muted v, v ∈ muted → v ∉ milpBinaries optsC5 ["f"] muted) ∧
    ((cfSolveLoop solveC5 1 1 ["f"] optsC5 none 2 [] []).1).Pairwise
      (fun s1 s2 => ∀ v, hasInterSep v = false → v ∈ s1.1 → v ∉ s2.1) ∧
    (∀ (em : EBMModel) (ebmSample : List JsVal) (cfg : NextCfConfig) sol,
      cfg.options = optsC5 → cfg.featuresToVary = ["f"] →
      cfg.cfDirection = 1 → cfg.neededScoreGain = 1 →
      cfg.maxNumFeaturesToVary = none →
      cfg.mutedVariables = (cfSolveLoop solveC5 1 1 ["f"] optsC5 none 2
        [] []).2.1 →
      solveC5 (createMILP 1 1 ["f"] optsC5 none cfg.mutedVariables) =
        some sol →
      (generateSubCfs em ebmSample solveC5 cfg).2.mutedVariables =
        cfg.mutedVariables ++ sol.1 ∧
      ∀ v, hasInterSep v = false → v ∈ sol.1 →
        ∀ solPrev ∈ (cfSolveLoop solveC5 1 1 ["f"] optsC5 none 2 [] []).1,
          v ∉ solPrev.1)) :=
  ⟨⟨solveC5_ok, by simp [optsC5]⟩,
   C5_diversity_invariant solveC5 1 1 ["f"] optsC5 none 2 solveC5_ok
     (by simp [optsC5])⟩

/-! ### Round-trip of solution score gains (claim C1) -/

/-- Sum of a pointwise sum of two maps. -/
lemma sum_map_add {α : Type} (l : List α) (p q : α → ℚ) :
    (l.map (fun j => p j + q j)).sum = (l.map p).sum + (l.map q).sum := by
  induction l with
  | nil => simp
  | cons a l ih =>
    simp only [List.map_cons, List.sum_cons, ih]
    ring

/-- Sum of a pointwise difference of two maps. -/
lemma sum_map_sub {α : Type} (l : List α) (p q : α → ℚ) :
    (l.map (fun j => p j - q j)).sum = (l.map p).sum - (l.map q).sum := by
  induction l with
  | nil => simp
  | cons a l ih =>
    simp only [List.map_cons, List.sum_cons, ih]
    ring

/-- A range sum of a map vanishing away from one index. -/
lemma sum_range_single (g : ℕ → ℚ) (n idx : ℕ) (hidx : idx < n)
    (hz : ∀ j, j < n → j ≠ idx → g j = 0) :
    ((List.range n).map g).sum = g idx := by
  induction n with
  | zero => omega
  | succ n ih =>
    rw [List.range_succ, List.map_append, List.sum_append]
    by_cases h : idx = n
    · subst h
      have hzero : ((List.range idx).map g).sum = 0 := by
        apply List.sum_eq_zero
        intro x hx
        obtain ⟨j, hj, rfl⟩ := List.mem_map.mp hx
        rw [List.mem_range] at hj
        exact hz j (by omega) (by omega)
      simp [hzero]
    · have hlt : idx < n := by omega
      rw [ih hlt (fun j hj hne => hz j (by omega) hne)]
      have hgn : g n = 0 := hz n (by omega) (by omega)
      simp [hgn]

/-- The total additive score as the sum of the main contributions, the sum of
the interaction contributions and the intercept. -/
lemma predTotalScore_eq (m : EBMModel) (s : List JsVal) :
    predTotalScore m s =
      ((List.range s.length).map
        (fun j => mainScoreOf m (encodeSample m s) j)).sum
      + ((List.range m.interactionIndexes.length).map
          (fun k => interScoreOf m (encodeSample m s) k)).sum + m.intercept := by
  rw [predTotalScore, countScore, List.map_append, List.sum_append,
    countScoreMains, countScoreInters]
  simp [List.map_map, Function.comp_def]

/-- Encoded entries agree wherever the samples agree (at equal lengths). -/
lemma encodeSample_getD_congr (m : EBMModel) (s1 s2 : List JsVal) (j : ℕ)
    (hlen : s1.length = s2.length)
    (h : s1.getD j (.num 0) = s2.getD j (.num 0)) :
    (encodeSample m s1).getD j 0 = (encodeSample m s2).getD j 0 := by
  rw [encodeSample, encodeSample, hlen, getD_map_range, getD_map_range]
  by_cases hj : j < s2.length
  · rw [if_pos hj, if_pos hj, h]
  · rw [if_neg hj, if_neg hj]

/-- Defaulted entry of a list away from an updated position. -/
lemma getD_set_ne (s : List JsVal) (i : ℕ) (v : JsVal) (j : ℕ) (hne : j ≠ i) :
    (s.set i v).getD j (.num 0) = s.getD j (.num 0) := by
  by_cases hj : j < s.length
  · rw [List.getD_eq_getElem _ _ (by simpa using hj),
      List.getD_eq_getElem _ _ hj]
    exact List.getElem_set_ne (Ne.symm hne) _
  · rw [List.getD_eq_default _ _ (by simpa using Nat.le_of_not_lt hj),
      List.getD_eq_default _ _ (by simpa using Nat.le_of_not_lt hj)]

/-- Defaulted entry of a list at an updated position. -/
lemma getD_set_self (s : List JsVal) (i : ℕ) (v : JsVal) (hi : i < s.length) :
    (s.set i v).getD i (.num 0) = v := by
  rw [List.getD_eq_getElem _ _ (by simpa using hi)]
  exact List.getElem_set_self _

/-- The sample rewritten by the selected options of a solution. -/
def applySel (sel : List (ℕ × MainOpt)) (s : List JsVal) : List JsVal :=
  sel.foldl (fun acc p => acc.set p.1 p.2.target) s

/-- Applying selections preserves the sample length. -/
lemma applySel_length (sel : List (ℕ × MainOpt)) :
    ∀ s : List JsVal, (applySel sel s).length = s.length := by
  induction sel with
  | nil => intro s; rfl
  | cons p sel ih =>
    intro s
    rw [applySel, List.foldl_cons, ← applySel, ih, List.length_set]

/-- First projection of a non-interaction decode step with a found option. -/
lemma decodeStep_fst (m : EBMModel) (options : OptionsMap)
    (acc : List JsVal × List TargetRangeOut × List ℚ) (v : String) (idx : ℕ)
    (opt : MainOpt) (hint : hasInterSep v = false)
    (hidx : jsIndexOfStr m.featureNames (parseMainVar v).1 = (idx : ℤ))
    (hfind : (lookupMains options (parseMainVar v).1).find?
      (fun o => o.binIndex == (parseMainVar v).2) = some opt) :
    (decodeStep m options acc v).1 = acc.1.set idx opt.target := by
  rw [decodeStep, if_neg (by simp [hint])]
  simp only [hfind, hidx, Int.toNat_natCast]
  rw [if_pos (Int.natCast_nonneg idx)]

/-- Gains projection of a non-interaction decode step with a found option. -/
lemma decodeStep_gains (m : EBMModel) (options : OptionsMap)
    (acc : List JsVal × List TargetRangeOut × List ℚ) (v : String)
    (opt : MainOpt) (hint : hasInterSep v = false)
    (hfind : (lookupMains options (parseMainVar v).1).find?
      (fun o => o.binIndex == (parseMainVar v).2) = some opt) :
    (decodeStep m options acc v).2.2 = acc.2.2 ++ [opt.scoreGain] := by
  rw [decodeStep, if_neg (by simp [hint])]
  simp only [hfind]

/-- An interaction identifier leaves the decode state unchanged. -/
lemma decodeStep_inter (m : EBMModel) (options : OptionsMap)
    (acc : List JsVal × List TargetRangeOut × List ℚ) (v : String)
    (hint : hasInterSep v = true) :
    decodeStep m options acc v = acc := by
  rw [decodeStep, if_pos hint]

/-- Characterization of the decoding fold: the final sample is the original
with every selected option target written at its feature position, and the
collected score gains are the selected options' score gains in order. -/
lemma decode_spec (m : EBMModel) (options : OptionsMap) :
    ∀ (active : List String) (sel : List (ℕ × MainOpt))
      (acc : List JsVal × List TargetRangeOut × List ℚ),
      List.Forall₂ (fun v p =>
          jsIndexOfStr m.featureNames (parseMainVar v).1 = ((p.1 : ℕ) : ℤ) ∧
          (lookupMains options (parseMainVar v).1).find?
            (fun o => o.binIndex == (parseMainVar v).2) = some p.2)
        (active.filter (fun v => ¬ hasInterSep v)) sel →
      (active.foldl (decodeStep m options) acc).1 = applySel sel acc.1 ∧
      (active.foldl (decodeStep m options) acc).2.2 =
        acc.2.2 ++ sel.map (fun p => p.2.scoreGain) := by
  intro active
  induction active with
  | nil =>
    intro sel acc hf
    simp only [List.filter_nil] at hf
    cases hf
    exact ⟨rfl, by simp [applySel]⟩
  | cons v rest ih =>
    intro sel acc hf
    by_cases hint : hasInterSep v
    · rw [List.filter_cons, if_neg (by simp [hint])] at hf
      rw [List.foldl_cons, decodeStep_inter m options acc v hint]
      exact ih sel acc hf
    · rw [List.filter_cons, if_pos (by simp [hint])] at hf
      cases hf with
      | cons hR htail =>
        rename_i p sel2
        obtain ⟨hidx, hfind⟩ := hR
        rw [List.foldl_cons]
        have hint2 : hasInterSep v = false := by
          simpa using hint
        have hfst := decodeStep_fst m options acc v p.1 p.2 hint2 hidx hfind
        have hgns := decodeStep_gains m options acc v p.2 hint2 hfind
        obtain ⟨ih1, ih2⟩ := ih sel2 (decodeStep m options acc v) htail
        constructor
        · rw [ih1, hfst]
          rfl
        · rw [ih2, hgns, List.map_cons, List.append_assoc,
            List.singleton_append]

/-- Telescoping of the main-effect contribution changes: with distinct
selected positions and per-selection gains measuring the one-feature change,
the total main-effect change of the rewritten sample is the sum of the
selected score gains. -/
lemma mains_sum_telescope (m : EBMModel) :
    ∀ (sel : List (ℕ × MainOpt)) (sample : List JsVal),
      (∀ p ∈ sel, p.1 < sample.length) →
      (sel.map Prod.fst).Nodup →
      (∀ p ∈ sel, p.2.scoreGain =
        mainScoreOf m (encodeSample m (sample.set p.1 p.2.target)) p.1 -
        mainScoreOf m (encodeSample m sample) p.1 +
        ((p.2.interScoreGains.map Prod.snd).sum)) →
      ((List.range sample.length).map (fun j =>
        mainScoreOf m (encodeSample m (applySel sel sample)) j -
        mainScoreOf m (encodeSample m sample) j)).sum
      = (sel.map (fun p => p.2.scoreGain -
          ((p.2.interScoreGains.map Prod.snd).sum))).sum := by
  intro sel
  induction sel with
  | nil =>
    intro sample _ _ _
    simp only [List.map_nil, List.sum_nil]
    apply List.sum_eq_zero
    intro x hx
    obtain ⟨j, -, rfl⟩ := List.mem_map.mp hx
    simp [applySel]
  | cons p sel2 ih =>
    intro sample hlen hnd hgain
    have hp1 : p.1 < sample.length := hlen p (List.mem_cons_self p sel2)
    have hfinal : applySel (p :: sel2) sample =
        applySel sel2 (sample.set p.1 p.2.target) := rfl
    have hsplit : ((List.range sample.length).map (fun j =>
        mainScoreOf m (encodeSample m (applySel (p :: sel2) sample)) j -
        mainScoreOf m (encodeSample m sample) j)).sum
        = ((List.range sample.length).map (fun j =>
            mainScoreOf m (encodeSample m (applySel (p :: sel2) sample)) j -
            mainScoreOf m (encodeSample m (sample.set p.1 p.2.target)) j)).sum
          + ((List.range sample.length).map (fun j =>
              mainScoreOf m (encodeSample m (sample.set p.1 p.2.target)) j -
              mainScoreOf m (encodeSample m sample) j)).sum := by
      rw [← sum_map_add]
      apply congrArg
      apply List.map_congr_left
      intro j hj
      ring
    rw [hsplit]
    have hstep : ((List.range sample.length).map (fun j =>
        mainScoreOf m (encodeSample m (sample.set p.1 p.2.target)) j -
        mainScoreOf m (encodeSample m sample) j)).sum = p.2.scoreGain -
        ((p.2.interScoreGains.map Prod.snd).sum) := by
      rw [sum_range_single _ sample.length p.1 hp1]
      · have := hgain p (List.mem_cons_self p sel2)
        linarith
      · intro j hj hne
        have hsame : (encodeSample m (sample.set p.1 p.2.target)).getD j 0
            = (encodeSample m sample).getD j 0 :=
          encodeSample_getD_congr m _ _ j (List.length_set _ _ _)
            (getD_set_ne sample p.1 p.2.target j hne)
        rw [mainScoreOf_congr m _ _ j hsame]
        ring
    rw [hstep]
    have hndtail : (sel2.map Prod.fst).Nodup := (List.nodup_cons.mp hnd).2
    have hhead : p.1 ∉ sel2.map Prod.fst := (List.nodup_cons.mp hnd).1
    have hrest : ((List.range sample.length).map (fun j =>
        mainScoreOf m (encodeSample m (applySel (p :: sel2) sample)) j -
        mainScoreOf m (encodeSample m (sample.set p.1 p.2.target)) j)).sum
        = (sel2.map (fun q => q.2.scoreGain -
            ((q.2.interScoreGains.map Prod.snd).sum))).sum := by
      have hlen2 : sample.length = (sample.set p.1 p.2.target).length :=
        (List.length_set _ _ _).symm
      rw [hfinal]
      rw [show (List.range sample.length) =
        (List.range (sample.set p.1 p.2.target).length) by rw [← hlen2]]
      apply ih
      · intro q hq
        rw [← hlen2]
        exact hlen q (List.mem_cons_of_mem p hq)
      · exact hndtail
      · intro q hq
        have hqp : q.1 ≠ p.1 := by
          intro h
          exact hhead (h ▸ List.mem_map.mpr ⟨q, hq, rfl⟩)
        have hq1 : q.1 < sample.length := hlen q (List.mem_cons_of_mem p hq)
        have e1 : (encodeSample m ((sample.set p.1 p.2.target).set q.1
            q.2.target)).getD q.1 0
            = (encodeSample m (sample.set q.1 q.2.target)).getD q.1 0 := by
          apply encodeSample_getD_congr
          · simp
          · rw [getD_set_self _ _ _ (by simpa using hq1),
              getD_set_self _ _ _ hq1]
        have e2 : (encodeSample m (sample.set p.1 p.2.target)).getD q.1 0
            = (encodeSample m sample).getD q.1 0 := by
          apply encodeSample_getD_congr
          · simp
          · exact getD_set_ne sample p.1 p.2.target q.1 hqp
        rw [mainScoreOf_congr m _ _ q.1 e1, mainScoreOf_congr m _ _ q.1 e2]
        exact hgain q (List.mem_cons_of_mem p hq)
    rw [hrest, List.map_cons, List.sum_cons]
    ring

/-- Claim C1 (amended): the score gains reported for a solution are exactly
the selected main-effect options' stored gains, each being the option's pure
main-effect change plus its recorded per-interaction attributions (computed
with the other features at their original bins); feeding the solution's full
modified sample back into the scoring engine yields a total-score difference
equal to the reported sum minus those recorded attributions plus the net
change of the interaction contributions. In particular the original equation
(difference = reported sum) fails when moved features share an interaction
term. -/
theorem C1_roundtrip_gains (m : EBMModel) (options : OptionsMap)
    (sample : List JsVal) (active : List String) (sel : List (ℕ × MainOpt))
    (hsel : List.Forall₂ (fun v p =>
        jsIndexOfStr m.featureNames (parseMainVar v).1 = ((p.1 : ℕ) : ℤ) ∧
        (lookupMains options (parseMainVar v).1).find?
          (fun o => o.binIndex == (parseMainVar v).2) = some p.2)
      (active.filter (fun v => ¬ hasInterSep v)) sel)
    (hlen : ∀ p ∈ sel, p.1 < sample.length)
    (hnd : (sel.map Prod.fst).Nodup)
    (hgain : ∀ p ∈ sel, p.2.scoreGain =
      mainScoreOf m (encodeSample m (sample.set p.1 p.2.target)) p.1 -
      mainScoreOf m (encodeSample m sample) p.1 +
      ((p.2.interScoreGains.map Prod.snd).sum)) :
    (decodeSolution m options sample active).2.2 =
      sel.map (fun p => p.2.scoreGain) ∧
    predTotalScore m (decodeSolution m options sample active).1 -
        predTotalScore m sample =
      ((decodeSolution m options sample active).2.2).sum -
      (sel.map (fun p => ((p.2.interScoreGains.map Prod.snd).sum))).sum +
      ((List.range m.interactionIndexes.length).map (fun k =>
        interScoreOf m
          (encodeSample m (decodeSolution m options sample active).1) k -
        interScoreOf m (encodeSample m sample) k)).sum := by
  obtain ⟨h1, h2⟩ := decode_spec m options active sel (sample, [], []) hsel
  rw [decodeSolution] at *
  simp only [List.nil_append] at h2
  refine ⟨h2, ?_⟩
  rw [h1, h2]
  have htel := mains_sum_telescope m sel sample hlen hnd hgain
  rw [sum_map_sub, sum_map_sub] at htel
  rw [predTotalScore_eq m (applySel sel sample), predTotalScore_eq m sample]
  rw [applySel_length]
  rw [sum_map_sub]
  linarith [htel]

/-- Concrete two-continuous-feature model with one interaction term for the
C1 counterexample: moving both features to their upper bins gains 3 and 4
from the main effects and 1 from the interaction term. -/
def mC1 : EBMModel :=
  { featureNames := ["a", "b"], featureTypes := ["continuous", "continuous"],
    binEdges := [[0, 10], [0, 10]], scores := [[0, 3], [0, 4]], intercept := 0,
    interactionIndexes := [(0, 1)], interactionBinEdges := [([0, 10], [0, 10])],
    interactionScores := [[[0, 0], [0, 1]]], isClassifier := false,
    labelEncoder := fun _ _ => none, labelDecoder := fun _ _ => none }

/-- Sample of interest of the C1 instance. -/
def sC1 : List JsVal := [.num 1, .num 1]

/-- Option generated for feature `a` (move to bin 1). -/
def optAC1 : MainOpt :=
  { target := .num 10, scoreGain := 3, distance := 9, binIndex := 1,
    interScoreGains := [(0, 0)] }

/-- Option generated for feature `b` (move to bin 1). -/
def optBC1 : MainOpt :=
  { target := .num 10, scoreGain := 4, distance := 9, binIndex := 1,
    interScoreGains := [(0, 0)] }

/-- Interaction option generated for the pair of parent options. -/
def ioC1 : InterOpt :=
  { target1 := .num 10, target2 := .num 10, scoreGain := 1, distance := 0,
    binIndex1 := 1, binIndex2 := 1 }

/-- Option map assembled by the C1 run. -/
def optsC1 : OptionsMap :=
  { mains := [("a", [optAC1]), ("b", [optBC1])],
    inters := [("a x b", [ioC1])] }

/-- Solution returned by the C1 solver: both main options and the
interaction auxiliary variable. -/
def solC1 : List String × ℚ := (["a:1", "b:1", "a x b:1,1"], 18)

/-- The model submitted to the solver in the single C1 iteration. -/
def modelC1 : MilpModel := createMILP 1 5 ["a", "b"] optsC1 none []

/-- Concrete solver of the C1 run. -/
def solveC1 : MilpModel → Option (List String × ℚ) :=
  fun model => if model = modelC1 then some solC1 else none

/-- Configuration of the C1 run: regression toward the range `[5, 100]`. -/
def cfgC1 : CfConfig :=
  { curExample := sC1, totalCfs := 1, targetRange := some (5, 100),
    simThresholdFactor := 1, simThreshold := some 1,
    categoricalWeight := some 1, featuresToVary := some ["a", "b"],
    maxNumFeaturesToVary := none, featureRanges := [],
    featureWeightMultipliers := [], continuousIntegerFeatures := [] }

/-- Binary search on the C1 edges for the current value. -/
lemma sslC1_low : searchSortedLowerIndex [0, 10] (1 : ℚ) = 0 := by
  rw [searchSortedLowerIndex_eq_count _ _ (by decide) (by decide)]
  norm_num [List.countP_cons]

/-- Binary search on the C1 edges for the target value. -/
lemma sslC1_high : searchSortedLowerIndex [0, 10] (10 : ℚ) = 1 := by
  rw [searchSortedLowerIndex_eq_count _ _ (by decide) (by decide)]
  norm_num [List.countP_cons]

/-- The two feature types of the C1 model differ from `categorical`. -/
lemma contC1 : ¬ ("continuous" : String) = "categorical" := by decide

/-- The interaction key of the C1 model. -/
lemma interNameC1 : ("a" : String) ++ " x " ++ "b" = "a x b" := by decide

/-- Encoded C1 sample. -/
lemma esC1 : encodeSample mC1 sC1 = [1, 1] := by
  rw [encodeSample]
  norm_num [mC1, sC1, List.range_succ, JsVal.toQ, contC1]

/-- Encoded modified C1 sample. -/
lemma esC1m : encodeSample mC1 [JsVal.num 10, JsVal.num 10] = [10, 10] := by
  rw [encodeSample]
  norm_num [mC1, List.range_succ, JsVal.toQ, contC1]

/-- Scores counted for the C1 sample. -/
lemma countScoreC1 :
    countScore mC1 sC1 = [("a", 0), ("b", 0), ("a x b", 0)] := by
  rw [countScore, esC1]
  norm_num [countScoreMains, countScoreInters, mainScoreOf, interScoreOf,
    interBinOf, interScoreAt, interName, jsGetD, jsGet, mC1, sC1,
    List.range_succ, sslC1_low, contC1, interNameC1]

/-- Scores counted for the modified C1 sample. -/
lemma countScoreC1m :
    countScore mC1 [JsVal.num 10, JsVal.num 10] =
      [("a", 3), ("b", 4), ("a x b", 1)] := by
  rw [countScore, esC1m]
  norm_num [countScoreMains, countScoreInters, mainScoreOf, interScoreOf,
    interBinOf, interScoreAt, interName, jsGetD, jsGet, mC1,
    List.range_succ, sslC1_high, contC1, interNameC1]

/-- Bound state of the C1 sample. -/
lemma stC1 : ebmLocalInit (fun q => q) mC1 sC1 =
    { sample := sC1, countedScores := [("a", 0), ("b", 0), ("a x b", 0)],
      predScore := 0, predProb := 0, pred := 0 } := by
  rw [ebmLocalInit, countScoreC1]
  norm_num [mC1]

/-- Total score of the C1 sample. -/
lemma totalC1 : predTotalScore mC1 sC1 = 0 := by
  rw [predTotalScore, countScoreC1]
  norm_num [mC1]

/-- Total score of the modified C1 sample. -/
lemma totalC1m : predTotalScore mC1 [JsVal.num 10, JsVal.num 10] = 8 := by
  rw [predTotalScore, countScoreC1m]
  norm_num [mC1]

/-- Distance of the C1 move. -/
lemma habsC1 : |(10 : ℚ) - 1| = 9 := by
  rw [abs_of_nonneg (by norm_num)]
  norm_num

/-- Options generated for feature `a` of the C1 instance. -/
lemma genContA : generateContOptions mC1 1 0 "a" 1 0 (fun _ => 1)
    [JsVal.num 1, JsVal.num 1] (some 100) 1 false true = [optAC1] := by
  rw [generateContOptions, contCollectedOptions]
  simp only [mC1, List.getD]
  norm_num [sslC1_low, sslC1_high, habsC1, List.filterMap_cons,
    contOptionForBin, contTargetDistance, contOptionFilters, Option.elim,
    assocInterOf, gridAtD, jsGetD, jsGet, JsVal.toQ, contC1, optAC1,
    List.mergeSort, List.merge, pruneRedundant, List.filter,
    show List.range 2 = [0, 1] from rfl, show List.range 1 = [0] from rfl,
    sC1]

/-- Options generated for feature `b` of the C1 instance. -/
lemma genContB : generateContOptions mC1 1 1 "b" 1 0 (fun _ => 1)
    [JsVal.num 1, JsVal.num 1] (some 100) 1 false true = [optBC1] := by
  rw [generateContOptions, contCollectedOptions]
  simp only [mC1, List.getD]
  norm_num [sslC1_low, sslC1_high, habsC1, List.filterMap_cons,
    contOptionForBin, contTargetDistance, contOptionFilters, Option.elim,
    assocInterOf, gridAtD, jsGetD, jsGet, JsVal.toQ, contC1, optBC1,
    List.mergeSort, List.merge, pruneRedundant, List.filter,
    show List.range 2 = [0, 1] from rfl, show List.range 1 = [0] from rfl,
    sC1]

/-- Main-effect option map of the C1 run. -/
lemma mainsC1 : generateMainOptions mC1 (fun _ => 1) (fun _ _ => 1)
    { sample := sC1, countedScores := [("a", 0), ("b", 0), ("a x b", 0)],
      predScore := 0, predProb := 0, pred := 0 } 1 (some 100) 1 sC1 [] []
    = [("a", [optAC1]), ("b", [optBC1])] := by
  rw [generateMainOptions]
  norm_num +decide [sC1, List.filterMap_cons, List.lookup, contC1,
    genContA, genContB, JsVal.toQ,
    (by decide : ((("a" : String) == "a") = true)),
    (by decide : ((("b" : String) == "a") = false)),
    (by decide : ((("a" : String) == "b") = false)),
    (by decide : ((("b" : String) == "b") = true)),
    (by decide : ((("a x b" : String) == "a") = false)),
    (by decide : ((("a x b" : String) == "b") = false)),
    show List.range 2 = [0, 1] from rfl,
    show mC1.featureNames = ["a", "b"] from rfl,
    show mC1.featureTypes = ["continuous", "continuous"] from rfl]

/-- Interaction option map of the C1 run. -/
lemma intersC1 : generateAllInterOptions mC1
    { sample := sC1, countedScores := [("a", 0), ("b", 0), ("a x b", 0)],
      predScore := 0, predProb := 0, pred := 0 }
    [("a", [optAC1]), ("b", [optBC1])] = .ok [("a x b", [ioC1])] := by
  rw [generateAllInterOptions]
  norm_num +decide [interName, interNameC1, List.lookup,
    generateInterOptions, interOptionOfPair, interPairBins, gridAtD,
    (by decide : ((("a" : String) == "a x b") = false)),
    (by decide : ((("b" : String) == "a x b") = false)),
    (by decide : ((("a x b" : String) == "a x b") = true)),
    (by decide : ((("a" : String) == "a") = true)),
    (by decide : ((("b" : String) == "a") = false)),
    (by decide : ((("a" : String) == "b") = false)),
    (by decide : ((("b" : String) == "b") = true)),
    findCommonIndex, findCommonIndexAux, breakdownGainAt, jsGetD, jsGet,
    sslC1_high, JsVal.toQ, contC1, optAC1, optBC1, ioC1, List.mapM,
    List.mapM.loop, Functor.map, Except.map, bind, Except.bind, pure,
    Except.pure, show List.range 1 = [0] from rfl,
    show mC1.featureNames = ["a", "b"] from rfl,
    show mC1.featureTypes = ["continuous", "continuous"] from rfl,
    show mC1.interactionIndexes = [(0, 1)] from rfl,
    show mC1.interactionBinEdges = [([0, 10], [0, 10])] from rfl,
    show mC1.interactionScores = [[[0, 0], [0, 1]]] from rfl]

/-- Rescaling leaves the all-continuous C1 option map unchanged. -/
lemma rescaleC1 : rescaleMainOptions mC1 (some 1) []
    [("a", [optAC1]), ("b", [optBC1])] = [("a", [optAC1]), ("b", [optBC1])] := by
  rw [rescaleMainOptions]
  norm_num +decide [jsIndexOfStr, List.findIdx?, List.lookup, contC1,
    show mC1.featureNames = ["a", "b"] from rfl,
    show mC1.featureTypes = ["continuous", "continuous"] from rfl]

/-- Assignment selecting both main options and the interaction auxiliary. -/
def aC1 : String → ℚ :=
  fun v => if v = "a:1" ∨ v = "b:1" ∨ v = "a x b:1,1" then 1 else 0

/-- The C1 model, evaluated. -/
lemma modelC1_eval :
    modelC1 =
      { subjectTo :=
          [{ name := "bound-cons-a", vars := [{ name := "a:1", coef := 1 }],
             bnds := GlpBnds.up 1 },
           { name := "bound-cons-b", vars := [{ name := "b:1", coef := 1 }],
             bnds := GlpBnds.up 1 },
           { name := "a x b:1,1-1",
             vars := [{ name := "a x b:1,1", coef := 1 },
                      { name := "a:1", coef := -1 }],
             bnds := GlpBnds.up 0 },
           { name := "a x b:1,1-2",
             vars := [{ name := "a x b:1,1", coef := 1 },
                      { name := "b:1", coef := -1 }],
             bnds := GlpBnds.up 0 },
           { name := "a x b:1,1-3",
             vars := [{ name := "a:1", coef := 1 }, { name := "b:1", coef := 1 },
                      { name := "a x b:1,1", coef := -1 }],
             bnds := GlpBnds.up 1 },
           { name := "cf-constraint",
             vars := [{ name := "a:1", coef := 3 }, { name := "b:1", coef := 4 },
                      { name := "a x b:1,1", coef := 1 }],
             bnds := GlpBnds.lo 5 }]
        binaries := ["a:1", "b:1"]
        bounds := [{ name := "a x b:1,1", lb := 0, ub := 1 }]
        objectiveVars := [{ name := "a:1", coef := 9 },
                          { name := "b:1", coef := 9 }] } := by
  decide

/-- The C1 assignment is feasible for the C1 model. -/
lemma aC1_feasible : FeasibleAssignment modelC1 aC1 := by
  have hb : ¬ (("b:1" : String) = "a:1") := by decide
  have hz : ¬ (("a x b:1,1" : String) = "a:1") := by decide
  have hz2 : ¬ (("a x b:1,1" : String) = "b:1") := by decide
  rw [modelC1_eval, FeasibleAssignment]
  refine ⟨?_, ?_, ?_⟩
  · intro c hc
    simp only [List.mem_cons, List.mem_singleton] at hc
    rcases hc with rfl | rfl | rfl | rfl | rfl | rfl | hfalse
    · rw [satisfiesConstraint]
      norm_num [evalLinTerms, aC1]
    · rw [satisfiesConstraint]
      norm_num [evalLinTerms, aC1]
    · rw [satisfiesConstraint]
      norm_num [evalLinTerms, aC1]
    · rw [satisfiesConstraint]
      norm_num [evalLinTerms, aC1]
    · rw [satisfiesConstraint]
      norm_num [evalLinTerms, aC1]
    · rw [satisfiesConstraint]
      norm_num [evalLinTerms, aC1]
    · exact absurd hfalse (List.not_mem_nil c)
  · intro v hv
    simp only [List.mem_cons, List.mem_singleton, List.not_mem_nil, or_false]
      at hv
    rcases hv with rfl | rfl
    · right
      norm_num [aC1]
    · right
      norm_num [aC1]
  · intro b hb2
    simp only [List.mem_singleton, List.mem_cons, List.not_mem_nil, or_false]
      at hb2
    subst hb2
    norm_num [aC1]

/-- Active variables of the C1 assignment. -/
lemma activeC1 : activeOf modelC1 aC1 = ["a:1", "b:1", "a x b:1,1"] := by
  decide

/-- The C1 solver response is sound for the submitted model. -/
lemma respC1 : SolverRespOk modelC1 solC1 :=
  ⟨aC1, aC1_feasible, activeC1.symm⟩

/-- The single C1 solver iteration. -/
lemma loopC1 : cfSolveLoop solveC1 1 5 ["a", "b"] optsC1 none 1 [] [] =
    ([solC1], ["a:1", "b:1", "a x b:1,1"], true) := by
  have hs : solveC1 (createMILP 1 5 ["a", "b"] optsC1 none []) = some solC1 := by
    rw [show createMILP 1 5 ["a", "b"] optsC1 none [] = modelC1 from rfl,
      solveC1]
    simp
  rw [show (1 : ℕ) = 0 + 1 from rfl, cfSolveLoop, hs]
  rfl

/-- Output record of the C1 run. -/
def outC1 : CfOutput :=
  { data := [[.num 10, .num 10]], distances := [18],
    targetRanges := [[.contRange 10 none, .contRange 10 none]],
    scoreGains := [[3, 4]], isSuccessful := true,
    activeVariables := [["a:1", "b:1"]] }

/-- Resume state of the C1 run. -/
def nextC1 : NextCfConfig :=
  { cfDirection := 1, neededScoreGain := 5, featuresToVary := ["a", "b"],
    options := optsC1, maxNumFeaturesToVary := none,
    mutedVariables := ["a:1", "b:1", "a x b:1,1"] }

/-- Decoding of the C1 run: the reported score gains are the two main-effect
gains only. -/
lemma convertC1 : convertCfToData mC1 sC1 optsC1 [solC1] true = outC1 := by
  decide

/-- Setup of the C1 regression run: direction `+1`, needed gain 5. -/
lemma setupC1 : cfSetup false 0 0 (some (5, 100)) = .ok (1, 5, some 100) := by
  rw [cfSetup]
  norm_num
  intro h
  exact Option.noConfusion h

/-- The full C1 `generateCfs` run. -/
lemma generateCfsC1 :
    generateCfs (fun q => q) mC1 (fun _ => 1) (fun _ _ => 1) solveC1 cfgC1 =
      .ok (outC1, nextC1) := by
  rw [generateCfs]
  simp only [cfgC1, stC1, Option.getD_some,
    show mC1.isClassifier = false from rfl]
  rw [setupC1]
  simp only [bind, Except.bind]
  rw [mainsC1, intersC1]
  simp only [bind, Except.bind]
  rw [rescaleC1]
  rw [show OptionsMap.mk [("a", [optAC1]), ("b", [optBC1])]
      [("a x b", [ioC1])] = optsC1 from rfl]
  rw [loopC1]
  rw [convertC1]
  rfl

/-- Claim C1 counterexample: the solver-sound C1 run succeeds and reports
score gains `[3, 4]`, yet re-scoring its modified sample changes the total
score by 8: the interaction contribution of the two moved features is missing
from `scoreGains`, so the claimed round-trip equation fails. -/
theorem C1_counterexample :
    generateCfs (fun q => q) mC1 (fun _ => 1) (fun _ _ => 1) solveC1 cfgC1 =
      .ok (outC1, nextC1) ∧
    SolverRespOk modelC1 solC1 ∧
    outC1.isSuccessful = true ∧
    predTotalScore mC1 (outC1.data.getD 0 []) -
      predTotalScore mC1 cfgC1.curExample = 8 ∧
    (outC1.scoreGains.getD 0 []).sum = 7 ∧
    predTotalScore mC1 (outC1.data.getD 0 []) -
        predTotalScore mC1 cfgC1.curExample ≠
      (outC1.scoreGains.getD 0 []).sum := by
  have hdiff : predTotalScore mC1 (outC1.data.getD 0 []) -
      predTotalScore mC1 cfgC1.curExample = 8 := by
    show predTotalScore mC1 [JsVal.num 10, JsVal.num 10] -
      predTotalScore mC1 sC1 = 8
    rw [totalC1m, totalC1]
    norm_num
  have hsum : (outC1.scoreGains.getD 0 []).sum = 7 := by
    norm_num [outC1]
  refine ⟨generateCfsC1, respC1, rfl, hdiff, hsum, ?_⟩
  rw [hdiff, hsum]
  norm_num

/-- Model of the C1 witness: the same features as `mC1`, with interaction
grid `[[0, 2], [3, 10]]`, so each generated option carries a nonzero recorded
interaction attribution. -/
def mW : EBMModel :=
  { featureNames := ["a", "b"], featureTypes := ["continuous", "continuous"],
    binEdges := [[0, 10], [0, 10]], scores := [[0, 3], [0, 4]], intercept := 0,
    interactionIndexes := [(0, 1)], interactionBinEdges := [([0, 10], [0, 10])],
    interactionScores := [[[0, 2], [3, 10]]], isClassifier := false,
    labelEncoder := fun _ _ => none, labelDecoder := fun _ _ => none }

/-- Option for feature `a` of the C1 witness: pure main change 3 plus the
attribution 3 read with feature `b` at its original bin. -/
def optAW : MainOpt :=
  { target := .num 10, scoreGain := 6, distance := 9, binIndex := 1,
    interScoreGains := [(0, 3)] }

/-- Option for feature `b` of the C1 witness: pure main change 4 plus the
attribution 2 read with feature `a` at its original bin. -/
def optBW : MainOpt :=
  { target := .num 10, scoreGain := 6, distance := 9, binIndex := 1,
    interScoreGains := [(0, 2)] }

/-- Option map of the C1 witness. -/
def optsW : OptionsMap :=
  { mains := [("a", [optAW]), ("b", [optBW])], inters := [] }

/-- Encoded C1 witness sample. -/
lemma esW : encodeSample mW sC1 = [1, 1] := by
  rw [encodeSample]
  norm_num [mW, sC1, List.range_succ, JsVal.toQ, contC1]

/-- Encoded sample with only feature `a` moved. -/
lemma esWa : encodeSample mW [JsVal.num 10, JsVal.num 1] = [10, 1] := by
  rw [encodeSample]
  norm_num [mW, List.range_succ, JsVal.toQ, contC1]

/-- Encoded sample with only feature `b` moved. -/
lemma esWb : encodeSample mW [JsVal.num 1, JsVal.num 10] = [1, 10] := by
  rw [encodeSample]
  norm_num [mW, List.range_succ, JsVal.toQ, contC1]

/-- Each C1 witness option's stored gain is its pure one-feature main-effect
change plus its recorded interaction attribution. -/
lemma hgainW : ∀ p ∈ [((0 : ℕ), optAW), (1, optBW)], p.2.scoreGain =
    mainScoreOf mW (encodeSample mW (sC1.set p.1 p.2.target)) p.1 -
    mainScoreOf mW (encodeSample mW sC1) p.1 +
    ((p.2.interScoreGains.map Prod.snd).sum) := by
  intro p hp
  rcases List.mem_cons.mp hp with rfl | hp2
  · rw [show sC1.set 0 optAW.target = [JsVal.num 10, JsVal.num 1] from rfl,
      esWa, esW]
    norm_num [optAW, mainScoreOf, mW, jsGetD, jsGet, sslC1_low, sslC1_high]
  · rcases List.mem_singleton.mp hp2 with rfl
    rw [show sC1.set 1 optBW.target = [JsVal.num 1, JsVal.num 10] from rfl,
      esWb, esW]
    norm_num [optBW, mainScoreOf, mW, jsGetD, jsGet, sslC1_low, sslC1_high]

/-- Selection hypotheses of the C1 witness. -/
lemma hselW : List.Forall₂ (fun v p =>
    jsIndexOfStr mW.featureNames (parseMainVar v).1 = ((p.1 : ℕ) : ℤ) ∧
    (lookupMains optsW (parseMainVar v).1).find?
      (fun o => o.binIndex == (parseMainVar v).2) = some p.2)
    ((["a:1", "b:1", "a x b:1,1"]).filter (fun v => ¬ hasInterSep v))
    [((0 : ℕ), optAW), (1, optBW)] := by
  rw [show (["a:1", "b:1", "a x b:1,1"].filter (fun v => ¬ hasInterSep v)) =
    ["a:1", "b:1"] from by decide]
  refine List.Forall₂.cons ⟨by decide, by decide⟩
    (List.Forall₂.cons ⟨by decide, by decide⟩ List.Forall₂.nil)

/-- Witness for the amended C1 at an instance with nonzero interaction
attributions: the reported gains are the two selected options' stored gains,
and the score difference is their sum minus the recorded attributions plus
the net interaction change. -/
theorem C1_roundtrip_gains_witness :
    (List.Forall₂ (fun v p =>
        jsIndexOfStr mW.featureNames (parseMainVar v).1 = ((p.1 : ℕ) : ℤ) ∧
        (lookupMains optsW (parseMainVar v).1).find?
          (fun o => o.binIndex == (parseMainVar v).2) = some p.2)
      ((["a:1", "b:1", "a x b:1,1"]).filter (fun v => ¬ hasInterSep v))
      [((0 : ℕ), optAW), (1, optBW)] ∧
     (∀ p ∈ [((0 : ℕ), optAW), (1, optBW)], p.1 < sC1.length) ∧
     (([((0 : ℕ), optAW), (1, optBW)].map Prod.fst).Nodup) ∧
     (∀ p ∈ [((0 : ℕ), optAW), (1, optBW)], p.2.scoreGain =
       mainScoreOf mW (encodeSample mW (sC1.set p.1 p.2.target)) p.1 -
       mainScoreOf mW (encodeSample mW sC1) p.1 +
       ((p.2.interScoreGains.map Prod.snd).sum))) ∧
    ((decodeSolution mW optsW sC1 ["a:1", "b:1", "a x b:1,1"]).2.2 =
      [((0 : ℕ), optAW), (1, optBW)].map (fun p => p.2.scoreGain) ∧
    predTotalScore mW
        (decodeSolution mW optsW sC1 ["a:1", "b:1", "a x b:1,1"]).1 -
        predTotalScore mW sC1 =
      ((decodeSolution mW optsW sC1 ["a:1", "b:1", "a x b:1,1"]).2.2).sum -
      ([((0 : ℕ), optAW), (1, optBW)].map (fun p =>
        ((p.2.interScoreGains.map Prod.snd).sum))).sum +
      ((List.range mW.interactionIndexes.length).map (fun k =>
        interScoreOf mW (encodeSample mW
          (decodeSolution mW optsW sC1 ["a:1", "b:1", "a x b:1,1"]).1) k -
        interScoreOf mW (encodeSample mW sC1) k)).sum) :=
  ⟨⟨hselW, by decide, by decide, hgainW⟩,
   C1_roundtrip_gains mW optsW sC1 ["a:1", "b:1", "a x b:1,1"]
     [((0 : ℕ), optAW), (1, optBW)] hselW (by decide) (by decide) hgainW⟩
